import Mathlib

/-!
Sequencer strip editing: split, slip, queries, selection and swap.

A shallow embedding of the strip editing code of
`source/blender/editors/space_sequencer/sequencer_edit.c`, followed by the
comparison operators of `source/blender/io/common/intern/object_identifier.cc`.

Frames are C `int`s; they are embedded as `Int`.  Strips are far below the
`int` range in every operation considered here, so no wrap-around is modelled.
A strip that the C code mutates through a pointer is passed in and returned.
-/

namespace Sequencer

/-! ## Data model -/

/-- Modelled from the spec: the `SEQ_TYPE_*` constants live in a DNA header that
is not part of the sources.  The spec lists the kinds of strip: movie, image,
sound, scene reference, meta-group, or one of several effect kinds.  The test
`seq->type == SEQ_TYPE_META` is `type = SeqType.meta`; the test
`seq->type & SEQ_TYPE_EFFECT` is `SeqType.isEffect`. -/
inductive SeqType where
  | movie
  | image
  | sound
  | scene
  | meta
  | effect (kind : Nat)
  deriving DecidableEq, Repr

/-- The bit test `type & SEQ_TYPE_EFFECT`. -/
def SeqType.isEffect : SeqType → Bool
  | SeqType.effect _ => true
  | _ => false

/-- Modelled from the spec: the selection bit of `flag`; its value is declared
in a header that is not part of the sources. -/
def SELECT : Nat := 1

/-- The timing, placement and state fields of `struct Sequence` that the
editing code reads and writes.  `depth` is the nesting level, 0 for a strip of
the top-level list. -/
structure Sequence where
  start : Int
  len : Int
  startofs : Int
  endofs : Int
  startstill : Int
  endstill : Int
  startdisp : Int
  enddisp : Int
  anim_startofs : Int
  anim_endofs : Int
  machine : Int
  type : SeqType
  flag : Nat
  depth : Int := 0
  deriving DecidableEq, Repr

/-- The snapshot record `struct TransSeq`. -/
structure TransSeq where
  start : Int
  machine : Int
  startstill : Int
  endstill : Int
  startdisp : Int
  enddisp : Int
  startofs : Int
  endofs : Int
  anim_startofs : Int
  anim_endofs : Int
  len : Int
  deriving DecidableEq, Repr

/-- The function `transseq_backup`: copy the eleven fields of the strip. -/
def transseq_backup (seq : Sequence) : TransSeq :=
  { start := seq.start
    machine := seq.machine
    startstill := seq.startstill
    endstill := seq.endstill
    startdisp := seq.startdisp
    enddisp := seq.enddisp
    startofs := seq.startofs
    endofs := seq.endofs
    anim_startofs := seq.anim_startofs
    anim_endofs := seq.anim_endofs
    len := seq.len }

/-- The function `transseq_restore`: write the eleven fields back. -/
def transseq_restore (ts : TransSeq) (seq : Sequence) : Sequence :=
  { seq with
    start := ts.start
    machine := ts.machine
    startstill := ts.startstill
    endstill := ts.endstill
    startdisp := ts.startdisp
    enddisp := ts.enddisp
    startofs := ts.startofs
    endofs := ts.endofs
    anim_startofs := ts.anim_startofs
    anim_endofs := ts.anim_endofs
    len := ts.len }

/-! ## Recalculation, reload and duplication (kernel side) -/

/-- Modelled from the spec: the display formulas of the recalculation engine,
`startdisp = start + startofs - startstill` and
`enddisp = start + len - endofs + endstill`.  The kernel function is not part
of the sources. -/
def BKE_sequence_calc_disp (seq : Sequence) : Sequence :=
  { seq with
    startdisp := seq.start + seq.startofs - seq.startstill
    enddisp := seq.start + seq.len - seq.endofs + seq.endstill }

/-- Smallest `startdisp` of a list of strips, starting from `acc`. -/
def minStartdisp (acc : Int) : List Sequence → Int
  | [] => acc
  | s :: rest => minStartdisp (min acc s.startdisp) rest

/-- Largest `enddisp` of a list of strips, starting from `acc`. -/
def maxEnddisp (acc : Int) : List Sequence → Int
  | [] => acc
  | s :: rest => maxEnddisp (max acc s.enddisp) rest

/-- Modelled from the spec: `BKE_sequence_calc`, which is not part of the
sources.  Step 1 recomputes the display range by the formulas; step 2: for a
meta-group strip `len` is first derived from the bounding extent of its
children's `startdisp..enddisp`.  `seqbase` is the strip's child list
(`seq->seqbase`), empty for every strip that is not a meta-group. -/
def BKE_sequence_calc (seqbase : List Sequence) (seq : Sequence) : Sequence :=
  match seq.type, seqbase with
  | SeqType.meta, c :: rest =>
    BKE_sequence_calc_disp
      { seq with len := maxEnddisp c.enddisp rest - minStartdisp c.startdisp rest }
  | _, _ => BKE_sequence_calc_disp seq

/-- Modelled from the spec: content reload (`BKE_sequence_reload_new_file`, not
part of the sources) re-derives `len` from the backing media; `srclen` is the
length of the source.  Meta-groups and effects have no backing media of their
own and are left alone. -/
def BKE_sequence_reload_new_file (srclen : Int) (seq : Sequence) (_lock_range : Bool) :
    Sequence :=
  match seq.type with
  | SeqType.meta => seq
  | SeqType.effect _ => seq
  | _ => { seq with len := srclen - seq.anim_startofs - seq.anim_endofs }

/-- Modelled from the spec: `BKE_sequence_dupli_recursive` (not part of the
sources) makes a new strip that is a copy of the given one; it always yields a
strip. -/
def BKE_sequence_dupli_recursive (seq : Sequence) : Option Sequence :=
  some seq

/-! ## Split (soft) -/

/-- Outcome of a split: the original strip as mutated in place, and the
returned strip (`none` is `NULL`). -/
structure SplitOut where
  seq : Sequence
  seqn : Option Sequence
  deriving DecidableEq, Repr

/-- First half of `split_seq_soft`: the three-way update of the original strip.
Returns the strip and `skip_dup`. -/
def split_seq_soft_first (seq : Sequence) (split_frame : Int) : Sequence × Bool :=
  let is_end_exact : Bool := decide (seq.start + seq.len = split_frame)
  if seq.startstill ≠ 0 ∧ split_frame ≤ seq.start then
    if seq.type = SeqType.meta then
      ({ seq with startstill := seq.start - split_frame }, true)
    else
      ({ seq with
          start := split_frame - 1
          startstill := split_frame - seq.startdisp - 1
          endofs := seq.len - 1
          endstill := 0 }, false)
  else if is_end_exact = false ∧ split_frame ≥ seq.start ∧
      split_frame ≤ seq.start + seq.len then
    ({ seq with endofs := (seq.start + seq.len) - split_frame }, false)
  else if is_end_exact = true ∨ (seq.start + seq.len < split_frame ∧ seq.endstill ≠ 0) then
    ({ seq with endstill := seq.endstill - (seq.enddisp - split_frame) },
      decide (seq.type = SeqType.meta))
  else
    (seq, false)

/-- Second half of `split_seq_soft`: the three-way update of the duplicate. -/
def split_seq_soft_second (ts : TransSeq) (seqn : Sequence) (split_frame : Int) : Sequence :=
  let seqn := { seqn with flag := seqn.flag ||| SELECT }
  let is_end_exact : Bool := decide (seqn.start + seqn.len = split_frame)
  if seqn.startstill ≠ 0 ∧ split_frame = seqn.start + 1 then
    { seqn with
      start := ts.start
      startstill := ts.start - split_frame
      endofs := ts.endofs
      endstill := ts.endstill }
  else if is_end_exact = false ∧ split_frame ≥ seqn.start ∧
      split_frame ≤ seqn.start + seqn.len then
    { seqn with
      startstill := 0
      startofs := split_frame - ts.start
      endofs := ts.endofs
      endstill := ts.endstill }
  else if is_end_exact = true ∨
      (seqn.start + seqn.len < split_frame ∧ seqn.endstill ≠ 0) then
    { seqn with
      start := split_frame - ts.len + 1
      startofs := ts.len - 1
      endstill := ts.enddisp - split_frame - 1
      startstill := 0 }
  else
    seqn

/-- The function `split_seq_soft`.  `seqbase` is the child list of `seq`. -/
def split_seq_soft (seqbase : List Sequence) (seq : Sequence) (split_frame : Int) : SplitOut :=
  let ts := transseq_backup seq
  let first := split_seq_soft_first seq split_frame
  let seq := BKE_sequence_calc seqbase first.1
  let skip_dup := first.2
  let seqn : Option Sequence := if skip_dup then none else BKE_sequence_dupli_recursive seq
  match seqn with
  | none => { seq := seq, seqn := none }
  | some dup =>
    { seq := seq
      seqn := some (BKE_sequence_calc seqbase (split_seq_soft_second ts dup split_frame)) }

/-! ## Split (hard) -/

/-- First half of `split_seq_hard`: the three-way update of the original strip.
`is_end_exact` is the value computed on entry.  Returns the strip and
`skip_dup`. -/
def split_seq_hard_first (is_end_exact : Bool) (seq : Sequence) (split_frame : Int) :
    Sequence × Bool :=
  if seq.startstill ≠ 0 ∧ split_frame ≤ seq.start then
    if seq.type = SeqType.meta then
      ({ seq with startstill := seq.start - split_frame }, true)
    else
      ({ seq with
          start := split_frame - 1
          startstill := split_frame - seq.startdisp - 1
          anim_endofs := seq.anim_endofs + (seq.len - 1)
          endstill := 0 }, false)
  else if is_end_exact = false ∧
      (split_frame ≥ seq.start ∧ split_frame ≤ seq.start + seq.len) then
    ({ seq with
        endofs := 0
        endstill := 0
        anim_endofs := seq.anim_endofs + ((seq.start + seq.len) - split_frame) }, false)
  else if is_end_exact = true ∨ (seq.start + seq.len < split_frame ∧ seq.endstill ≠ 0) then
    ({ seq with endstill := seq.endstill - (seq.enddisp - split_frame) },
      decide (seq.type = SeqType.meta))
  else
    (seq, false)

/-- Second half of `split_seq_hard`: the three-way update of the duplicate. -/
def split_seq_hard_second (is_end_exact : Bool) (ts : TransSeq) (seqn : Sequence)
    (split_frame : Int) : Sequence :=
  let seqn := { seqn with flag := seqn.flag ||| SELECT }
  if seqn.startstill ≠ 0 ∧ split_frame = seqn.start + 1 then
    { seqn with
      start := ts.start
      startstill := ts.start - split_frame
      anim_endofs := ts.anim_endofs
      endstill := ts.endstill }
  else if is_end_exact = false ∧
      (split_frame ≥ seqn.start ∧ split_frame ≤ seqn.start + seqn.len) then
    { seqn with
      start := split_frame
      startstill := 0
      startofs := 0
      endofs := ts.endofs
      anim_startofs := seqn.anim_startofs + (split_frame - ts.start)
      anim_endofs := ts.anim_endofs
      endstill := ts.endstill }
  else if is_end_exact = true ∨
      (seqn.start + seqn.len < split_frame ∧ seqn.endstill ≠ 0) then
    { seqn with
      start := split_frame
      startofs := 0
      anim_startofs := seqn.anim_startofs + (ts.len - 1)
      endstill := ts.enddisp - split_frame - 1
      startstill := 0 }
  else
    seqn

/-- The function `split_seq_hard`.  `srclen` is the length of the backing media
seen by the reload, `seqbase` the child list of `seq`. -/
def split_seq_hard (srclen : Int) (seqbase : List Sequence) (seq : Sequence)
    (split_frame : Int) : SplitOut :=
  let is_end_exact : Bool := decide (seq.start + seq.len = split_frame)
  let ts := transseq_backup seq
  let seq :=
    if seq.type ≠ SeqType.meta then
      BKE_sequence_calc seqbase (BKE_sequence_reload_new_file srclen seq true)
    else seq
  let first := split_seq_hard_first is_end_exact seq split_frame
  let seq := BKE_sequence_calc seqbase (BKE_sequence_reload_new_file srclen first.1 false)
  let skip_dup := first.2
  let seqn : Option Sequence := if skip_dup then none else BKE_sequence_dupli_recursive seq
  match seqn with
  | none => { seq := seq, seqn := none }
  | some dup =>
    { seq := seq
      seqn := some (BKE_sequence_calc seqbase
        (BKE_sequence_reload_new_file srclen
          (split_seq_hard_second is_end_exact ts dup split_frame) false)) }

/-! ## Slip -/

/-- The arrays of `struct SlipData`: the snapshots `ts`, the collected strips
`seq_array` (the state of the strips the pointers refer to), the flags `trim`
and the count `num_seq`.  `seqbase` gives, for each collected strip, the
positions in `seq_array` of the strips of its child list: every child of a
collected meta-group is collected too, so the child pointers are positions. -/
structure SlipData where
  ts : List TransSeq
  seq_array : List Sequence
  trim : List Bool
  num_seq : Nat
  seqbase : List (List Nat)
  deriving DecidableEq, Repr

/-- The strips of a child list given by positions. -/
def childStrips (arr : List Sequence) (idx : List Nat) : List Sequence :=
  idx.filterMap fun j => arr[j]?

/-- Body of the loop of `sequencer_slip_recursively` up to the recalculation:
offset the start, then either recompute the stills and offsets (trimmed strip)
or move the display range (strip without transform data).  Returns the strip
and the value assigned to `changed`. -/
def slip_update (ts : TransSeq) (trim : Bool) (offset : Int) (seq : Sequence) :
    Sequence × Bool :=
  let seq := { seq with start := ts.start + offset }
  if trim then
    let endframe := seq.start + seq.len
    let r1 : Sequence × Bool :=
      if endframe > seq.enddisp then
        ({ seq with endstill := 0, endofs := endframe - seq.enddisp }, true)
      else if endframe ≤ seq.enddisp then
        ({ seq with endstill := seq.enddisp - endframe, endofs := 0 }, true)
      else (seq, false)
    let seq := r1.1
    if seq.start > seq.startdisp then
      ({ seq with startstill := seq.start - seq.startdisp, startofs := 0 }, true)
    else if seq.start ≤ seq.startdisp then
      ({ seq with startstill := 0, startofs := seq.startdisp - seq.start }, true)
    else (seq, r1.2)
  else
    ({ seq with startdisp := ts.startdisp + offset, enddisp := ts.enddisp + offset }, true)

/-- One pass of the loop body of `sequencer_slip_recursively`, recalculation
included: effects are not recalculated. -/
def slip_one (seqbase : List Sequence) (ts : TransSeq) (trim : Bool) (offset : Int)
    (seq : Sequence) : Sequence :=
  let seq := (slip_update ts trim offset seq).1
  if seq.type.isEffect then seq else BKE_sequence_calc seqbase seq

/-- The loop of `sequencer_slip_recursively`: `slip_loop data offset n` runs the
body for `i = n - 1` down to `0` on the strips and `changed`. -/
def slip_loop (data : SlipData) (offset : Int) : Nat → List Sequence × Bool → List Sequence × Bool
  | 0, st => st
  | i + 1, (arr, changed) =>
    match arr[i]?, data.ts[i]?, data.trim[i]? with
    | some seq, some ts, some trim =>
      let seq' := slip_one (childStrips arr (data.seqbase.getD i [])) ts trim offset seq
      slip_loop data offset i (arr.set i seq', changed || (slip_update ts trim offset seq).2)
    | _, _, _ => slip_loop data offset i (arr, changed)

/-- The function `sequencer_slip_recursively`: the strips after the pass and
the result `changed`. -/
def sequencer_slip_recursively (data : SlipData) (offset : Int) : SlipData × Bool :=
  let r := slip_loop data offset data.num_seq (data.seq_array, false)
  ({ data with seq_array := r.1 }, r.2)

/-- Body of the loop of `sequencer_slip_apply_limits` for index `i`. -/
def slip_limit_step (data : SlipData) (offset : Int) (i : Nat) : Int :=
  match data.trim[i]?, data.seq_array[i]?, data.ts[i]? with
  | some true, some seq, some ts =>
    let seq_content_start := ts.start + offset
    let seq_content_end := seq_content_start + seq.len + seq.anim_startofs + seq.anim_endofs
    let diff : Int := 0
    let diff := if seq_content_start ≥ seq.enddisp then seq.enddisp - seq_content_start - 1 else diff
    let diff := if seq_content_end ≤ seq.startdisp then seq.startdisp - seq_content_end + 1 else diff
    offset + diff
  | _, _, _ => offset

/-- The function `sequencer_slip_apply_limits`: the offset after the loop over
`i = 0 .. num_seq - 1`. -/
def sequencer_slip_apply_limits (data : SlipData) (offset : Int) : Int :=
  (List.range data.num_seq).foldl (slip_limit_step data) offset

/-- Body of the first loop of the cancel branch of `sequencer_slip_modal`:
`transseq_restore(data->ts + i, data->seq_array[i])`. -/
def slip_restore_step (data : SlipData) (arr : List Sequence) (i : Nat) : List Sequence :=
  match arr[i]?, data.ts[i]? with
  | some seq, some ts => arr.set i (transseq_restore ts seq)
  | _, _ => arr

/-- The snapshot loop of `sequencer_slip_invoke` and `sequencer_slip_exec`:
`transseq_backup(data->ts + i, data->seq_array[i])` for every collected
strip. -/
def slip_backup_all (seq_array : List Sequence) : List TransSeq :=
  seq_array.map transseq_backup

/-! ## Properties and sample strips used to state the contracts -/

/-- A well-formed strip: at least one frame of content, non-negative trim and
still counts, never an offset and a still at the same end, and a display range
that agrees with the display formulas. -/
def WellFormed (s : Sequence) : Prop :=
  1 ≤ s.len ∧ 0 ≤ s.startofs ∧ 0 ≤ s.endofs ∧ 0 ≤ s.startstill ∧ 0 ≤ s.endstill ∧
  ¬ (s.startofs ≠ 0 ∧ s.startstill ≠ 0) ∧ ¬ (s.endofs ≠ 0 ∧ s.endstill ≠ 0) ∧
  s.startdisp = s.start + s.startofs - s.startstill ∧
  s.enddisp = s.start + s.len - s.endofs + s.endstill

instance (s : Sequence) : Decidable (WellFormed s) := by
  unfold WellFormed
  infer_instance

/-- The display range of an optional strip. -/
def dispOf (s : Option Sequence) : Option (Int × Int) :=
  s.map fun r => (r.startdisp, r.enddisp)

/-- A movie strip with leading still frames: content `[10, 15)`, three held
frames in front, displayed on `[7, 15)`. -/
def leadStillStrip : Sequence :=
  { start := 10, len := 5, startofs := 0, endofs := 0, startstill := 3, endstill := 0,
    startdisp := 7, enddisp := 15, anim_startofs := 0, anim_endofs := 0,
    machine := 1, type := SeqType.movie, flag := 0 }

/-- A movie strip with trailing still frames: content `[0, 10)`, five held
frames behind, displayed on `[0, 15)`. -/
def trailStillStrip : Sequence :=
  { start := 0, len := 10, startofs := 0, endofs := 0, startstill := 0, endstill := 5,
    startdisp := 0, enddisp := 15, anim_startofs := 0, anim_endofs := 0,
    machine := 1, type := SeqType.movie, flag := 0 }

/-- The strip A of the example scenario: content and display `[0, 10)`. -/
def plainStrip (t : SeqType) : Sequence :=
  { start := 0, len := 10, startofs := 0, endofs := 0, startstill := 0, endstill := 0,
    startdisp := 0, enddisp := 10, anim_startofs := 0, anim_endofs := 0,
    machine := 1, type := t, flag := 0 }

/-- The re-join of the round-trip property: the trim offsets of the snapshot are
put back on the left strip, which is then recalculated. -/
def rejoin (ts : TransSeq) (left : Sequence) : Sequence :=
  BKE_sequence_calc [] { left with startofs := ts.startofs, endofs := ts.endofs }

/-- Two strips agree on every authoritative timing field other than the trim
offsets `startofs` and `endofs`. -/
def SameButTrim (a b : Sequence) : Prop :=
  a.start = b.start ∧ a.len = b.len ∧ a.startstill = b.startstill ∧
  a.endstill = b.endstill ∧ a.anim_startofs = b.anim_startofs ∧
  a.anim_endofs = b.anim_endofs

instance (a b : Sequence) : Decidable (SameButTrim a b) := by
  unfold SameButTrim
  infer_instance

/-- The split frame falls where the split code skips the duplicate of a
meta-group: in the leading still frames, exactly at the end of the content, or
in the trailing still frames. -/
def inStillRegion (S : Sequence) (F : Int) : Prop :=
  (S.startstill ≠ 0 ∧ F ≤ S.start) ∨ F = S.start + S.len ∨
    (S.start + S.len < F ∧ S.endstill ≠ 0)

instance (S : Sequence) (F : Int) : Decidable (inStillRegion S F) := by
  unfold inStillRegion
  infer_instance

/-- The half-open frame ranges `[a, b)` and `[c, d)` share at least one frame. -/
def sharesFrame (a b c d : Int) : Prop :=
  max a c < min b d

instance (a b c d : Int) : Decidable (sharesFrame a b c d) := by
  unfold sharesFrame
  infer_instance

/-- A movie strip with negative trim offset at the start: content `[10, 20)`,
displayed on `[5, 20)`. -/
def negTrimStrip : Sequence :=
  { start := 10, len := 10, startofs := -5, endofs := 0, startstill := 0, endstill := 0,
    startdisp := 5, enddisp := 20, anim_startofs := 0, anim_endofs := 0,
    machine := 1, type := SeqType.movie, flag := 0 }

/-- The strip of the slip example: 20 frames of content, `[0, 20)`, of which
the window `[5, 15)` is displayed. -/
def windowStrip : Sequence :=
  { start := 0, len := 20, startofs := 5, endofs := 5, startstill := 0, endstill := 0,
    startdisp := 5, enddisp := 15, anim_startofs := 0, anim_endofs := 0,
    machine := 1, type := SeqType.movie, flag := 1 }

/-- Slip data collected for `windowStrip` alone. -/
def windowSlip : SlipData :=
  { ts := slip_backup_all [windowStrip], seq_array := [windowStrip], trim := [true],
    num_seq := 1, seqbase := [[]] }

/-- The right half of a 15 frame movie hard-split at frame 5: content
`[5, 15)`, five source frames cut off in front (`anim_startofs = 5`). -/
def hardCutStrip : Sequence :=
  { start := 5, len := 10, startofs := 0, endofs := 0, startstill := 0, endstill := 0,
    startdisp := 5, enddisp := 15, anim_startofs := 5, anim_endofs := 0,
    machine := 1, type := SeqType.movie, flag := 1 }

/-- Slip data collected for `hardCutStrip` alone. -/
def hardCutSlip : SlipData :=
  { ts := slip_backup_all [hardCutStrip], seq_array := [hardCutStrip], trim := [true],
    num_seq := 1, seqbase := [[]] }

/-- Slip data for two selected strips. -/
def pairSlip : SlipData :=
  { ts := slip_backup_all [windowStrip, hardCutStrip]
    seq_array := [windowStrip, hardCutStrip], trim := [true, true]
    num_seq := 2, seqbase := [[], []] }

/-! ## Neighbour and hit-test queries -/

/-- Modelled from the spec: the side constants `SEQ_SIDE_NONE`, `SEQ_SIDE_LEFT`,
`SEQ_SIDE_RIGHT` and `SEQ_SIDE_BOTH`, declared in a header that is not part of
the sources. -/
inductive SeqSide where
  | none
  | left
  | right
  | both
  deriving DecidableEq, Repr

/-- The test of the loop body of `find_neighboring_sequence` on the strip `seq`
at position `i`: the guard and the `switch (lr)`; `true` when the body returns
`seq`.  `sel` is the filter after `if (sel > 0) sel = SELECT`.  Strip pointers
are positions in the working list: `test_ptr` is the position of `test` (any
number past the end when `test` is not in the list). -/
def find_neighboring_hit (test_ptr : Nat) (test : Sequence) (lr : SeqSide) (sel : Int)
    (i : Nat) (seq : Sequence) : Bool :=
  if i ≠ test_ptr ∧ test.machine = seq.machine ∧
      (sel = -1 ∨ (sel ≠ 0 ∧ seq.flag &&& SELECT ≠ 0) ∨
        (sel = 0 ∧ seq.flag &&& SELECT = 0)) then
    match lr with
    | SeqSide.left => decide (test.startdisp = seq.enddisp)
    | SeqSide.right => decide (test.enddisp = seq.startdisp)
    | _ => false
  else false

/-- The loop of `find_neighboring_sequence` from position `i` on. -/
def find_neighboring_loop (test_ptr : Nat) (test : Sequence) (lr : SeqSide) (sel : Int) :
    Nat → List Sequence → Option Nat
  | _, [] => none
  | i, seq :: rest =>
    if find_neighboring_hit test_ptr test lr sel i seq then some i
    else find_neighboring_loop test_ptr test lr sel (i + 1) rest

/-- The function `find_neighboring_sequence`; `ed` is the working list
`ed->seqbasep`, or `none` when the scene has no editing data. -/
def find_neighboring_sequence (ed : Option (List Sequence)) (test_ptr : Nat) (test : Sequence)
    (lr : SeqSide) (sel : Int) : Option Nat :=
  match ed with
  | none => none
  | some seqbasep =>
    let sel : Int := if sel > 0 then (SELECT : Int) else sel
    find_neighboring_loop test_ptr test lr sel 0 seqbasep

/-- The loop of `find_next_prev_sequence` from position `i` on, with the
current `best_seq` and `best_dist`.  `maxframe` is the constant `MAXFRAME`,
which is declared in a header that is not part of the sources. -/
def find_next_prev_loop (maxframe : Int) (test_ptr : Nat) (test : Sequence) (lr : SeqSide)
    (sel : Int) : Nat → List Sequence → Option Nat × Int → Option Nat
  | _, [], best => best.1
  | i, seq :: rest, (best_seq, best_dist) =>
    if i ≠ test_ptr ∧ test.machine = seq.machine ∧ test.depth = seq.depth ∧
        (sel = -1 ∨ sel = ((seq.flag &&& SELECT : Nat) : Int)) then
      let dist : Int :=
        match lr with
        | SeqSide.left =>
          if seq.enddisp ≤ test.startdisp then test.enddisp - seq.startdisp else maxframe * 2
        | SeqSide.right =>
          if seq.startdisp ≥ test.enddisp then seq.startdisp - test.enddisp else maxframe * 2
        | _ => maxframe * 2
      if dist = 0 then some i
      else if dist < best_dist then
        find_next_prev_loop maxframe test_ptr test lr sel (i + 1) rest (some i, dist)
      else find_next_prev_loop maxframe test_ptr test lr sel (i + 1) rest (best_seq, best_dist)
    else find_next_prev_loop maxframe test_ptr test lr sel (i + 1) rest (best_seq, best_dist)

/-- The function `find_next_prev_sequence`. -/
def find_next_prev_sequence (maxframe : Int) (ed : Option (List Sequence)) (test_ptr : Nat)
    (test : Sequence) (lr : SeqSide) (sel : Int) : Option Nat :=
  match ed with
  | none => none
  | some seqbasep =>
    find_next_prev_loop maxframe test_ptr test lr sel 0 seqbasep (none, maxframe * 2)

/-- The C conversion `(int)y` of a pointer coordinate, taken as a rational:
truncation toward zero. -/
def cTrunc (y : ℚ) : Int :=
  if 0 ≤ y then ⌊y⌋ else ⌈y⌉

/-- The loop of `find_nearest_seq` from position `i` on.  Only the returned
strip is embedded: the handle classification written to `*hand` is computed
after the strip is chosen and does not influence the result. -/
def find_nearest_loop (x y : ℚ) : Nat → List Sequence → Option Nat
  | _, [] => none
  | i, seq :: rest =>
    if seq.machine = cTrunc y then
      if (seq.startdisp < seq.enddisp ∧ ((seq.startdisp : ℚ) ≤ x ∧ (seq.enddisp : ℚ) ≥ x)) ∨
          (seq.startdisp > seq.enddisp ∧ ((seq.startdisp : ℚ) ≥ x ∧ (seq.enddisp : ℚ) ≤ x)) then
        some i
      else find_nearest_loop x y (i + 1) rest
    else find_nearest_loop x y (i + 1) rest

/-- The function `find_nearest_seq` at the pointer location `(x, y)` in timeline
space. -/
def find_nearest_seq (ed : Option (List Sequence)) (x y : ℚ) : Option Nat :=
  match ed with
  | none => none
  | some seqbasep => find_nearest_loop x y 0 seqbasep

/-- The selection filter of the neighbour queries: `sel = -1` any strip,
`sel = 1` the strips with `SELECT` set, `sel = 0` those with `SELECT` clear. -/
def selMatches (sel : Int) (s : Sequence) : Prop :=
  sel = -1 ∨ (sel = 1 ∧ s.flag &&& SELECT ≠ 0) ∨ (sel = 0 ∧ s.flag &&& SELECT = 0)

instance (sel : Int) (s : Sequence) : Decidable (selMatches sel s) := by
  unfold selMatches
  infer_instance

/-- Exact adjacency of `s` to `test` on the side `lr`. -/
def touchesSide (test : Sequence) (lr : SeqSide) (s : Sequence) : Prop :=
  match lr with
  | SeqSide.left => s.enddisp = test.startdisp
  | SeqSide.right => s.startdisp = test.enddisp
  | _ => False

/-- The strip `s` at position `i` is a touching neighbour of `test`: another
strip, on the same channel, passing the filter, exactly adjacent. -/
def isTouching (test_ptr : Nat) (test : Sequence) (lr : SeqSide) (sel : Int) (i : Nat)
    (s : Sequence) : Prop :=
  i ≠ test_ptr ∧ s.machine = test.machine ∧ selMatches sel s ∧ touchesSide test lr s

/-- A channel with three strips: `[0, 10)` selected, `[10, 20)` unselected and
`[20, 30)` selected, all on channel 1. -/
def threeStrips : List Sequence :=
  [ { start := 0, len := 10, startofs := 0, endofs := 0, startstill := 0, endstill := 0,
      startdisp := 0, enddisp := 10, anim_startofs := 0, anim_endofs := 0,
      machine := 1, type := SeqType.movie, flag := 1 },
    { start := 10, len := 10, startofs := 0, endofs := 0, startstill := 0, endstill := 0,
      startdisp := 10, enddisp := 20, anim_startofs := 0, anim_endofs := 0,
      machine := 1, type := SeqType.movie, flag := 0 },
    { start := 20, len := 10, startofs := 0, endofs := 0, startstill := 0, endstill := 0,
      startdisp := 20, enddisp := 30, anim_startofs := 0, anim_endofs := 0,
      machine := 1, type := SeqType.movie, flag := 1 } ]

/-- The middle strip of `threeStrips`. -/
def middleStrip : Sequence :=
  { start := 10, len := 10, startofs := 0, endofs := 0, startstill := 0, endstill := 0,
    startdisp := 10, enddisp := 20, anim_startofs := 0, anim_endofs := 0,
    machine := 1, type := SeqType.movie, flag := 0 }

/-- The value of `MAXFRAME` in the scene header (the sources only use the
name). -/
def sampleMaxframe : Int := 1048574

/-- A strip displayed on `[a, b)` with content `[a, b)`, on channel 1. -/
def spanStrip (a b : Int) : Sequence :=
  { start := a, len := b - a, startofs := 0, endofs := 0, startstill := 0, endstill := 0,
    startdisp := a, enddisp := b, anim_startofs := 0, anim_endofs := 0,
    machine := 1, type := SeqType.movie, flag := 0 }

/-! ## Effect inputs -/

/-- Results of `seq_effect_find_selected`: the return value, the three output
pointers and the error string.  On failure the output pointers are not written;
they are shown as `none`. -/
structure EffectFind where
  ret : Int
  selseq1 : Option Nat
  selseq2 : Option Nat
  selseq3 : Option Nat
  error_str : Option String
  deriving DecidableEq, Repr

/-- The loop of `seq_effect_find_selected` from position `i` on, with the
local pointers `(seq1, seq2, seq3)`.  `n` is
`BKE_sequence_effect_get_num_inputs(type)`.  A `return 0` inside the loop is
`Except.error` with the message. -/
def seq_effect_find_loop (n : Int) (activeseq : Option Nat) :
    Nat → List Sequence → Option Nat × Option Nat × Option Nat →
      Except String (Option Nat × Option Nat × Option Nat)
  | _, [], st => Except.ok st
  | i, seq :: rest, (seq1, seq2, seq3) =>
    if seq.flag &&& SELECT ≠ 0 then
      if seq.type = SeqType.sound ∧ n ≠ 0 then
        Except.error "Cannot apply effects to audio sequence strips"
      else if some i ≠ activeseq ∧ some i ≠ seq2 then
        if seq2 = none then
          seq_effect_find_loop n activeseq (i + 1) rest (seq1, some i, seq3)
        else if seq1 = none then
          seq_effect_find_loop n activeseq (i + 1) rest (some i, seq2, seq3)
        else if seq3 = none then
          seq_effect_find_loop n activeseq (i + 1) rest (seq1, seq2, some i)
        else
          Except.error "Cannot apply effect to more than 3 sequence strips"
      else seq_effect_find_loop n activeseq (i + 1) rest (seq1, seq2, seq3)
    else seq_effect_find_loop n activeseq (i + 1) rest (seq1, seq2, seq3)

/-- The part of `seq_effect_find_selected` after the loop: the swap of `seq2`
and `seq3`, the `switch` on the number of inputs with its fall-through, and the
outputs. -/
def seq_effect_find_finish (n : Int) (st : Option Nat × Option Nat × Option Nat) :
    EffectFind :=
  let seq1 := st.1
  let seq2 := if st.2.2 ≠ none ∧ st.2.1 ≠ none then st.2.2 else st.2.1
  let seq3 := if st.2.2 ≠ none ∧ st.2.1 ≠ none then st.2.1 else st.2.2
  let fail (msg : String) : EffectFind :=
    { ret := 0, selseq1 := none, selseq2 := none, selseq3 := none, error_str := some msg }
  let tail (seq1 seq2 seq3 : Option Nat) : EffectFind :=
    if seq1 = none ∧ seq2 = none ∧ seq3 = none then
      fail "TODO: in what cases does this happen?"
    else
      { ret := 1
        selseq1 := seq1
        selseq2 := if n < 2 then none else seq2
        selseq3 := if n < 3 then none else seq3
        error_str := none }
  let case2 (seq1 seq2 seq3 : Option Nat) : EffectFind :=
    if seq1 = none ∨ seq2 = none then fail "2 selected sequence strips are needed"
    else tail seq1 seq2 (if seq3 = none then seq2 else seq3)
  if n = 0 then
    { ret := 1, selseq1 := none, selseq2 := none, selseq3 := none, error_str := none }
  else if n = 1 then
    if seq2 = none then fail "At least one selected sequence strip is needed"
    else case2 (if seq1 = none then seq2 else seq1) seq2 (if seq3 = none then seq2 else seq3)
  else if n = 2 then case2 seq1 seq2 seq3
  else tail seq1 seq2 seq3

/-- The function `seq_effect_find_selected`.  `num_inputs` is
`BKE_sequence_effect_get_num_inputs`, which is not part of the sources;
`active_get` is the active strip `BKE_sequencer_active_get(scene)`; `seqbasep`
is the working list; strip pointers are positions in it. -/
def seq_effect_find_selected (num_inputs : SeqType → Int) (active_get : Option Nat)
    (seqbasep : List Sequence) (activeseq : Option Nat) (type : SeqType) : EffectFind :=
  let seq2 : Option Nat := if activeseq = none then active_get else none
  match seq_effect_find_loop (num_inputs type) activeseq 0 seqbasep (none, seq2, none) with
  | Except.error msg =>
    { ret := 0, selseq1 := none, selseq2 := none, selseq3 := none, error_str := some msg }
  | Except.ok st => seq_effect_find_finish (num_inputs type) st

/-- Modelled from the spec: the operator results `OPERATOR_CANCELLED` and
`OPERATOR_FINISHED`, declared in a header that is not part of the sources. -/
inductive OperatorResult where
  | cancelled
  | finished
  deriving DecidableEq, Repr

/-- The effect inputs `seq1`, `seq2`, `seq3` of a strip, as positions in the
working list. -/
structure EffectInputs where
  seq1 : Option Nat
  seq2 : Option Nat
  seq3 : Option Nat
  deriving DecidableEq, Repr

/-- Outcome of `sequencer_reassign_inputs_exec`: the operator result, the
inputs of the active strip afterwards and the reported error. -/
structure ReassignOut where
  result : OperatorResult
  inputs : EffectInputs
  report : Option String
  deriving DecidableEq, Repr

/-- The function `sequencer_reassign_inputs_exec`.  `last_seq` is the position
of the active strip and `inputs` its `seq1`, `seq2`, `seq3`;
`render_loop_check` is `BKE_sequencer_render_loop_check`, which is not part of
the sources. -/
def sequencer_reassign_inputs_exec (num_inputs : SeqType → Int)
    (render_loop_check : Option Nat → Nat → Bool) (seqbasep : List Sequence) (last_seq : Nat)
    (last_type : SeqType) (inputs : EffectInputs) : ReassignOut :=
  if num_inputs last_type ≠ 0 then
    { result := OperatorResult.cancelled, inputs := inputs
      report := some "Cannot reassign inputs: strip has no inputs" }
  else
    let r := seq_effect_find_selected num_inputs (some last_seq) seqbasep (some last_seq)
      last_type
    if r.ret = 0 ∨ num_inputs last_type = 0 then
      { result := OperatorResult.cancelled, inputs := inputs, report := r.error_str }
    else if render_loop_check r.selseq1 last_seq ∨ render_loop_check r.selseq2 last_seq ∨
        render_loop_check r.selseq3 last_seq then
      { result := OperatorResult.cancelled, inputs := inputs
        report := some "Cannot reassign inputs: recursion detected" }
    else
      { result := OperatorResult.finished
        inputs := { seq1 := r.selseq1, seq2 := r.selseq2, seq3 := r.selseq3 }
        report := none }

/-- An effect type table for the examples: cross-like effects (kind 0) take two
inputs, speed-like effects (kind 1) take one, every other strip type none. -/
def sampleNumInputs : SeqType → Int
  | SeqType.effect 0 => 2
  | SeqType.effect 1 => 1
  | _ => 0

/-- A working list for the effect examples: an effect strip at position 0 and
two selected movie strips after it. -/
def effectList (kind : Nat) : List Sequence :=
  [ { spanStrip 0 10 with type := SeqType.effect kind, flag := 1, machine := 3 },
    { spanStrip 0 10 with flag := 1, machine := 1 },
    { spanStrip 0 10 with flag := 1, machine := 2 } ]

/-! ## Meta stack -/

/-- A pointer to a strip list: `&ed->seqbase`, the top-level list, or
`&seq->seqbase`, the child list of the strip at position `parseq` of the strip
store. -/
inductive SeqBasePtr where
  | top
  | children (parseq : Nat)
  deriving DecidableEq, Repr

/-- One frame of the meta stack, `struct MetaStack`: the meta-group entered, the
list pointer saved on entry and the saved display range. -/
structure MetaStack where
  parseq : Nat
  oldbasep : SeqBasePtr
  disp_range : Int × Int
  deriving DecidableEq, Repr

/-- The editing state read and written by `sequencer_meta_toggle_exec`: the
current working list `ed->seqbasep`, the meta stack `ed->metastack`, the active
strip and the store of all strips (a strip pointer is a position in
`strips`). -/
structure Editing where
  seqbasep : SeqBasePtr
  metastack : List MetaStack
  act_seq : Option Nat
  strips : List Sequence
  deriving DecidableEq, Repr

/-- The function `sequencer_meta_toggle_exec`.  Two parts of the exit branch
act on the strips only and are taken as parameters: `exit_recalc ms basep`
stands for the recalculation of the exposed strips and the re-applying of the
saved display range (`BKE_sequence_calc`, `BKE_sequence_tx_set_final_left`,
`BKE_sequence_tx_set_final_right`, `BKE_sequence_single_fix`, kernel functions
that are not part of the sources), with `ms` the popped frame after the
old-file update of its range and `basep` the restored working list;
`recurs_sel parseq` stands for `recurs_sel_seq(ms->parseq)`, which rewrites the
selection flags of the strips nested in the meta-group. -/
def sequencer_meta_toggle_exec
    (exit_recalc : MetaStack → SeqBasePtr → List Sequence → List Sequence)
    (recurs_sel : Nat → List Sequence → List Sequence) (ed : Editing) :
    Editing × OperatorResult :=
  let enter : Option (Nat × Sequence) :=
    match ed.act_seq with
    | none => none
    | some p =>
      match ed.strips[p]? with
      | none => none
      | some last_seq =>
        if last_seq.type = SeqType.meta ∧ last_seq.flag &&& SELECT ≠ 0 then some (p, last_seq)
        else none
  match enter with
  | some (p, last_seq) =>
    let ms : MetaStack :=
      { parseq := p, oldbasep := ed.seqbasep
        disp_range := (last_seq.startdisp, last_seq.enddisp) }
    ({ ed with
        metastack := ed.metastack ++ [ms]
        seqbasep := SeqBasePtr.children p
        act_seq := none }, OperatorResult.finished)
  | none =>
    match ed.metastack.getLast? with
    | none => (ed, OperatorResult.cancelled)
    | some ms =>
      let metastack := ed.metastack.dropLast
      let seqbasep := ms.oldbasep
      let disp_range : Int × Int :=
        if ms.disp_range.1 = ms.disp_range.2 then
          match ed.strips[ms.parseq]? with
          | some parseq => (parseq.startdisp, parseq.enddisp)
          | none => ms.disp_range
        else ms.disp_range
      let strips := exit_recalc { ms with disp_range := disp_range } seqbasep ed.strips
      let strips :=
        match strips[ms.parseq]? with
        | some parseq => strips.set ms.parseq { parseq with flag := parseq.flag ||| SELECT }
        | none => strips
      let strips := recurs_sel ms.parseq strips
      ({ seqbasep := seqbasep, metastack := metastack, act_seq := some ms.parseq
         strips := strips }, OperatorResult.finished)

/-- An editing state at top level whose active strip, at position 0, is a
selected meta-group displayed on `[0, 10)`. -/
def metaEditing : Editing :=
  { seqbasep := SeqBasePtr.top, metastack := [], act_seq := some 0
    strips := [{ spanStrip 0 10 with type := SeqType.meta, flag := 1 }, spanStrip 2 8] }

/-! ## Gap removal -/

/-- The part of the scene that gap removal reads and writes: the working list
`ed->seqbasep`, the child lists of its strips (`kids`, position by position),
the frames of the timeline markers, the frame range `SFRA`..`EFRA`, the current
frame `CFRA` and the tool setting `lock_markers`. -/
structure Scene where
  seqbasep : List Sequence
  kids : List (List Sequence)
  markers : List Int
  sfra : Int
  efra : Int
  cfra : Int
  lock_markers : Bool
  deriving DecidableEq, Repr

/-- The horizontal extent computed by `boundbox_seq`: `(xmin, xmax)`, starting
from `(min0, max0) = (SFRA, EFRA + 1)`.  All values are whole numbers, so the
`float` fields are embedded as integers. -/
def boundbox_seq_loop : List Sequence → Int × Int → Int × Int
  | [], acc => acc
  | seq :: rest, (min0, max0) =>
    let min0 := if min0 > seq.startdisp - 1 then seq.startdisp - 1 else min0
    let max0 := if max0 < seq.enddisp + 1 then seq.enddisp + 1 else max0
    boundbox_seq_loop rest (min0, max0)

/-- The function `boundbox_seq`, horizontal part `(rect->xmin, rect->xmax)`. -/
def boundbox_seq (scene : Scene) : Int × Int :=
  boundbox_seq_loop scene.seqbasep (scene.sfra, scene.efra + 1)

/-- Modelled from the spec: `BKE_sequencer_evaluate_frame`, which is not part of
the sources.  There is content at frame `cfra` when some strip of the working
list has `startdisp <= cfra < enddisp`; the result is the number of such
strips. -/
def BKE_sequencer_evaluate_frame (scene : Scene) (cfra : Int) : Nat :=
  scene.seqbasep.countP fun seq => decide (seq.startdisp ≤ cfra ∧ cfra < seq.enddisp)

/-- Modelled from the spec: `BKE_sequence_translate`, which is not part of the
sources, shifts `start`, `startdisp` and `enddisp` by `delta`. -/
def BKE_sequence_translate (seq : Sequence) (delta : Int) : Sequence :=
  { seq with
    start := seq.start + delta
    startdisp := seq.startdisp + delta
    enddisp := seq.enddisp + delta }

/-- The strip loop of `sequence_offset_after_frame`: the strips afterwards and
`done`. -/
def offset_strips (delta cfra : Int) : List Sequence → List (List Sequence) →
    List Sequence × Bool
  | [], _ => ([], false)
  | seq :: rest, kids =>
    let r := offset_strips delta cfra rest kids.tail
    if seq.startdisp ≥ cfra then
      (BKE_sequence_calc (kids.headD []) (BKE_sequence_translate seq delta) :: r.1, true)
    else (seq :: r.1, r.2)

/-- The function `sequence_offset_after_frame`. -/
def sequence_offset_after_frame (scene : Scene) (delta cfra : Int) : Scene × Bool :=
  let r := offset_strips delta cfra scene.seqbasep scene.kids
  let markers :=
    if !scene.lock_markers then
      scene.markers.map fun frame => if frame ≥ cfra then frame + delta else frame
    else scene.markers
  ({ scene with seqbasep := r.1, markers := markers }, r.2)

/-- The first loop of `sequencer_gap_remove_exec`,
`for (cfra = CFRA; cfra >= sfra; cfra--)`, with `n` passes left: the frame
reached and `first`. -/
def gap_scan_back (scene : Scene) (sfra : Int) : Nat → Int → Int × Bool
  | 0, cfra => (cfra, false)
  | n + 1, cfra =>
    if cfra ≥ sfra then
      if BKE_sequencer_evaluate_frame scene cfra ≠ 0 then (cfra, true)
      else gap_scan_back scene sfra n (cfra - 1)
    else (cfra, false)

/-- The inner loop of `sequencer_gap_remove_exec`,
`while (BKE_sequencer_evaluate_frame(scene, cfra) == 0)`: the scene afterwards
and `done`.  `fuel` bounds the number of passes; `none` when it runs out. -/
def gap_close : Nat → Scene → Int → Option (Scene × Bool)
  | 0, _, _ => none
  | fuel + 1, scene, cfra =>
    if BKE_sequencer_evaluate_frame scene cfra = 0 then
      let r := sequence_offset_after_frame scene (-1) cfra
      if r.2 = false then some (r.1, false) else gap_close fuel r.1 cfra
    else some (scene, true)

/-- The second loop of `sequencer_gap_remove_exec`, `for (; cfra < efra; cfra++)`,
with `n` passes left; `fuel` is handed to each run of the inner loop. -/
def gap_scan_forward (fuel : Nat) (do_all : Bool) (efra : Int) :
    Nat → Int → Bool → Scene → Option Scene
  | 0, _, _, scene => some scene
  | n + 1, cfra, first, scene =>
    if cfra < efra then
      if first = false then
        gap_scan_forward fuel do_all efra n (cfra + 1)
          (decide (BKE_sequencer_evaluate_frame scene cfra ≠ 0)) scene
      else if BKE_sequencer_evaluate_frame scene cfra = 0 then
        match gap_close fuel scene cfra with
        | none => none
        | some (scene', done) =>
          if done = false ∨ do_all = false then some scene'
          else gap_scan_forward fuel do_all efra n (cfra + 1) first scene'
      else gap_scan_forward fuel do_all efra n (cfra + 1) first scene
    else some scene

/-- The function `sequencer_gap_remove_exec` on a scene with editing data: the
scene afterwards (the operator always finishes).  The loop counts are the
numbers of frames the two `for` loops can visit; `fuel` bounds each run of the
inner `while` loop, and the result is `none` when it runs out. -/
def sequencer_gap_remove_exec (fuel : Nat) (scene : Scene) (do_all : Bool) : Option Scene :=
  let rectf := boundbox_seq scene
  let sfra := rectf.1
  let efra := rectf.2
  let back := gap_scan_back scene sfra (scene.cfra - sfra + 1).toNat scene.cfra
  gap_scan_forward fuel do_all efra (efra - back.1).toNat back.1 back.2 scene

/-- The scene of the gap example: strips on `[0, 10)` and `[20, 30)`, current
frame 15, frame range 1..30, a marker at frame 25. -/
def gapScene : Scene :=
  { seqbasep := [spanStrip 0 10, spanStrip 20 30], kids := [[], []], markers := [25]
    sfra := 1, efra := 30, cfra := 15, lock_markers := false }

/-- The scene reached from `gapScene` by one gap removal, with the marker put
back at frame 25: strips on `[0, 10)` and `[10, 20)`. -/
def closedScene : Scene :=
  { seqbasep := [spanStrip 0 10, spanStrip 10 20], kids := [[], []], markers := [25]
    sfra := 1, efra := 30, cfra := 15, lock_markers := false }

/-- Every strip of the list is in recalculated state: `BKE_sequence_calc` with
its child list leaves it as it is. -/
def AllRecalculated : List Sequence → List (List Sequence) → Prop
  | [], _ => True
  | seq :: rest, kids =>
    BKE_sequence_calc (kids.headD []) seq = seq ∧ AllRecalculated rest kids.tail

/-- The strip as the gap contract expects it afterwards: moved left by `d` when
it starts at or after frame `h`, unchanged otherwise. -/
def shiftLeftFrom (h d : Int) (s : Sequence) : Sequence :=
  if s.startdisp ≥ h then BKE_sequence_translate s (-d) else s

/-! ## Batch split -/

/-- The state of the loop of `split_seq_list`.  Strips live in the store
`strips` (a strip pointer is a position in it; a new strip is appended);
`slist` is the strip list as pointers in list order; `seq` and `seq_first_new`
are the loop variables.  `applied` records, in call order, the strips the split
policy was called on. -/
structure SplitListState where
  strips : List Sequence
  slist : List Nat
  seq : Option Nat
  seq_first_new : Option Nat
  applied : List Nat
  deriving DecidableEq, Repr

/-- The pointer `seq->next` of the strip `p` in the list `slist`. -/
def nextOf : List Nat → Nat → Option Nat
  | [], _ => none
  | a :: rest, p => if a = p then rest.head? else nextOf rest p

/-- What one pass of the loop of `split_seq_list` does with the strip. -/
inductive SplitAction where
  | split
  | pass
  | move
  deriving DecidableEq, Repr

/-- The tests of the loop body of `split_seq_list` on the strip `seq`. -/
def split_seq_list_action (split_frame channel : Int) (use_cursor_position : Bool)
    (seq : Sequence) : SplitAction :=
  if use_cursor_position then
    if seq.machine = channel ∧ seq.startdisp < split_frame ∧ seq.enddisp > split_frame then
      SplitAction.split
    else SplitAction.pass
  else if seq.flag &&& SELECT ≠ 0 then
    if split_frame > seq.startdisp ∧ split_frame < seq.enddisp then SplitAction.split
    else if seq.enddisp ≤ split_frame then SplitAction.pass
    else if seq.startdisp ≥ split_frame then SplitAction.move
    else SplitAction.pass
  else SplitAction.pass

/-- The call `split_seq(bmain, scene, seq, slist, split_frame)` on the strip at
`p` and the bookkeeping of `seq_first_new`: the policy rewrites the strip and
may append one new strip to the tail of the list. -/
def split_seq_list_split (split_seq : Nat → Sequence → Int → SplitOut) (split_frame : Int)
    (st : SplitListState) (p : Nat) (seq : Sequence) : SplitListState :=
  let out := split_seq p seq split_frame
  let strips := st.strips.set p out.seq
  match out.seqn with
  | some seqn =>
    { st with
      strips := strips ++ [seqn]
      slist := st.slist ++ [strips.length]
      seq_first_new :=
        if st.seq_first_new = none then some strips.length else st.seq_first_new
      applied := st.applied ++ [p] }
  | none => { st with strips := strips, applied := st.applied ++ [p] }

/-- One pass of the loop body of `split_seq_list` on the strip at `p`. -/
def split_seq_list_body (split_seq : Nat → Sequence → Int → SplitOut)
    (split_frame channel : Int) (use_cursor_position : Bool) (st : SplitListState) (p : Nat) :
    SplitListState :=
  let seq_next_iter := nextOf st.slist p
  let st' : SplitListState :=
    match st.strips[p]? with
    | none => st
    | some seq =>
      match split_seq_list_action split_frame channel use_cursor_position seq with
      | SplitAction.split => split_seq_list_split split_seq split_frame st p seq
      | SplitAction.pass => st
      | SplitAction.move =>
        { st with
          slist := st.slist.erase p ++ [p]
          seq_first_new := if st.seq_first_new = none then some p else st.seq_first_new }
  { st' with seq := seq_next_iter }

/-- The loop `while (seq && seq != seq_first_new)` of `split_seq_list`; `fuel`
bounds the number of passes, `none` when it runs out. -/
def split_seq_list_loop (split_seq : Nat → Sequence → Int → SplitOut)
    (split_frame channel : Int) (use_cursor_position : Bool) :
    Nat → SplitListState → Option SplitListState
  | 0, st =>
    match st.seq with
    | none => some st
    | some p => if st.seq_first_new = some p then some st else none
  | fuel + 1, st =>
    match st.seq with
    | none => some st
    | some p =>
      if st.seq_first_new = some p then some st
      else
        split_seq_list_loop split_seq split_frame channel use_cursor_position fuel
          (split_seq_list_body split_seq split_frame channel use_cursor_position st p)

/-- The function `split_seq_list`: the final state and the returned flag
`seq_first_new != NULL`. -/
def split_seq_list (split_seq : Nat → Sequence → Int → SplitOut) (fuel : Nat)
    (strips : List Sequence) (slist : List Nat) (split_frame channel : Int)
    (use_cursor_position : Bool) : Option (SplitListState × Bool) :=
  let st : SplitListState :=
    { strips := strips, slist := slist, seq := slist.head?, seq_first_new := none
      applied := [] }
  match split_seq_list_loop split_seq split_frame channel use_cursor_position fuel st with
  | none => none
  | some st' => some (st', decide (st'.seq_first_new ≠ none))

/-- The strip at `p` is one the batch split has to split: it crosses the split
frame and is selected, or, under cursor position, lies on the channel. -/
def isSplitTarget (strips : List Sequence) (split_frame channel : Int)
    (use_cursor_position : Bool) (p : Nat) : Bool :=
  match strips[p]? with
  | none => false
  | some s =>
    if use_cursor_position then
      decide (s.machine = channel ∧ s.startdisp < split_frame ∧ split_frame < s.enddisp)
    else
      decide (s.flag &&& SELECT ≠ 0 ∧ s.startdisp < split_frame ∧ split_frame < s.enddisp)

/-- A list for the batch split examples, split at frame 15: a selected strip
right of the frame, a selected strip crossing it, an unselected strip crossing
it and a selected strip left of it. -/
def batchStrips : List Sequence :=
  [ { spanStrip 20 30 with flag := 1 }, { spanStrip 10 20 with flag := 1, machine := 2 },
    { spanStrip 12 18 with machine := 3 }, { spanStrip 0 10 with flag := 1, machine := 4 } ]

/-- The strip stored at `p` after the batch split, as the contract expects it:
rewritten by the split policy when `p` is a target, untouched otherwise. -/
def expectedStrip (split_seq : Nat → Sequence → Int → SplitOut) (strips : List Sequence)
    (split_frame channel : Int) (use_cursor_position : Bool) (p : Nat) : Option Sequence :=
  if isSplitTarget strips split_frame channel use_cursor_position p then
    (strips[p]?).map fun s => (split_seq p s split_frame).seq
  else strips[p]?

/-- The loop invariant of `split_seq_list`: with the strips `done` of the
original list visited and `rem` still to visit, the list is `keep ++ rem ++
tail`, where `tail` holds the moved and the new strips and starts at
`seq_first_new`. -/
structure SplitListInv (split_seq : Nat → Sequence → Int → SplitOut)
    (strips0 : List Sequence) (split_frame channel : Int) (use_cursor_position : Bool)
    (done rem keep tail : List Nat) (st : SplitListState) : Prop where
  slist_eq : st.slist = keep ++ rem ++ tail
  nodup : st.slist.Nodup
  valid : ∀ p ∈ st.slist, p < st.strips.length
  len_le : strips0.length ≤ st.strips.length
  rem_same : ∀ p ∈ rem, st.strips[p]? = strips0[p]?
  seq_eq : st.seq = (rem ++ tail).head? ∨ (rem = [] ∧ st.seq = none)
  sfn_eq : st.seq_first_new = tail.head?
  applied_eq :
    st.applied = done.filter (isSplitTarget strips0 split_frame channel use_cursor_position)
  done_val : ∀ p ∈ done,
    st.strips[p]? = expectedStrip split_seq strips0 split_frame channel use_cursor_position p

/-! ## Swap -/

/-- The function `swap_sequence`: the strips `seqa` and `seqb` afterwards.
`kidsa` and `kidsb` are their child lists, read by the recalculation. -/
def swap_sequence (kidsa kidsb : List Sequence) (seqa seqb : Sequence) :
    Sequence × Sequence :=
  let gap := seqb.startdisp - seqa.enddisp
  let seq_b_start := (seqb.start - seqb.startdisp) + seqa.startdisp
  let seqb := BKE_sequence_calc kidsb (BKE_sequence_translate seqb (seq_b_start - seqb.start))
  let seq_a_start := (seqa.start - seqa.startdisp) + seqb.enddisp + gap
  let seqa := BKE_sequence_calc kidsa (BKE_sequence_translate seqa (seq_a_start - seqa.start))
  (seqa, seqb)

/-! ## Batch split: the strips examined -/

/-- The strips examined by the loop of `split_seq_list`, in order: the values
of `seq` with which the loop body runs, from the state `st` on.  The recursion
is that of `split_seq_list_loop`; `none` when the fuel runs out. -/
def split_seq_list_examined (split_seq : Nat → Sequence → Int → SplitOut)
    (split_frame channel : Int) (use_cursor_position : Bool) :
    Nat → SplitListState → Option (List Nat)
  | 0, st =>
    match st.seq with
    | none => some []
    | some p => if st.seq_first_new = some p then some [] else none
  | fuel + 1, st =>
    match st.seq with
    | none => some []
    | some p =>
      if st.seq_first_new = some p then some []
      else
        (split_seq_list_examined split_seq split_frame channel use_cursor_position fuel
          (split_seq_list_body split_seq split_frame channel use_cursor_position st p)).map
          fun rest => p :: rest

/-! ## Nested strips -/

/-- A strip together with its child list `seq->seqbase`; the list is empty for
every strip that has no children. -/
inductive SeqTree where
  | node (seq : Sequence) (seqbase : List SeqTree)

/-- The child list `seq->seqbase`. -/
def SeqTree.seqbase : SeqTree → List SeqTree
  | SeqTree.node _ seqbase => seqbase

/-- The strip record of a node. -/
def SeqTree.seq : SeqTree → Sequence
  | SeqTree.node seq _ => seq

/-- Modelled from the spec: the handle-selection bit `SEQ_LEFTSEL` of `flag`;
its value is declared in a header that is not part of the sources. -/
def SEQ_LEFTSEL : Nat := 2

/-- Modelled from the spec: the handle-selection bit `SEQ_RIGHTSEL` of `flag`;
its value is declared in a header that is not part of the sources. -/
def SEQ_RIGHTSEL : Nat := 4

/-- Modelled from the spec: `SEQ_ALLSEL`, the selection bit and the two
handle-selection bits together; declared in a header that is not part of the
sources. -/
def SEQ_ALLSEL : Nat := SELECT + SEQ_LEFTSEL + SEQ_RIGHTSEL

/-- The C expression `flag & ~mask`: the bits of `mask` cleared in `flag`. -/
def clearBits (flag mask : Nat) : Nat :=
  flag ^^^ (flag &&& mask)

/-! ## Selection of nested strips -/

mutual
/-- Body of the loop of `recurs_sel_seq` for the child `seq` of a strip whose
flag is `seqm_flag`: the selection bits of the child are rewritten, and the
function recurses into the child when it has children of its own. -/
def recurs_sel_seq_child (seqm_flag : Nat) : SeqTree → SeqTree
  | SeqTree.node seq seqbase =>
    let flag :=
      if seqm_flag &&& (SEQ_LEFTSEL + SEQ_RIGHTSEL) ≠ 0 then clearBits seq.flag SEQ_ALLSEL
      else if seqm_flag &&& SELECT ≠ 0 then seq.flag ||| SELECT
      else clearBits seq.flag SEQ_ALLSEL
    if seqbase.isEmpty then SeqTree.node { seq with flag := flag } seqbase
    else SeqTree.node { seq with flag := flag } (recurs_sel_seq_loop flag seqbase)
/-- The loop of `recurs_sel_seq` over the child list of a strip whose flag is
`seqm_flag`. -/
def recurs_sel_seq_loop (seqm_flag : Nat) : List SeqTree → List SeqTree
  | [] => []
  | seq :: rest => recurs_sel_seq_child seqm_flag seq :: recurs_sel_seq_loop seqm_flag rest
end

/-- The function `recurs_sel_seq`: the strip `seqm` with the selection of
everything nested in it rewritten. -/
def recurs_sel_seq (seqm : SeqTree) : SeqTree :=
  SeqTree.node seqm.seq (recurs_sel_seq_loop seqm.seq.flag seqm.seqbase)

mutual
/-- Every strip of the tree, the root included, has `SELECT` set. -/
def SeqTree.allSelected : SeqTree → Bool
  | SeqTree.node seq seqbase => decide (seq.flag &&& SELECT ≠ 0) && allSelected seqbase
/-- Every strip of the list and every strip nested in one of them, at any
depth, has `SELECT` set. -/
def allSelected : List SeqTree → Bool
  | [] => true
  | seq :: rest => seq.allSelected && allSelected rest
end

mutual
/-- No strip of the tree that has children carries a handle-selection bit. -/
def SeqTree.noHandleOnParents : SeqTree → Bool
  | SeqTree.node seq seqbase =>
    (seqbase.isEmpty || decide (seq.flag &&& (SEQ_LEFTSEL + SEQ_RIGHTSEL) = 0)) &&
      noHandleOnParents seqbase
/-- No strip in the list or nested in it that has children carries a
handle-selection bit. -/
def noHandleOnParents : List SeqTree → Bool
  | [] => true
  | seq :: rest => seq.noHandleOnParents && noHandleOnParents rest
end

/-- A selected meta-group whose only child is a meta-group with the left
handle selected, which in turn holds one selected movie strip. -/
def handleMeta : SeqTree :=
  SeqTree.node { plainStrip SeqType.meta with flag := SELECT }
    [SeqTree.node { plainStrip SeqType.meta with flag := SEQ_LEFTSEL }
      [SeqTree.node { plainStrip SeqType.movie with flag := SELECT } []]]

/-! ## Slip collection -/

/-- The arrays `seq_array` and `trim` of `SlipData` while they are filled:
the value held at each index (`none` where nothing was written) and `writes`,
the indices written to either array, in program order. -/
structure SlipArrays where
  seq_array : Nat → Option Sequence
  trim : Nat → Option Bool
  writes : List Nat

/-- The assignment `seq_array[k] = seq`. -/
def SlipArrays.set_seq (a : SlipArrays) (k : Nat) (seq : Sequence) : SlipArrays :=
  { a with
    seq_array := fun j => if j = k then some seq else a.seq_array j
    writes := a.writes ++ [k] }

/-- The assignment `trim[k] = b`. -/
def SlipArrays.set_trim (a : SlipArrays) (k : Nat) (b : Bool) : SlipArrays :=
  { a with
    trim := fun j => if j = k then some b else a.trim j
    writes := a.writes ++ [k] }

/-- The arrays right after allocation: nothing written yet. -/
def SlipArrays.empty : SlipArrays :=
  { seq_array := fun _ => none, trim := fun _ => none, writes := [] }

mutual
/-- Body of the loop of `slip_add_sequences_recursive` for the strip `seq`:
the arrays and `num_items` afterwards. -/
def slip_add_sequences_step (a : SlipArrays) (offset num_items : Nat) (do_trim : Bool) :
    SeqTree → SlipArrays × Nat
  | SeqTree.node seq seqbase =>
    if !do_trim || (!seq.type.isEffect && decide (seq.flag &&& SELECT ≠ 0)) then
      let a := (a.set_seq (offset + num_items) seq).set_trim (offset + num_items) do_trim
      let num_items := num_items + 1
      if seq.type = SeqType.meta then
        let r := slip_add_sequences_loop a (num_items + offset) 0 false seqbase
        (r.1, num_items + r.2)
      else if seq.type.isEffect then
        (a.set_trim (offset + num_items) false, num_items)
      else (a, num_items)
    else (a, num_items)
/-- The loop of `slip_add_sequences_recursive` over a strip list, from the
arrays `a` and the count `num_items` on. -/
def slip_add_sequences_loop (a : SlipArrays) (offset num_items : Nat) (do_trim : Bool) :
    List SeqTree → SlipArrays × Nat
  | [] => (a, num_items)
  | seq :: rest =>
    let r := slip_add_sequences_step a offset num_items do_trim seq
    slip_add_sequences_loop r.1 offset r.2 do_trim rest
end

/-- The function `slip_add_sequences_recursive`: the arrays afterwards and the
returned `num_items`. -/
def slip_add_sequences_recursive (seqbasep : List SeqTree) (a : SlipArrays) (offset : Nat)
    (do_trim : Bool) : SlipArrays × Nat :=
  slip_add_sequences_loop a offset 0 do_trim seqbasep

mutual
/-- Body of the loop of `slip_count_sequences_recursive` for the strip `seq`:
what it adds to `trimmed_sequences`. -/
def slip_count_sequences_step (first_level : Bool) : SeqTree → Nat
  | SeqTree.node seq seqbase =>
    if !first_level || (!seq.type.isEffect && decide (seq.flag &&& SELECT ≠ 0)) then
      if seq.type = SeqType.meta then 1 + slip_count_sequences_recursive seqbase false
      else 1
    else 0
/-- The function `slip_count_sequences_recursive`. -/
def slip_count_sequences_recursive : List SeqTree → Bool → Nat
  | [], _ => 0
  | seq :: rest, first_level =>
    slip_count_sequences_step first_level seq + slip_count_sequences_recursive rest first_level
end

mutual
/-- The strips that slip collects from the strip `seq` at nesting depth
`depth`, in collection order, each with its nesting depth: the strip itself
when it passes the test of the collection, followed by everything nested in it
when it is a meta-group. -/
def SeqTree.collected (first_level : Bool) (depth : Nat) : SeqTree → List (Sequence × Nat)
  | SeqTree.node seq seqbase =>
    if !first_level || (!seq.type.isEffect && decide (seq.flag &&& SELECT ≠ 0)) then
      (seq, depth) ::
        (if seq.type = SeqType.meta then collected false (depth + 1) seqbase else [])
    else []
/-- The strips that slip collects from a strip list at nesting depth `depth`,
in collection order, each with its nesting depth. -/
def collected (first_level : Bool) (depth : Nat) : List SeqTree → List (Sequence × Nat)
  | [] => []
  | seq :: rest => seq.collected first_level depth ++ collected first_level depth rest
end

/-- A working list with one selected meta-group that holds a movie strip. -/
def metaWithMovie : List SeqTree :=
  [SeqTree.node { plainStrip SeqType.meta with flag := SELECT }
    [SeqTree.node (spanStrip 0 5) []]]

/-- A working list with one selected meta-group that holds an effect strip. -/
def metaWithEffect : List SeqTree :=
  [SeqTree.node { plainStrip SeqType.meta with flag := SELECT }
    [SeqTree.node (plainStrip (SeqType.effect 0)) []]]

/-- What a run of the collection has to achieve: started on the arrays `a` at
index `offset + num`, with the strips `C` (each with its nesting depth) to
collect at nesting depth `d`, it ends in `r` with `num_items` advanced by the
number of strips, the earlier indices untouched, and every strip stored at its
index with a `trim` flag that is `do_trim` on the list itself and false
below. -/
def SlipAddOk (a : SlipArrays) (offset num : Nat) (do_trim : Bool) (d : Nat)
    (C : List (Sequence × Nat)) (r : SlipArrays × Nat) : Prop :=
  r.2 = num + C.length ∧
  (∀ j, j < offset + num → r.1.seq_array j = a.seq_array j ∧ r.1.trim j = a.trim j) ∧
  (∀ i s dd, C[i]? = some (s, dd) →
    r.1.seq_array (offset + num + i) = some s ∧
    r.1.trim (offset + num + i) = some (do_trim && decide (dd = d)))

/-! ## Slip data as the operator builds it -/

end Sequencer

namespace ObjectIdentifiers

/-! ## Object identifiers of the hierarchy iterator -/

/-- The class `ObjectIdentifier` of `io/common/intern/object_identifier.cc`.
The pointers `object` and `duplicated_by` are integers, `nullptr` being 0;
`P` is the type `PersistentID`, which is declared outside the sources. -/
structure ObjectIdentifier (P : Type) where
  object : Int
  duplicated_by : Int
  persistent_id : P

/-- The `operator<` on `ObjectIdentifier`; `ltP` is `operator<` of
`PersistentID`. -/
def lt {P : Type} (ltP : P → P → Bool) (obj_ident_a obj_ident_b : ObjectIdentifier P) : Bool :=
  if obj_ident_a.object ≠ obj_ident_b.object then
    decide (obj_ident_a.object < obj_ident_b.object)
  else if obj_ident_a.duplicated_by ≠ obj_ident_b.duplicated_by then
    decide (obj_ident_a.duplicated_by < obj_ident_b.duplicated_by)
  else if obj_ident_a.duplicated_by = 0 then
    false
  else
    ltP obj_ident_a.persistent_id obj_ident_b.persistent_id

/-- The `operator==` on `ObjectIdentifier`; `eqP` is `operator==` of
`PersistentID`. -/
def eq {P : Type} (eqP : P → P → Bool) (obj_ident_a obj_ident_b : ObjectIdentifier P) : Bool :=
  if obj_ident_a.object ≠ obj_ident_b.object then
    false
  else if obj_ident_a.duplicated_by ≠ obj_ident_b.duplicated_by then
    false
  else if obj_ident_a.duplicated_by = 0 then
    true
  else
    eqP obj_ident_a.persistent_id obj_ident_b.persistent_id

/-- The function `ObjectIdentifier::for_real_object`, with the
default-constructed `PersistentID` as a parameter. -/
def for_real_object {P : Type} (default_id : P) (object : Int) : ObjectIdentifier P :=
  { object := object, duplicated_by := 0, persistent_id := default_id }

/-- The order on `PersistentID` is a strict total order whose equivalence is
its `operator==`. -/
structure StrictTotal {P : Type} (ltP eqP : P → P → Bool) : Prop where
  irrefl : ∀ a, ltP a a = false
  trans : ∀ a b c, ltP a b = true → ltP b c = true → ltP a c = true
  equiv : ∀ a b, eqP a b = true ↔ (ltP a b = false ∧ ltP b a = false)

end ObjectIdentifiers

namespace Sequencer

/-! ## Lemmas on the kernel model -/

theorem BKE_sequence_calc_of_ne_meta (seqbase : List Sequence) (seq : Sequence)
    (h : seq.type ≠ SeqType.meta) :
    BKE_sequence_calc seqbase seq = BKE_sequence_calc_disp seq := by
  unfold BKE_sequence_calc
  split
  · next _ _ heq => exact absurd heq h
  · rfl

theorem BKE_sequence_calc_nil (seq : Sequence) :
    BKE_sequence_calc [] seq = BKE_sequence_calc_disp seq := by
  unfold BKE_sequence_calc
  split
  · next _ _ _ hh => exact absurd hh (by simp)
  · rfl

theorem BKE_sequence_calc_type (seqbase : List Sequence) (seq : Sequence) :
    (BKE_sequence_calc seqbase seq).type = seq.type := by
  unfold BKE_sequence_calc
  split <;> rfl

theorem transseq_backup_restore (ts : TransSeq) (seq : Sequence) :
    transseq_backup (transseq_restore ts seq) = ts := rfl

/-! ## Theorems: soft split -/

/-- In the normal content, with no leading still frame in the way, the first
half of the soft split only sets `endofs`. -/
theorem split_seq_soft_first_normal (S : Sequence) (F : Int)
    (hA : ¬ (S.startstill ≠ 0 ∧ F ≤ S.start)) (h1 : S.start ≤ F) (h2 : F < S.start + S.len) :
    split_seq_soft_first S F = ({ S with endofs := (S.start + S.len) - F }, false) := by
  unfold split_seq_soft_first
  have h3 : ¬ (S.start + S.len = F) := by omega
  simp only [hA, h3, if_false, decide_False, ge_iff_le, h1, true_and, if_true]
  rw [if_pos (by omega)]

/-- C1 (split completeness), evaluated where the code departs from it.  The
strip with content `[10, 15)` and three leading still frames is well formed and
displayed on `[7, 15)`; frame 8 lies strictly inside.  After `split_seq_soft`
the left strip is displayed on `[7, 8)`, but the returned right strip is
displayed on `[5, 12)` instead of `[8, 15)`. -/
theorem split_seq_soft_first_still_frame :
    WellFormed leadStillStrip ∧ leadStillStrip.type ≠ SeqType.meta ∧
    leadStillStrip.startdisp < 8 ∧ 8 < leadStillStrip.enddisp ∧
    dispOf (some (split_seq_soft [] leadStillStrip 8).seq) = some (7, 8) ∧
    dispOf (split_seq_soft [] leadStillStrip 8).seqn = some (5, 12) ∧
    dispOf (split_seq_soft [] leadStillStrip 8).seqn ≠ some (8, leadStillStrip.enddisp) := by
  decide

/-- When the first half does not skip the duplicate of a strip that is not a
meta-group, the soft split returns both strips recalculated by the display
formulas. -/
theorem split_seq_soft_out (seqbase : List Sequence) (S : Sequence) (F : Int)
    (hty : S.type ≠ SeqType.meta) (L : Sequence) (hL : split_seq_soft_first S F = (L, false))
    (hLt : L.type = S.type) :
    split_seq_soft seqbase S F =
      { seq := BKE_sequence_calc_disp L
        seqn := some (BKE_sequence_calc_disp
          (split_seq_soft_second (transseq_backup S) (BKE_sequence_calc_disp L) F)) } := by
  have h1 : L.type ≠ SeqType.meta := by rw [hLt]; exact hty
  have h2 : (split_seq_soft_second (transseq_backup S) (BKE_sequence_calc_disp L) F).type
      ≠ SeqType.meta := by
    unfold split_seq_soft_second
    simp only
    split_ifs <;> exact h1
  simp only [split_seq_soft, hL, BKE_sequence_dupli_recursive,
    BKE_sequence_calc_of_ne_meta _ _ h1, BKE_sequence_calc_of_ne_meta _ _ h2,
    Bool.false_eq_true, if_false]

/-- Where split completeness does hold: for a well-formed strip that is not a
meta-group and a frame strictly inside its display range, the left strip is
displayed up to the split frame and the right strip from it, provided the
frame is not the first leading still frame of a strip with more than one frame
of content, and the strip has no trailing still frames when the frame lies in
its content. -/
theorem split_seq_soft_complete_elsewhere (S : Sequence) (F : Int) (hwf : WellFormed S)
    (hty : S.type ≠ SeqType.meta) (h1 : S.startdisp < F) (h2 : F < S.enddisp)
    (hlead : ¬ (S.startstill ≠ 0 ∧ F ≤ S.start ∧ F = S.startdisp + 1 ∧ S.len ≠ 1))
    (hnorm : S.start < F → F < S.start + S.len → S.endstill = 0) :
    dispOf (some (split_seq_soft [] S F).seq) = some (S.startdisp, F) ∧
    dispOf (split_seq_soft [] S F).seqn = some (F, S.enddisp) := by
  obtain ⟨w1, w2, w3, w4, w5, w6, w7, hsd, hed⟩ := hwf
  by_cases hA : S.startstill ≠ 0 ∧ F ≤ S.start
  · have hf : split_seq_soft_first S F = ({ S with
          start := F - 1
          startstill := F - S.startdisp - 1
          endofs := S.len - 1
          endstill := 0 }, false) := by
      unfold split_seq_soft_first
      rw [if_pos hA, if_neg hty]
    rw [split_seq_soft_out [] S F hty _ hf rfl]
    unfold split_seq_soft_second BKE_sequence_calc_disp dispOf transseq_backup
    simp only [Option.map_some', decide_eq_true_eq, decide_eq_false_iff_not]
    split_ifs <;> simp only [Option.some.injEq, Prod.mk.injEq] <;> omega
  · by_cases hN : S.start ≤ F ∧ F < S.start + S.len
    · have hf := split_seq_soft_first_normal S F hA hN.1 hN.2
      rw [split_seq_soft_out [] S F hty _ hf rfl]
      unfold split_seq_soft_second BKE_sequence_calc_disp dispOf transseq_backup
      simp only [Option.map_some', decide_eq_true_eq, decide_eq_false_iff_not]
      split_ifs <;> simp only [Option.some.injEq, Prod.mk.injEq] <;> omega
    · have hf : split_seq_soft_first S F =
          ({ S with endstill := S.endstill - (S.enddisp - F) }, false) := by
        unfold split_seq_soft_first
        rw [if_neg hA, if_neg (by simp only [decide_eq_false_iff_not]; omega),
          if_pos (by simp only [decide_eq_true_eq]; omega)]
        simp [hty]
      rw [split_seq_soft_out [] S F hty _ hf rfl]
      unfold split_seq_soft_second BKE_sequence_calc_disp dispOf transseq_backup
      simp only [Option.map_some', decide_eq_true_eq, decide_eq_false_iff_not]
      split_ifs <;> simp only [Option.some.injEq, Prod.mk.injEq] <;> omega

/-- C2 as stated fails: the strip with content `[0, 10)` and five trailing still
frames is well formed and displayed on `[0, 15)`; after a soft split at frame 12
and the re-join of the left strip (trim offsets back to the snapshot, then
recalculation) the display range ends at 12, not at 15. -/
theorem split_seq_soft_rejoin_trailing_still :
    WellFormed trailStillStrip ∧ trailStillStrip.type ≠ SeqType.meta ∧
    trailStillStrip.startdisp < 12 ∧ 12 < trailStillStrip.enddisp ∧
    (rejoin (transseq_backup trailStillStrip)
      (split_seq_soft [] trailStillStrip 12).seq).enddisp = 12 ∧
    trailStillStrip.enddisp = 15 := by
  decide

/-- C2, amended (soft split round trip): for a well-formed strip that is not a
meta-group and a frame `F` inside its content, `start < F < start + len`,
putting the snapshot's `startofs` and `endofs` back on the left strip and
recalculating gives the original `startdisp`, `enddisp` and `len`. -/
theorem split_seq_soft_rejoin_in_content (S : Sequence) (F : Int) (hwf : WellFormed S)
    (hty : S.type ≠ SeqType.meta) (h1 : S.start < F) (h2 : F < S.start + S.len) :
    (rejoin (transseq_backup S) (split_seq_soft [] S F).seq).startdisp = S.startdisp ∧
    (rejoin (transseq_backup S) (split_seq_soft [] S F).seq).enddisp = S.enddisp ∧
    (rejoin (transseq_backup S) (split_seq_soft [] S F).seq).len = S.len := by
  obtain ⟨_, _, _, _, _, _, _, hsd, hed⟩ := hwf
  have hA : ¬ (S.startstill ≠ 0 ∧ F ≤ S.start) := by omega
  have hf := split_seq_soft_first_normal S F hA (by omega) h2
  simp [rejoin, split_seq_soft, hf, BKE_sequence_dupli_recursive, BKE_sequence_calc_of_ne_meta,
    hty, BKE_sequence_calc_disp, transseq_backup, hsd, hed]

/-- Witness for C2: the strip with trailing still frames, split inside its
content at frame 6. -/
theorem split_seq_soft_rejoin_in_content_witness :
    (rejoin (transseq_backup trailStillStrip)
      (split_seq_soft [] trailStillStrip 6).seq).startdisp = trailStillStrip.startdisp ∧
    (rejoin (transseq_backup trailStillStrip)
      (split_seq_soft [] trailStillStrip 6).seq).enddisp = trailStillStrip.enddisp ∧
    (rejoin (transseq_backup trailStillStrip)
      (split_seq_soft [] trailStillStrip 6).seq).len = trailStillStrip.len :=
  split_seq_soft_rejoin_in_content trailStillStrip 6 (by decide) (by decide) (by decide)
    (by decide)

/-- C3 as stated fails: frame 12 lies strictly inside the display range
`[0, 15)` of the strip with five trailing still frames; the soft split there
changes `endstill` of the left strip from 5 to 2 and gives the right strip
`start = 3` instead of 0. -/
theorem split_seq_soft_moves_stills :
    trailStillStrip.startdisp < 12 ∧ 12 < trailStillStrip.enddisp ∧
    (split_seq_soft [] trailStillStrip 12).seq.endstill = 2 ∧
    trailStillStrip.endstill = 5 ∧
    (split_seq_soft [] trailStillStrip 12).seqn.map Sequence.start = some 3 ∧
    trailStillStrip.start = 0 := by
  decide

/-- C3, amended (soft split only changes trim offsets): for a strip that is not
a meta-group and has no leading still frames, split at a frame inside its
content, `start ≤ F < start + len`, both resulting strips have the original
`start`, `len`, `startstill`, `endstill`, `anim_startofs` and `anim_endofs`. -/
theorem split_seq_soft_only_trim_in_content (seqbase : List Sequence) (S : Sequence) (F : Int)
    (hty : S.type ≠ SeqType.meta) (hss : S.startstill = 0) (h1 : S.start ≤ F)
    (h2 : F < S.start + S.len) :
    SameButTrim (split_seq_soft seqbase S F).seq S ∧
    ∃ B, (split_seq_soft seqbase S F).seqn = some B ∧ SameButTrim B S := by
  have hA : ¬ (S.startstill ≠ 0 ∧ F ≤ S.start) := by simp [hss]
  have hf := split_seq_soft_first_normal S F hA h1 h2
  have h3 : ¬ (S.start + S.len = F) := by omega
  have h5 : F ≤ S.start + S.len := by omega
  simp [SameButTrim, split_seq_soft, hf, BKE_sequence_dupli_recursive,
    BKE_sequence_calc_of_ne_meta, hty, BKE_sequence_calc_disp, split_seq_soft_second,
    transseq_backup, hss, h3, h1, h5]

/-- Witness for C3: the strip with trailing still frames, split at frame 6. -/
theorem split_seq_soft_only_trim_in_content_witness :
    SameButTrim (split_seq_soft [] trailStillStrip 6).seq trailStillStrip ∧
    ∃ B, (split_seq_soft [] trailStillStrip 6).seqn = some B ∧ SameButTrim B trailStillStrip :=
  split_seq_soft_only_trim_in_content [] trailStillStrip 6 (by decide) rfl (by decide)
    (by decide)

/-- C4 as stated fails: the strip with `startofs = -5` has no still frames and
frame 7 satisfies `start + startofs < 7 < start + len - endofs`; the soft split
leaves `endofs = 0` on the left strip (not `start + len - 7 = 13`) and returns a
right strip with `startofs = -5` (not `7 - start = -3`). -/
theorem split_seq_soft_negative_trim :
    negTrimStrip.type ≠ SeqType.meta ∧
    negTrimStrip.startstill = 0 ∧ negTrimStrip.endstill = 0 ∧
    negTrimStrip.start + negTrimStrip.startofs < 7 ∧
    7 < negTrimStrip.start + negTrimStrip.len - negTrimStrip.endofs ∧
    (split_seq_soft [] negTrimStrip 7).seq.endofs = 0 ∧
    negTrimStrip.start + negTrimStrip.len - 7 = 13 ∧
    (split_seq_soft [] negTrimStrip 7).seqn.map Sequence.startofs = some (-5) ∧
    7 - negTrimStrip.start = -3 := by
  decide

/-- C4, amended (soft split in normal content): for a strip that is not a
meta-group, has no still frames and has non-negative trim offsets, and a frame
`F` with `start + startofs < F < start + len - endofs`, the left strip keeps
`start`, `len`, `startofs` and gets `endofs = start + len - F`; the returned
right strip has the same `start` and `len`, `startofs = F - start` and the
original `endofs`; the left strip is displayed on `[start + startofs, F)` and
the right one on `[F, start + len - endofs)`. -/
theorem split_seq_soft_normal_content (seqbase : List Sequence) (S : Sequence) (F : Int)
    (hty : S.type ≠ SeqType.meta) (hss : S.startstill = 0) (hes : S.endstill = 0)
    (hso : 0 ≤ S.startofs) (heo : 0 ≤ S.endofs)
    (h1 : S.start + S.startofs < F) (h2 : F < S.start + S.len - S.endofs) :
    (split_seq_soft seqbase S F).seq.start = S.start ∧
    (split_seq_soft seqbase S F).seq.len = S.len ∧
    (split_seq_soft seqbase S F).seq.startofs = S.startofs ∧
    (split_seq_soft seqbase S F).seq.endofs = S.start + S.len - F ∧
    (split_seq_soft seqbase S F).seq.startdisp = S.start + S.startofs ∧
    (split_seq_soft seqbase S F).seq.enddisp = F ∧
    ∃ B, (split_seq_soft seqbase S F).seqn = some B ∧
      B.start = S.start ∧ B.len = S.len ∧ B.startofs = F - S.start ∧
      B.endofs = S.endofs ∧ B.startdisp = F ∧ B.enddisp = S.start + S.len - S.endofs := by
  have hA : ¬ (S.startstill ≠ 0 ∧ F ≤ S.start) := by simp [hss]
  have hf := split_seq_soft_first_normal S F hA (by omega) (by omega)
  have h3 : ¬ (S.start + S.len = F) := by omega
  have h4 : S.start ≤ F := by omega
  have h5 : F ≤ S.start + S.len := by omega
  simp [split_seq_soft, hf, BKE_sequence_dupli_recursive, BKE_sequence_calc_of_ne_meta, hty,
    BKE_sequence_calc_disp, split_seq_soft_second, transseq_backup, hss, hes, h3, h4, h5]

/-- Witness for C4, the example scenario: strip A with content and display
`[0, 10)` split at frame 6 gives `A'.endofs = 4` with A' on `[0, 6)`, and
`B.startofs = 6` with B on `[6, 10)`. -/
theorem split_seq_soft_normal_content_witness :
    (split_seq_soft [] (plainStrip SeqType.movie) 6).seq.start = 0 ∧
    (split_seq_soft [] (plainStrip SeqType.movie) 6).seq.len = 10 ∧
    (split_seq_soft [] (plainStrip SeqType.movie) 6).seq.startofs = 0 ∧
    (split_seq_soft [] (plainStrip SeqType.movie) 6).seq.endofs = 4 ∧
    (split_seq_soft [] (plainStrip SeqType.movie) 6).seq.startdisp = 0 ∧
    (split_seq_soft [] (plainStrip SeqType.movie) 6).seq.enddisp = 6 ∧
    ∃ B, (split_seq_soft [] (plainStrip SeqType.movie) 6).seqn = some B ∧
      B.start = 0 ∧ B.len = 10 ∧ B.startofs = 6 ∧
      B.endofs = 0 ∧ B.startdisp = 6 ∧ B.enddisp = 10 :=
  split_seq_soft_normal_content [] (plainStrip SeqType.movie) 6 (by decide) rfl rfl
    (by decide) (by decide) (by decide) (by decide)

/-! ## Theorems: meta-groups under split -/

theorem split_seq_soft_seqn_none_iff (seqbase : List Sequence) (S : Sequence) (F : Int) :
    (split_seq_soft seqbase S F).seqn = none ↔ (split_seq_soft_first S F).2 = true := by
  unfold split_seq_soft BKE_sequence_dupli_recursive
  cases h : (split_seq_soft_first S F).2 <;> simp [h]

theorem split_seq_hard_seqn_none_iff (srclen : Int) (seqbase : List Sequence) (S : Sequence)
    (F : Int) (hty : S.type = SeqType.meta) :
    (split_seq_hard srclen seqbase S F).seqn = none ↔
      (split_seq_hard_first (decide (S.start + S.len = F)) S F).2 = true := by
  unfold split_seq_hard BKE_sequence_dupli_recursive
  cases h : (split_seq_hard_first (decide (S.start + S.len = F)) S F).2 <;> simp [h, hty]

theorem split_seq_soft_first_skip_meta (S : Sequence) (F : Int) (hty : S.type = SeqType.meta) :
    (split_seq_soft_first S F).2 = true ↔ inStillRegion S F := by
  unfold split_seq_soft_first inStillRegion
  have e1 : (F = S.start + S.len) ↔ (S.start + S.len = F) := eq_comm
  by_cases hA : S.startstill ≠ 0 ∧ F ≤ S.start
  · simp [hA, hty]
  · by_cases hE : S.start + S.len = F
    · simp [hA, hE, hty]
    · by_cases hN : F ≥ S.start ∧ F ≤ S.start + S.len
      · simp only [hA, hE, hN, e1, if_false, if_true, decide_False, true_and, and_self,
          false_or, Bool.false_eq_true, false_iff, not_and, not_not]
        omega
      · by_cases hT : S.start + S.len < F ∧ S.endstill ≠ 0
        · simp [hA, hE, hN, hT, hty, e1]
        · simp [hA, hE, hN, hT, hty, e1]

theorem split_seq_hard_first_skip_meta (S : Sequence) (F : Int) (hty : S.type = SeqType.meta) :
    (split_seq_hard_first (decide (S.start + S.len = F)) S F).2 = true ↔ inStillRegion S F := by
  unfold split_seq_hard_first inStillRegion
  have e1 : (F = S.start + S.len) ↔ (S.start + S.len = F) := eq_comm
  by_cases hA : S.startstill ≠ 0 ∧ F ≤ S.start
  · simp [hA, hty]
  · by_cases hE : S.start + S.len = F
    · simp [hA, hE, hty]
    · by_cases hN : F ≥ S.start ∧ F ≤ S.start + S.len
      · simp only [hA, hE, hN, e1, if_false, if_true, decide_False, true_and, and_self,
          false_or, Bool.false_eq_true, false_iff, not_and, not_not]
        omega
      · by_cases hT : S.start + S.len < F ∧ S.endstill ≠ 0
        · simp [hA, hE, hN, hT, hty, e1]
        · simp [hA, hE, hN, hT, hty, e1]

/-- C5 as stated fails: a meta-group with content and display `[0, 10)` split
at frame 6, in its normal content, is duplicated by `split_seq_soft` and by
`split_seq_hard`: neither returns null. -/
theorem split_meta_in_content_duplicates :
    (plainStrip SeqType.meta).type = SeqType.meta ∧
    (plainStrip SeqType.meta).startdisp < 6 ∧ 6 < (plainStrip SeqType.meta).enddisp ∧
    (split_seq_soft [] (plainStrip SeqType.meta) 6).seqn ≠ none ∧
    (split_seq_hard 10 [] (plainStrip SeqType.meta) 6).seqn ≠ none := by
  decide

/-- C5, amended (meta-groups and split): for a meta-group strip,
`split_seq_soft` and `split_seq_hard` create no duplicate and return null
exactly when the split frame is in the leading still frames
(`startstill ≠ 0`, `F ≤ start`), at the end of the content (`F = start + len`)
or in the trailing still frames (`start + len < F`, `endstill ≠ 0`). -/
theorem split_meta_null_iff_still_region (srclen : Int) (seqbase : List Sequence)
    (S : Sequence) (F : Int) (hty : S.type = SeqType.meta) :
    ((split_seq_soft seqbase S F).seqn = none ↔ inStillRegion S F) ∧
    ((split_seq_hard srclen seqbase S F).seqn = none ↔ inStillRegion S F) :=
  ⟨(split_seq_soft_seqn_none_iff seqbase S F).trans (split_seq_soft_first_skip_meta S F hty),
   (split_seq_hard_seqn_none_iff srclen seqbase S F hty).trans
     (split_seq_hard_first_skip_meta S F hty)⟩

/-- Witness for C5: a meta-group with five trailing still frames, displayed on
`[0, 15)` and split at frame 12. -/
theorem split_meta_null_iff_still_region_witness :
    ((split_seq_soft [] { trailStillStrip with type := SeqType.meta } 12).seqn = none ↔
      inStillRegion { trailStillStrip with type := SeqType.meta } 12) ∧
    ((split_seq_hard 10 [] { trailStillStrip with type := SeqType.meta } 12).seqn = none ↔
      inStillRegion { trailStillStrip with type := SeqType.meta } 12) :=
  split_meta_null_iff_still_region 10 [] { trailStillStrip with type := SeqType.meta } 12 rfl

/-! ## Lemmas on one pass of the slip loop body -/

theorem slip_update_type (ts : TransSeq) (trim : Bool) (offset : Int) (seq : Sequence) :
    (slip_update ts trim offset seq).1.type = seq.type := by
  unfold slip_update
  cases trim
  · rfl
  · simp only [if_true]
    split_ifs <;> rfl

theorem slip_one_type (seqbase : List Sequence) (ts : TransSeq) (trim : Bool) (offset : Int)
    (seq : Sequence) : (slip_one seqbase ts trim offset seq).type = seq.type := by
  unfold slip_one
  simp only
  split_ifs
  · exact slip_update_type ts trim offset seq
  · rw [BKE_sequence_calc_type]; exact slip_update_type ts trim offset seq

theorem slip_one_of_ne_meta (seqbase : List Sequence) (ts : TransSeq) (trim : Bool)
    (offset : Int) (seq : Sequence) (h : seq.type ≠ SeqType.meta) :
    slip_one seqbase ts trim offset seq = slip_one [] ts trim offset seq := by
  unfold slip_one
  have ht : (slip_update ts trim offset seq).1.type ≠ SeqType.meta := by
    rw [slip_update_type]; exact h
  simp only [BKE_sequence_calc_of_ne_meta _ _ ht]

theorem slip_one_trim_fields (seqbase : List Sequence) (ts : TransSeq) (offset : Int)
    (seq : Sequence) (h : seq.type ≠ SeqType.meta) :
    (slip_one seqbase ts true offset seq).start +
        (slip_one seqbase ts true offset seq).startofs -
        (slip_one seqbase ts true offset seq).startstill = seq.startdisp ∧
    (slip_one seqbase ts true offset seq).start + (slip_one seqbase ts true offset seq).len -
        (slip_one seqbase ts true offset seq).endofs +
        (slip_one seqbase ts true offset seq).endstill = seq.enddisp ∧
    (slip_one seqbase ts true offset seq).startdisp = seq.startdisp ∧
    (slip_one seqbase ts true offset seq).enddisp = seq.enddisp ∧
    (slip_one seqbase ts true offset seq).len = seq.len := by
  rw [slip_one_of_ne_meta seqbase ts true offset seq h]
  unfold slip_one slip_update BKE_sequence_calc BKE_sequence_calc_disp
  simp only [if_true]
  split_ifs <;> (try split) <;> simp_all

theorem slip_one_trim_rest (ts : TransSeq) (offset : Int) (seq : Sequence) :
    (slip_one [] ts true offset seq).anim_startofs = seq.anim_startofs ∧
    (slip_one [] ts true offset seq).anim_endofs = seq.anim_endofs ∧
    (slip_one [] ts true offset seq).machine = seq.machine ∧
    (slip_one [] ts true offset seq).flag = seq.flag ∧
    (slip_one [] ts true offset seq).depth = seq.depth := by
  unfold slip_one slip_update
  simp only [BKE_sequence_calc_nil, BKE_sequence_calc_disp, if_true]
  split_ifs <;> simp_all

theorem slip_one_trim_congr (ts : TransSeq) (offset : Int) (s1 s2 : Sequence)
    (h1 : s1.len = s2.len) (h2 : s1.startdisp = s2.startdisp) (h3 : s1.enddisp = s2.enddisp)
    (h4 : s1.anim_startofs = s2.anim_startofs) (h5 : s1.anim_endofs = s2.anim_endofs)
    (h6 : s1.machine = s2.machine) (h7 : s1.type = s2.type) (h8 : s1.flag = s2.flag)
    (h9 : s1.depth = s2.depth) :
    slip_one [] ts true offset s1 = slip_one [] ts true offset s2 := by
  cases s1
  cases s2
  simp only at h1 h2 h3 h4 h5 h6 h7 h8 h9
  subst h1 h2 h3 h4 h5 h6 h7 h8 h9
  unfold slip_one slip_update
  simp only [BKE_sequence_calc_nil, BKE_sequence_calc_disp, if_true]
  split_ifs <;> simp_all

theorem slip_one_twice (sb sb' : List Sequence) (ts : TransSeq) (trim : Bool) (a b : Int)
    (seq : Sequence) (h : seq.type ≠ SeqType.meta) :
    slip_one sb ts trim b (slip_one sb' ts trim a seq) = slip_one sb ts trim b seq := by
  have h' : (slip_one sb' ts trim a seq).type ≠ SeqType.meta := by rw [slip_one_type]; exact h
  rw [slip_one_of_ne_meta sb ts trim b _ h', slip_one_of_ne_meta sb' ts trim a seq h,
    slip_one_of_ne_meta sb ts trim b seq h]
  cases trim
  · unfold slip_one slip_update
    simp only [BKE_sequence_calc_nil, BKE_sequence_calc_disp, Bool.false_eq_true, if_false]
    split_ifs <;> simp_all
  · obtain ⟨_, _, k3, k4, k5⟩ := slip_one_trim_fields [] ts a seq h
    obtain ⟨r1, r2, r3, r4, r5⟩ := slip_one_trim_rest ts a seq
    exact slip_one_trim_congr ts b _ _ k5 k3 k4 r1 r2 r3 (slip_one_type _ _ _ _ _) r4 r5

/-! ## Lemmas on the slip loop -/

theorem slip_loop_length (data : SlipData) (offset : Int) :
    ∀ (n : Nat) (arr : List Sequence) (c : Bool),
      (slip_loop data offset n (arr, c)).1.length = arr.length
  | 0, _, _ => rfl
  | n + 1, arr, c => by
    unfold slip_loop
    split
    · rw [slip_loop_length data offset n]; exact List.length_set _ _ _
    · exact slip_loop_length data offset n arr c

theorem slip_loop_get_ge (data : SlipData) (offset : Int) :
    ∀ (n : Nat) (arr : List Sequence) (c : Bool) (i : Nat), n ≤ i →
      (slip_loop data offset n (arr, c)).1[i]? = arr[i]?
  | 0, _, _, _, _ => rfl
  | n + 1, arr, c, i, h => by
    unfold slip_loop
    split
    · rw [slip_loop_get_ge data offset n _ _ i (by omega)]
      exact List.getElem?_set_ne (by omega)
    · exact slip_loop_get_ge data offset n arr c i (by omega)

theorem slip_loop_get_lt (data : SlipData) (offset : Int) :
    ∀ (n : Nat) (arr : List Sequence) (c : Bool) (i : Nat) (seq : Sequence) (ts : TransSeq)
      (trim : Bool), i < n → arr[i]? = some seq → data.ts[i]? = some ts →
      data.trim[i]? = some trim → seq.type ≠ SeqType.meta →
      (slip_loop data offset n (arr, c)).1[i]? = some (slip_one [] ts trim offset seq)
  | 0, _, _, _, _, _, _, h, _, _, _, _ => absurd h (Nat.not_lt_zero _)
  | n + 1, arr, c, i, seq, ts, trim, h, ha, ht, hb, hty => by
    unfold slip_loop
    by_cases hi : i = n
    · subst hi
      simp only [ha, ht, hb]
      rw [slip_loop_get_ge data offset i _ _ i (Nat.le_refl i)]
      have hlt : i < arr.length := (List.getElem?_eq_some.mp ha).1
      rw [List.getElem?_set_self hlt, slip_one_of_ne_meta _ ts trim offset seq hty]
    · have hin : i < n := by omega
      split
      · apply slip_loop_get_lt data offset n _ _ i seq ts trim hin _ ht hb hty
        rw [List.getElem?_set_ne (by omega)]; exact ha
      · exact slip_loop_get_lt data offset n arr c i seq ts trim hin ha ht hb hty

theorem slip_loop_get_lt_none (data : SlipData) (offset : Int) :
    ∀ (n : Nat) (arr : List Sequence) (c : Bool) (i : Nat), i < n →
      (data.ts[i]? = none ∨ data.trim[i]? = none) →
      (slip_loop data offset n (arr, c)).1[i]? = arr[i]?
  | 0, _, _, _, h, _ => absurd h (Nat.not_lt_zero _)
  | n + 1, arr, c, i, h, hn => by
    unfold slip_loop
    by_cases hi : i = n
    · subst hi
      split
      · next _ _ _ _ _ _ h2 h3 => rcases hn with hn | hn <;> simp_all
      · exact slip_loop_get_ge data offset i arr c i (Nat.le_refl i)
    · have hin : i < n := by omega
      split
      · rw [slip_loop_get_lt_none data offset n _ _ i hin hn]
        exact List.getElem?_set_ne (by omega)
      · exact slip_loop_get_lt_none data offset n arr c i hin hn

theorem slip_get_trimmed (data : SlipData) (offset : Int) (i : Nat) (seq : Sequence)
    (ts : TransSeq) (trim : Bool) (hi : i < data.num_seq) (ha : data.seq_array[i]? = some seq)
    (ht : data.ts[i]? = some ts) (hb : data.trim[i]? = some trim)
    (hty : seq.type ≠ SeqType.meta) :
    (sequencer_slip_recursively data offset).1.seq_array[i]? =
      some (slip_one [] ts trim offset seq) :=
  slip_loop_get_lt data offset data.num_seq data.seq_array false i seq ts trim hi ha ht hb hty

theorem slip_get_of_none (data : SlipData) (offset : Int) (i : Nat)
    (hn : data.ts[i]? = none ∨ data.trim[i]? = none) :
    (sequencer_slip_recursively data offset).1.seq_array[i]? = data.seq_array[i]? := by
  unfold sequencer_slip_recursively
  by_cases hi : i < data.num_seq
  · exact slip_loop_get_lt_none data offset data.num_seq data.seq_array false i hi hn
  · exact slip_loop_get_ge data offset data.num_seq data.seq_array false i (by omega)

theorem slip_get_cases (data : SlipData) (offset : Int) (i : Nat)
    (hnm : ∀ s ∈ data.seq_array, s.type ≠ SeqType.meta) :
    (sequencer_slip_recursively data offset).1.seq_array[i]? =
      match data.seq_array[i]?, data.ts[i]?, data.trim[i]? with
      | some seq, some ts, some trim =>
        if i < data.num_seq then some (slip_one [] ts trim offset seq) else some seq
      | x, _, _ => x := by
  by_cases hi : i < data.num_seq
  · cases ha : data.seq_array[i]? with
    | none =>
      have hlen : (sequencer_slip_recursively data offset).1.seq_array.length =
          data.seq_array.length := slip_loop_length data offset data.num_seq data.seq_array false
      have : data.seq_array.length ≤ i := List.getElem?_eq_none_iff.mp ha
      rw [List.getElem?_eq_none (hlen ▸ this)]
    | some seq =>
      have hty : seq.type ≠ SeqType.meta := hnm seq (List.getElem?_mem ha)
      cases ht : data.ts[i]? with
      | none => simp only [slip_get_of_none data offset i (Or.inl ht), ha]
      | some ts =>
        cases hb : data.trim[i]? with
        | none => simp only [slip_get_of_none data offset i (Or.inr hb), ha]
        | some trim =>
          simp only [hi, if_true]
          exact slip_get_trimmed data offset i seq ts trim hi ha ht hb hty
  · have hg : (sequencer_slip_recursively data offset).1.seq_array[i]? = data.seq_array[i]? :=
      slip_loop_get_ge data offset data.num_seq data.seq_array false i (by omega)
    rw [hg]
    cases data.seq_array[i]? <;> cases data.ts[i]? <;> cases data.trim[i]? <;> simp [hi]

theorem slip_keeps_no_meta (data : SlipData) (offset : Int)
    (hnm : ∀ s ∈ data.seq_array, s.type ≠ SeqType.meta) :
    ∀ s ∈ (sequencer_slip_recursively data offset).1.seq_array, s.type ≠ SeqType.meta := by
  intro s hs
  obtain ⟨i, hi, rfl⟩ := List.getElem_of_mem hs
  have h := slip_get_cases data offset i hnm
  rw [List.getElem?_eq_getElem hi] at h
  cases ha : data.seq_array[i]? with
  | none => rw [ha] at h; simp at h
  | some seq =>
    have hty : seq.type ≠ SeqType.meta := hnm seq (List.getElem?_mem ha)
    rw [ha] at h
    cases ht : data.ts[i]? <;> cases hb : data.trim[i]? <;> rw [ht, hb] at h <;>
      simp only [Option.some.injEq] at h
    · rw [h]; exact hty
    · rw [h]; exact hty
    · rw [h]; exact hty
    · split_ifs at h
      · rw [Option.some.injEq] at h; rw [h, slip_one_type]; exact hty
      · rw [Option.some.injEq] at h; rw [h]; exact hty

theorem slip_restore_step_length (data : SlipData) (arr : List Sequence) (i : Nat) :
    (slip_restore_step data arr i).length = arr.length := by
  unfold slip_restore_step
  split
  · exact List.length_set _ _ _
  · rfl

/-- C6 (slip offset clamp), evaluated where the code departs from it.  One
trimmed strip, well formed, with content `[5, 15)`, display range `[5, 15)` and
`anim_startofs = 5`.  For the requested offset -12 `sequencer_slip_apply_limits`
returns -12 unchanged, and the content window `[5 - 12, 5 - 12 + 10)`, that is
`[-7, 3)`, shares no frame with `[5, 15)`. -/
theorem slip_apply_limits_hard_cut :
    WellFormed hardCutStrip ∧ 1 ≤ hardCutStrip.len ∧
    hardCutStrip.startdisp < hardCutStrip.enddisp ∧
    sequencer_slip_apply_limits hardCutSlip (-12) = -12 ∧
    ¬ sharesFrame (hardCutStrip.start + -12) (hardCutStrip.start + -12 + hardCutStrip.len)
        hardCutStrip.startdisp hardCutStrip.enddisp := by
  decide

/-- For a single trimmed strip with no source frames cut off
(`anim_startofs + anim_endofs = 0`), at least one frame of content and a
non-empty display range, the clamped offset keeps the content window on the
display range. -/
theorem slip_apply_limits_single (seq : Sequence) (ts : TransSeq) (sb : List (List Nat))
    (o : Int) (hlen : 1 ≤ seq.len) (hd : seq.startdisp < seq.enddisp)
    (ha : seq.anim_startofs + seq.anim_endofs = 0) :
    sharesFrame
      (ts.start + sequencer_slip_apply_limits
        { ts := [ts], seq_array := [seq], trim := [true], num_seq := 1, seqbase := sb } o)
      (ts.start + sequencer_slip_apply_limits
        { ts := [ts], seq_array := [seq], trim := [true], num_seq := 1, seqbase := sb } o
        + seq.len)
      seq.startdisp seq.enddisp := by
  unfold sharesFrame sequencer_slip_apply_limits slip_limit_step
  simp only [List.range_succ, List.range_zero, List.nil_append, List.foldl_cons, List.foldl_nil,
    List.getElem?_cons_zero]
  split_ifs <;> simp only [max_lt_iff, lt_min_iff] <;> omega

/-- C7 (slip never moves the display range): for every collected strip that is
trimmed and not a meta-group, and every offset, the fields written by
`sequencer_slip_recursively` satisfy `start + startofs - startstill = startdisp`
and `start + len - endofs + endstill = enddisp` for the strip's `startdisp` and
`enddisp` from before the slip, and the strip has that same display range
after the pass. -/
theorem slip_keeps_display_range (data : SlipData) (offset : Int) (i : Nat) (seq : Sequence)
    (ts : TransSeq) (hi : i < data.num_seq) (ha : data.seq_array[i]? = some seq)
    (ht : data.ts[i]? = some ts) (hb : data.trim[i]? = some true)
    (hty : seq.type ≠ SeqType.meta) :
    ∃ seq', (sequencer_slip_recursively data offset).1.seq_array[i]? = some seq' ∧
      seq'.start + seq'.startofs - seq'.startstill = seq.startdisp ∧
      seq'.start + seq'.len - seq'.endofs + seq'.endstill = seq.enddisp ∧
      seq'.startdisp = seq.startdisp ∧ seq'.enddisp = seq.enddisp := by
  obtain ⟨k1, k2, k3, k4, _⟩ := slip_one_trim_fields [] ts offset seq hty
  exact ⟨_, slip_get_trimmed data offset i seq ts true hi ha ht hb hty, k1, k2, k3, k4⟩

/-- Witness for C7: the strip with window `[5, 15)` slipped by 3. -/
theorem slip_keeps_display_range_witness :
    ∃ seq', (sequencer_slip_recursively windowSlip 3).1.seq_array[0]? = some seq' ∧
      seq'.start + seq'.startofs - seq'.startstill = windowStrip.startdisp ∧
      seq'.start + seq'.len - seq'.endofs + seq'.endstill = windowStrip.enddisp ∧
      seq'.startdisp = windowStrip.startdisp ∧ seq'.enddisp = windowStrip.enddisp :=
  slip_keeps_display_range windowSlip 3 0 windowStrip (transseq_backup windowStrip)
    (by decide) rfl rfl rfl (by decide)

/-- C10 (slip results depend only on the snapshot and the offset): when no
collected strip is a meta-group, a pass with offset `a` followed by a pass with
offset `b` leaves every collected strip exactly as a single pass with `b` does,
and `sequencer_slip_apply_limits` clamps `b` to the same value after the pass
with `a` as before it. -/
theorem slip_depends_only_on_offset (data : SlipData) (a b : Int)
    (hnm : ∀ s ∈ data.seq_array, s.type ≠ SeqType.meta) :
    (sequencer_slip_recursively (sequencer_slip_recursively data a).1 b).1.seq_array =
      (sequencer_slip_recursively data b).1.seq_array ∧
    sequencer_slip_apply_limits (sequencer_slip_recursively data a).1 b =
      sequencer_slip_apply_limits data b := by
  have hnm' := slip_keeps_no_meta data a hnm
  have ha := fun i => slip_get_cases data a i hnm
  constructor
  · apply List.ext_getElem?
    intro i
    rw [slip_get_cases _ b i hnm', slip_get_cases data b i hnm]
    show (match (sequencer_slip_recursively data a).1.seq_array[i]?, data.ts[i]?,
        data.trim[i]? with
      | some seq, some ts, some trim =>
        if i < data.num_seq then some (slip_one [] ts trim b seq) else some seq
      | x, _, _ => x) = _
    rw [ha i]
    cases hs : data.seq_array[i]? with
    | none => rfl
    | some seq =>
      have hty : seq.type ≠ SeqType.meta := hnm seq (List.getElem?_mem hs)
      cases data.ts[i]? <;> cases data.trim[i]? <;> try rfl
      by_cases hi : i < data.num_seq
      · simp only [hi, if_true, slip_one_twice [] [] _ _ a b seq hty]
      · simp only [hi, if_false]
  · unfold sequencer_slip_apply_limits
    show (List.range data.num_seq).foldl
      (slip_limit_step (sequencer_slip_recursively data a).1) b = _
    have hstep : slip_limit_step (sequencer_slip_recursively data a).1 =
        slip_limit_step data := by
      funext o i
      unfold slip_limit_step
      show (match data.trim[i]?, (sequencer_slip_recursively data a).1.seq_array[i]?,
          data.ts[i]? with
        | some true, some seq, some ts => _
        | _, _, _ => o) = _
      rw [ha i]
      cases hs : data.seq_array[i]? with
      | none => cases data.ts[i]? <;> cases data.trim[i]? <;> rfl
      | some seq =>
        have hty : seq.type ≠ SeqType.meta := hnm seq (List.getElem?_mem hs)
        cases data.ts[i]? with
        | none => cases data.trim[i]? <;> rfl
        | some ts =>
          cases data.trim[i]? with
          | none => rfl
          | some trim =>
            cases trim with
            | false => by_cases hi : i < data.num_seq <;> simp [hi]
            | true =>
              by_cases hi : i < data.num_seq
              · obtain ⟨_, _, k3, k4, k5⟩ := slip_one_trim_fields [] ts a seq hty
                obtain ⟨r1, r2, _, _⟩ := slip_one_trim_rest ts a seq
                simp only [hi, if_true, k3, k4, k5, r1, r2]
              · simp only [hi, if_false]
    rw [hstep]

/-- Witness for C10: two selected strips, slipped by 3 and then by -4. -/
theorem slip_depends_only_on_offset_witness :
    (sequencer_slip_recursively (sequencer_slip_recursively pairSlip 3).1 (-4)).1.seq_array =
      (sequencer_slip_recursively pairSlip (-4)).1.seq_array ∧
    sequencer_slip_apply_limits (sequencer_slip_recursively pairSlip 3).1 (-4) =
      sequencer_slip_apply_limits pairSlip (-4) :=
  slip_depends_only_on_offset pairSlip 3 (-4) (by decide)

/-! ## Theorems: neighbour and hit-test queries -/

theorem find_neighboring_hit_iff (test_ptr : Nat) (test : Sequence) (lr : SeqSide) (sel : Int)
    (hlr : lr = SeqSide.left ∨ lr = SeqSide.right) (hsel : sel = -1 ∨ sel = 0 ∨ sel = 1)
    (i : Nat) (seq : Sequence) :
    find_neighboring_hit test_ptr test lr (if sel > 0 then (SELECT : Int) else sel) i seq = true ↔
      isTouching test_ptr test lr sel i seq := by
  unfold find_neighboring_hit isTouching selMatches touchesSide SELECT
  rcases hsel with h | h | h <;> rcases hlr with k | k <;> subst h <;> subst k <;>
    simp <;> constructor <;> intro hh <;> (try constructor) <;> simp_all [eq_comm]

theorem find_neighboring_loop_some (test_ptr : Nat) (test : Sequence) (lr : SeqSide)
    (sel : Int) :
    ∀ (l : List Sequence) (k i : Nat),
      find_neighboring_loop test_ptr test lr sel k l = some i ↔
        ∃ s, k ≤ i ∧ l[i - k]? = some s ∧ find_neighboring_hit test_ptr test lr sel i s = true ∧
          ∀ j sj, k ≤ j → j < i → l[j - k]? = some sj →
            find_neighboring_hit test_ptr test lr sel j sj = false
  | [], k, i => by simp [find_neighboring_loop]
  | seq :: rest, k, i => by
    unfold find_neighboring_loop
    by_cases hh : find_neighboring_hit test_ptr test lr sel k seq = true
    · simp only [hh, if_true, Option.some.injEq]
      constructor
      · intro e
        subst e
        exact ⟨seq, Nat.le_refl _, by simp, hh, fun j sj h1 h2 => absurd h2 (by omega)⟩
      · rintro ⟨s, h1, _, _, h4⟩
        by_contra hne
        have := h4 k seq (Nat.le_refl _) (by omega) (by simp)
        rw [hh] at this
        exact Bool.noConfusion this
    · simp only [hh, if_false, Bool.false_eq_true]
      rw [find_neighboring_loop_some test_ptr test lr sel rest (k + 1) i]
      have hf : find_neighboring_hit test_ptr test lr sel k seq = false := by
        simpa using hh
      constructor
      · rintro ⟨s, h1, h2, h3, h4⟩
        refine ⟨s, by omega, ?_, h3, ?_⟩
        · have : i - k = (i - (k + 1)) + 1 := by omega
          rw [this, List.getElem?_cons_succ]; exact h2
        · intro j sj hj1 hj2 hj3
          by_cases hjk : j = k
          · subst hjk
            simp at hj3
            subst hj3
            exact hf
          · have : j - k = (j - (k + 1)) + 1 := by omega
            rw [this, List.getElem?_cons_succ] at hj3
            exact h4 j sj (by omega) hj2 hj3
      · rintro ⟨s, h1, h2, h3, h4⟩
        have hik : i ≠ k := by
          intro e
          subst e
          simp at h2
          subst h2
          rw [hf] at h3
          exact Bool.noConfusion h3
        refine ⟨s, by omega, ?_, h3, ?_⟩
        · have : i - k = (i - (k + 1)) + 1 := by omega
          rw [this, List.getElem?_cons_succ] at h2; exact h2
        · intro j sj hj1 hj2 hj3
          apply h4 j sj (by omega) hj2
          have : j - k = (j - (k + 1)) + 1 := by omega
          rw [this, List.getElem?_cons_succ]; exact hj3

theorem find_neighboring_loop_none (test_ptr : Nat) (test : Sequence) (lr : SeqSide)
    (sel : Int) :
    ∀ (l : List Sequence) (k : Nat),
      find_neighboring_loop test_ptr test lr sel k l = none ↔
        ∀ j sj, l[j]? = some sj → find_neighboring_hit test_ptr test lr sel (j + k) sj = false
  | [], k => by simp [find_neighboring_loop]
  | seq :: rest, k => by
    unfold find_neighboring_loop
    by_cases hh : find_neighboring_hit test_ptr test lr sel k seq = true
    · simp only [hh, if_true]
      constructor
      · intro e; exact Option.noConfusion e
      · intro h
        have := h 0 seq (by simp)
        rw [Nat.zero_add, hh] at this
        exact Bool.noConfusion this
    · simp only [hh, if_false, Bool.false_eq_true]
      rw [find_neighboring_loop_none test_ptr test lr sel rest (k + 1)]
      have hf : find_neighboring_hit test_ptr test lr sel k seq = false := by
        simpa using hh
      constructor
      · intro h j sj hj
        cases j with
        | zero =>
          simp at hj
          subst hj
          rw [Nat.zero_add]; exact hf
        | succ j =>
          rw [List.getElem?_cons_succ] at hj
          have := h j sj hj
          rw [show j + 1 + k = j + (k + 1) by omega]; exact this
      · intro h j sj hj
        have := h (j + 1) sj (by rw [List.getElem?_cons_succ]; exact hj)
        rw [show j + 1 + k = j + (k + 1) by omega] at this; exact this

/-- C13 (touching-neighbour query): for a side `lr` in {LEFT, RIGHT} and a
filter `sel` in {-1, 0, 1}, `find_neighboring_sequence` returns the position
`i` exactly when the strip there is a touching neighbour of `test` (another
strip, same channel, passing the filter, exactly adjacent on that side) and no
strip before it in list order is one; it returns null exactly when the working
list holds no touching neighbour. -/
theorem find_neighboring_sequence_first (l : List Sequence) (test_ptr : Nat) (test : Sequence)
    (lr : SeqSide) (sel : Int) (hlr : lr = SeqSide.left ∨ lr = SeqSide.right)
    (hsel : sel = -1 ∨ sel = 0 ∨ sel = 1) :
    (∀ i, find_neighboring_sequence (some l) test_ptr test lr sel = some i ↔
      ∃ s, l[i]? = some s ∧ isTouching test_ptr test lr sel i s ∧
        ∀ j sj, j < i → l[j]? = some sj → ¬ isTouching test_ptr test lr sel j sj) ∧
    (find_neighboring_sequence (some l) test_ptr test lr sel = none ↔
      ∀ i s, l[i]? = some s → ¬ isTouching test_ptr test lr sel i s) := by
  have hit := find_neighboring_hit_iff test_ptr test lr sel hlr hsel
  have hnot : ∀ i s, find_neighboring_hit test_ptr test lr
      (if sel > 0 then (SELECT : Int) else sel) i s = false ↔
      ¬ isTouching test_ptr test lr sel i s := by
    intro i s
    rw [← hit i s]
    simp
  constructor
  · intro i
    unfold find_neighboring_sequence
    simp only
    rw [find_neighboring_loop_some]
    constructor
    · rintro ⟨s, _, h2, h3, h4⟩
      refine ⟨s, h2, (hit i s).mp h3, fun j sj hj hs => (hnot j sj).mp ?_⟩
      exact h4 j sj (Nat.zero_le _) hj hs
    · rintro ⟨s, h2, h3, h4⟩
      refine ⟨s, Nat.zero_le _, h2, (hit i s).mpr h3, fun j sj _ hj hs => (hnot j sj).mpr ?_⟩
      exact h4 j sj hj hs
  · unfold find_neighboring_sequence
    simp only
    rw [find_neighboring_loop_none]
    constructor
    · intro h i s hs
      exact (hnot i s).mp (h i s hs)
    · intro h i s hs
      exact (hnot i s).mpr (h i s hs)

/-- Witness for C13: in `threeStrips` the selected right-hand touching
neighbour of the middle strip is the strip at position 2, and the middle strip
has no unselected left-hand touching neighbour. -/
theorem find_neighboring_sequence_first_witness :
    find_neighboring_sequence (some threeStrips) 1 middleStrip SeqSide.right 1 = some 2 ∧
    find_neighboring_sequence (some threeStrips) 1 middleStrip SeqSide.left 0 = none ∧
    ((∀ i, find_neighboring_sequence (some threeStrips) 1 middleStrip SeqSide.right 1 = some i ↔
      ∃ s, threeStrips[i]? = some s ∧ isTouching 1 middleStrip SeqSide.right 1 i s ∧
        ∀ j sj, j < i → threeStrips[j]? = some sj →
          ¬ isTouching 1 middleStrip SeqSide.right 1 j sj) ∧
    (find_neighboring_sequence (some threeStrips) 1 middleStrip SeqSide.right 1 = none ↔
      ∀ i s, threeStrips[i]? = some s → ¬ isTouching 1 middleStrip SeqSide.right 1 i s)) :=
  ⟨by decide, by decide,
    find_neighboring_sequence_first threeStrips 1 middleStrip SeqSide.right 1
      (Or.inr rfl) (Or.inr (Or.inr rfl))⟩

/-- C14 (nearest-in-direction query), evaluated where the code departs from it.
The test strip is on `[100, 110)`; on its channel and depth lie A on `[0, 95)`
(position 1, 5 frames away) and B on `[80, 90)` (position 2, 10 frames away).
For LEFT the code measures `test.enddisp - seq.startdisp` (110 for A, 30 for B)
and returns B, although A is eligible and nearer.  In the mirrored layout the
RIGHT branch, which measures the gap, returns the nearer strip. -/
theorem find_next_prev_sequence_left_metric :
    find_next_prev_sequence sampleMaxframe
      (some [spanStrip 100 110, spanStrip 0 95, spanStrip 80 90]) 0 (spanStrip 100 110)
      SeqSide.left (-1) = some 2 ∧
    (spanStrip 100 110).startdisp - (spanStrip 0 95).enddisp = 5 ∧
    (spanStrip 100 110).startdisp - (spanStrip 80 90).enddisp = 10 ∧
    (spanStrip 0 95).enddisp ≤ (spanStrip 100 110).startdisp ∧
    (spanStrip 0 95).machine = (spanStrip 100 110).machine ∧
    (spanStrip 0 95).depth = (spanStrip 100 110).depth ∧
    find_next_prev_sequence sampleMaxframe
      (some [spanStrip 0 10, spanStrip 15 110, spanStrip 20 30]) 0 (spanStrip 0 10)
      SeqSide.right (-1) = some 1 := by
  decide

theorem find_nearest_loop_some (x y : ℚ) :
    ∀ (l : List Sequence) (k i : Nat), find_nearest_loop x y k l = some i →
      ∃ s, k ≤ i ∧ l[i - k]? = some s ∧ s.machine = cTrunc y ∧
        ((s.startdisp < s.enddisp ∧ ((s.startdisp : ℚ) ≤ x ∧ (s.enddisp : ℚ) ≥ x)) ∨
          (s.startdisp > s.enddisp ∧ ((s.startdisp : ℚ) ≥ x ∧ (s.enddisp : ℚ) ≤ x)))
  | [], k, i, h => by simp [find_nearest_loop] at h
  | seq :: rest, k, i, h => by
    unfold find_nearest_loop at h
    split_ifs at h with h1 h2
    · simp only [Option.some.injEq] at h
      subst h
      exact ⟨seq, Nat.le_refl _, by simp, h1, h2⟩
    · obtain ⟨s, a1, a2, a3⟩ := find_nearest_loop_some x y rest (k + 1) i h
      refine ⟨s, by omega, ?_, a3⟩
      have : i - k = (i - (k + 1)) + 1 := by omega
      rw [this, List.getElem?_cons_succ]; exact a2
    · obtain ⟨s, a1, a2, a3⟩ := find_nearest_loop_some x y rest (k + 1) i h
      refine ⟨s, by omega, ?_, a3⟩
      have : i - k = (i - (k + 1)) + 1 := by omega
      rw [this, List.getElem?_cons_succ]; exact a2

theorem find_nearest_seq_at_end :
    find_nearest_seq (some [spanStrip 0 10]) 10 (3 / 2) = some 0 := by
  simp [find_nearest_seq, find_nearest_loop, cTrunc, spanStrip]
  norm_num

/-- C15 as stated fails: with the single strip `[0, 10)` on channel 1, the
pointer at `x = 10 = enddisp`, `y = 3/2`, hits the strip. -/
theorem find_nearest_seq_hits_end_frame :
    find_nearest_seq (some [spanStrip 0 10]) 10 (3 / 2) = some 0 ∧
    (spanStrip 0 10).startdisp < (spanStrip 0 10).enddisp ∧
    ¬ ((10 : ℚ) < ((spanStrip 0 10).enddisp : ℚ)) := by
  refine ⟨find_nearest_seq_at_end, by decide, ?_⟩
  simp [spanStrip]

/-- C15, amended (hit-testing uses the closed frame interval): when
`find_nearest_seq` returns a strip `s`, then `s.machine` is the integer part of
`y`, and if `startdisp < enddisp` the pointer satisfies
`startdisp ≤ x ≤ enddisp`: the end frame itself still hits the strip. -/
theorem find_nearest_seq_closed_interval (l : List Sequence) (x y : ℚ) (i : Nat)
    (h : find_nearest_seq (some l) x y = some i) :
    ∃ s, l[i]? = some s ∧ s.machine = cTrunc y ∧
      (s.startdisp < s.enddisp → (s.startdisp : ℚ) ≤ x ∧ x ≤ (s.enddisp : ℚ)) := by
  obtain ⟨s, _, h2, h3, h4⟩ := find_nearest_loop_some x y l 0 i h
  refine ⟨s, h2, h3, fun hlt => ?_⟩
  rcases h4 with ⟨_, a, b⟩ | ⟨c, _, _⟩
  · exact ⟨a, b⟩
  · omega

/-- Witness for C15: the pointer at the end frame of the strip `[0, 10)`. -/
theorem find_nearest_seq_closed_interval_witness :
    ∃ s, [spanStrip 0 10][0]? = some s ∧ s.machine = cTrunc (3 / 2) ∧
      (s.startdisp < s.enddisp → (s.startdisp : ℚ) ≤ 10 ∧ (10 : ℚ) ≤ (s.enddisp : ℚ)) :=
  find_nearest_seq_closed_interval [spanStrip 0 10] 10 (3 / 2) 0
    find_nearest_seq_at_end

/-! ## Theorems: effect inputs -/

/-- With an active strip whose type takes inputs, the first test of
`sequencer_reassign_inputs_exec` cancels the operator and leaves the inputs
alone, whatever is selected. -/
theorem sequencer_reassign_inputs_exec_cancels (num_inputs : SeqType → Int)
    (render_loop_check : Option Nat → Nat → Bool) (l : List Sequence) (last_seq : Nat)
    (last_type : SeqType) (inputs : EffectInputs) (hn : num_inputs last_type ≠ 0) :
    sequencer_reassign_inputs_exec num_inputs render_loop_check l last_seq last_type inputs =
      { result := OperatorResult.cancelled, inputs := inputs
        report := some "Cannot reassign inputs: strip has no inputs" } := by
  unfold sequencer_reassign_inputs_exec
  rw [if_pos hn]

/-- C18 (reassign inputs), evaluated where the code departs from it.  The active
strip is a two-input effect at position 0 with no inputs assigned, two other
strips are selected, `seq_effect_find_selected` succeeds with the strips at
positions 2 and 1, and no strip references the effect.  The operator reports
"strip has no inputs", cancels and leaves `seq1`, `seq2`, `seq3` unassigned
instead of assigning the strips found and finishing. -/
theorem sequencer_reassign_inputs_exec_inverted_test :
    sampleNumInputs (SeqType.effect 0) = 2 ∧
    (seq_effect_find_selected sampleNumInputs (some 0) (effectList 0) (some 0)
      (SeqType.effect 0)) =
      { ret := 1, selseq1 := some 2, selseq2 := some 1, selseq3 := none, error_str := none } ∧
    sequencer_reassign_inputs_exec sampleNumInputs (fun _ _ => false) (effectList 0) 0
        (SeqType.effect 0) { seq1 := none, seq2 := none, seq3 := none } =
      { result := OperatorResult.cancelled
        inputs := { seq1 := none, seq2 := none, seq3 := none }
        report := some "Cannot reassign inputs: strip has no inputs" } := by
  decide

/-! ## Theorems: meta stack -/

/-- C16 (meta enter/exit round trip): from an editing state whose active strip
`m` is a selected meta-group, one `sequencer_meta_toggle_exec` pushes exactly
one frame with `parseq = m`, the working list pointer from before the entry and
the display range of `m`, and makes the child list of `m` the working list; a
second one pops that frame, so that working list pointer and meta stack are
again those from before the entry.  Both calls finish. -/
theorem sequencer_meta_toggle_exec_round_trip
    (exit_recalc : MetaStack → SeqBasePtr → List Sequence → List Sequence)
    (recurs_sel : Nat → List Sequence → List Sequence) (ed : Editing) (p : Nat) (m : Sequence)
    (hact : ed.act_seq = some p) (hm : ed.strips[p]? = some m)
    (hty : m.type = SeqType.meta) (hsel : m.flag &&& SELECT ≠ 0) :
    (sequencer_meta_toggle_exec exit_recalc recurs_sel ed).1.metastack =
      ed.metastack ++
        [{ parseq := p, oldbasep := ed.seqbasep, disp_range := (m.startdisp, m.enddisp) }] ∧
    (sequencer_meta_toggle_exec exit_recalc recurs_sel ed).1.seqbasep = SeqBasePtr.children p ∧
    (sequencer_meta_toggle_exec exit_recalc recurs_sel ed).2 = OperatorResult.finished ∧
    (sequencer_meta_toggle_exec exit_recalc recurs_sel
      (sequencer_meta_toggle_exec exit_recalc recurs_sel ed).1).1.seqbasep = ed.seqbasep ∧
    (sequencer_meta_toggle_exec exit_recalc recurs_sel
      (sequencer_meta_toggle_exec exit_recalc recurs_sel ed).1).1.metastack = ed.metastack ∧
    (sequencer_meta_toggle_exec exit_recalc recurs_sel
      (sequencer_meta_toggle_exec exit_recalc recurs_sel ed).1).2 =
        OperatorResult.finished := by
  have h1 : sequencer_meta_toggle_exec exit_recalc recurs_sel ed =
      ({ ed with
          metastack := ed.metastack ++
            [{ parseq := p, oldbasep := ed.seqbasep
               disp_range := (m.startdisp, m.enddisp) }]
          seqbasep := SeqBasePtr.children p
          act_seq := none }, OperatorResult.finished) := by
    unfold sequencer_meta_toggle_exec
    simp only [hact, hm, hty, hsel, ne_eq, not_false_eq_true, and_self, if_true]
  rw [h1]
  refine ⟨rfl, rfl, rfl, ?_⟩
  unfold sequencer_meta_toggle_exec
  simp

/-- Witness for C16: entering and leaving the meta-group of `metaEditing`, with
no change of the strips on exit. -/
theorem sequencer_meta_toggle_exec_round_trip_witness :
    (sequencer_meta_toggle_exec (fun _ _ s => s) (fun _ s => s) metaEditing).1.metastack =
      metaEditing.metastack ++
        [{ parseq := 0, oldbasep := metaEditing.seqbasep
           disp_range := ((spanStrip 0 10).startdisp, (spanStrip 0 10).enddisp) }] ∧
    (sequencer_meta_toggle_exec (fun _ _ s => s) (fun _ s => s) metaEditing).1.seqbasep =
      SeqBasePtr.children 0 ∧
    (sequencer_meta_toggle_exec (fun _ _ s => s) (fun _ s => s) metaEditing).2 =
      OperatorResult.finished ∧
    (sequencer_meta_toggle_exec (fun _ _ s => s) (fun _ s => s)
      (sequencer_meta_toggle_exec (fun _ _ s => s) (fun _ s => s) metaEditing).1).1.seqbasep =
        metaEditing.seqbasep ∧
    (sequencer_meta_toggle_exec (fun _ _ s => s) (fun _ s => s)
      (sequencer_meta_toggle_exec (fun _ _ s => s) (fun _ s => s) metaEditing).1).1.metastack =
        metaEditing.metastack ∧
    (sequencer_meta_toggle_exec (fun _ _ s => s) (fun _ s => s)
      (sequencer_meta_toggle_exec (fun _ _ s => s) (fun _ s => s) metaEditing).1).2 =
        OperatorResult.finished :=
  sequencer_meta_toggle_exec_round_trip (fun _ _ s => s) (fun _ s => s) metaEditing 0
    { spanStrip 0 10 with type := SeqType.meta, flag := 1 } rfl rfl rfl (by decide)

/-! ## Theorems: hard split -/

theorem BKE_sequence_reload_new_file_media (srclen : Int) (seq : Sequence) (lock_range : Bool)
    (hty : seq.type ≠ SeqType.meta) (heff : seq.type.isEffect = false) :
    BKE_sequence_reload_new_file srclen seq lock_range =
      { seq with len := srclen - seq.anim_startofs - seq.anim_endofs } := by
  unfold BKE_sequence_reload_new_file
  cases h : seq.type with
  | meta => exact absurd h hty
  | effect k => rw [h] at heff; simp [SeqType.isEffect] at heff
  | movie => rfl
  | image => rfl
  | sound => rfl
  | scene => rfl

/-- C20 as stated fails: the strip with `startofs = -5` has no still frames, its
`len` agrees with a source of 10 frames, and frame 7 satisfies
`start + startofs < 7 < start + len - endofs`; `split_seq_hard` returns a right
strip that still starts at 10 (not at 7) with `anim_startofs = 0` (not
increased by `7 - start`). -/
theorem split_seq_hard_negative_trim :
    negTrimStrip.type ≠ SeqType.meta ∧
    negTrimStrip.startstill = 0 ∧ negTrimStrip.endstill = 0 ∧
    negTrimStrip.len = 10 - negTrimStrip.anim_startofs - negTrimStrip.anim_endofs ∧
    negTrimStrip.start + negTrimStrip.startofs < 7 ∧
    7 < negTrimStrip.start + negTrimStrip.len - negTrimStrip.endofs ∧
    (split_seq_hard 10 [] negTrimStrip 7).seqn.map Sequence.start = some 10 ∧
    (split_seq_hard 10 [] negTrimStrip 7).seqn.map Sequence.anim_startofs = some 0 := by
  decide

/-- C20, amended (hard split in normal content): for a media strip (neither
meta-group nor effect) without still frames, with non-negative trim offsets and
a `len` that agrees with the source length, and a frame `F` with
`start + startofs < F < start + len - endofs`, `split_seq_hard` leaves the left
strip with `endofs = 0` and `anim_endofs` increased by `start + len - F`, and
returns a right strip with `start = F`, `startofs = 0`, `anim_startofs`
increased by `F - start` and the original `anim_endofs` and `endofs`; the two
amounts absorbed sum to the original `len`; the left strip is displayed on
`[start + startofs, F)` and the right one on `[F, start + len - endofs)`. -/
theorem split_seq_hard_normal_content (srclen : Int) (seqbase : List Sequence) (S : Sequence)
    (F : Int) (hty : S.type ≠ SeqType.meta) (heff : S.type.isEffect = false)
    (hss : S.startstill = 0) (hes : S.endstill = 0)
    (hso : 0 ≤ S.startofs) (heo : 0 ≤ S.endofs)
    (hsrc : S.len = srclen - S.anim_startofs - S.anim_endofs)
    (h1 : S.start + S.startofs < F) (h2 : F < S.start + S.len - S.endofs) :
    (split_seq_hard srclen seqbase S F).seq.endofs = 0 ∧
    (split_seq_hard srclen seqbase S F).seq.anim_endofs =
      S.anim_endofs + (S.start + S.len - F) ∧
    (split_seq_hard srclen seqbase S F).seq.startdisp = S.start + S.startofs ∧
    (split_seq_hard srclen seqbase S F).seq.enddisp = F ∧
    (S.start + S.len - F) + (F - S.start) = S.len ∧
    ∃ B, (split_seq_hard srclen seqbase S F).seqn = some B ∧
      B.start = F ∧ B.startofs = 0 ∧ B.anim_startofs = S.anim_startofs + (F - S.start) ∧
      B.anim_endofs = S.anim_endofs ∧ B.endofs = S.endofs ∧
      B.startdisp = F ∧ B.enddisp = S.start + S.len - S.endofs := by
  obtain ⟨start, len, startofs, endofs, startstill, endstill, startdisp, enddisp, anim_startofs,
    anim_endofs, machine, type, flag, depth⟩ := S
  simp only at hty heff hss hes hso heo hsrc h1 h2
  subst hss hes
  have hE : ¬ (start + len = F) := by omega
  have hN : F ≥ start ∧ F ≤ start + len := by constructor <;> omega
  have hN2 : F ≥ start ∧
      F ≤ start + (srclen - anim_startofs - (anim_endofs + (start + len - F))) := by
    constructor <;> omega
  cases type with
  | meta => exact absurd rfl hty
  | effect k => simp [SeqType.isEffect] at heff
  | _ =>
    simp only [split_seq_hard, split_seq_hard_first, split_seq_hard_second,
      BKE_sequence_reload_new_file, BKE_sequence_calc, BKE_sequence_calc_disp,
      BKE_sequence_dupli_recursive, transseq_backup, ne_eq, reduceCtorEq, not_false_eq_true,
      if_true, not_true_eq_false, false_and, if_false, hE, decide_False, true_and, ← hsrc,
      hN, hN2, and_self, Bool.false_eq_true]
    refine ⟨by omega, by omega, by omega, _, rfl, rfl, rfl, rfl, rfl, rfl, ?_, ?_⟩ <;>
      simp only <;> omega

/-- Witness for C20: a movie strip with 10 frames of content from a source of
16 frames (2 cut off in front, 4 behind), one frame trimmed at each end, split
hard at frame 6. -/
theorem split_seq_hard_normal_content_witness :
    (split_seq_hard 16 [] { plainStrip SeqType.movie with
      startofs := 1, endofs := 1, startdisp := 1, enddisp := 9, anim_startofs := 2,
      anim_endofs := 4 } 6).seq.endofs = 0 ∧
    (split_seq_hard 16 [] { plainStrip SeqType.movie with
      startofs := 1, endofs := 1, startdisp := 1, enddisp := 9, anim_startofs := 2,
      anim_endofs := 4 } 6).seq.anim_endofs = 4 + (0 + 10 - 6) ∧
    (split_seq_hard 16 [] { plainStrip SeqType.movie with
      startofs := 1, endofs := 1, startdisp := 1, enddisp := 9, anim_startofs := 2,
      anim_endofs := 4 } 6).seq.startdisp = 0 + 1 ∧
    (split_seq_hard 16 [] { plainStrip SeqType.movie with
      startofs := 1, endofs := 1, startdisp := 1, enddisp := 9, anim_startofs := 2,
      anim_endofs := 4 } 6).seq.enddisp = 6 ∧
    ((0 : Int) + 10 - 6) + (6 - 0) = 10 ∧
    ∃ B, (split_seq_hard 16 [] { plainStrip SeqType.movie with
      startofs := 1, endofs := 1, startdisp := 1, enddisp := 9, anim_startofs := 2,
      anim_endofs := 4 } 6).seqn = some B ∧
      B.start = 6 ∧ B.startofs = 0 ∧ B.anim_startofs = 2 + (6 - 0) ∧
      B.anim_endofs = 4 ∧ B.endofs = 1 ∧ B.startdisp = 6 ∧ B.enddisp = 0 + 10 - 1 :=
  split_seq_hard_normal_content 16 [] { plainStrip SeqType.movie with
      startofs := 1, endofs := 1, startdisp := 1, enddisp := 9, anim_startofs := 2,
      anim_endofs := 4 } 6 (by decide) rfl rfl rfl (by decide) (by decide) (by decide)
    (by decide) (by decide)

/-! ## Theorems: gap removal -/

theorem BKE_sequence_translate_translate (s : Sequence) (a b : Int) :
    BKE_sequence_translate (BKE_sequence_translate s a) b = BKE_sequence_translate s (a + b) := by
  unfold BKE_sequence_translate
  simp only [Sequence.mk.injEq, and_true, true_and]
  omega

theorem BKE_sequence_translate_zero (s : Sequence) : BKE_sequence_translate s 0 = s := by
  unfold BKE_sequence_translate
  cases s
  simp

theorem BKE_sequence_calc_translate (kid : List Sequence) (s : Sequence) (d : Int)
    (h : BKE_sequence_calc kid s = s) :
    BKE_sequence_calc kid (BKE_sequence_translate s d) = BKE_sequence_translate s d := by
  obtain ⟨start, len, startofs, endofs, startstill, endstill, startdisp, enddisp, anim_startofs,
    anim_endofs, machine, type, flag, depth⟩ := s
  cases type <;> cases kid <;>
    simp only [BKE_sequence_calc, BKE_sequence_calc_disp, BKE_sequence_translate,
      Sequence.mk.injEq, and_true, true_and] at h ⊢ <;>
    omega

theorem evaluate_frame_eq_zero (scene : Scene) (f : Int) :
    BKE_sequencer_evaluate_frame scene f = 0 ↔
      ∀ s ∈ scene.seqbasep, ¬ (s.startdisp ≤ f ∧ f < s.enddisp) := by
  unfold BKE_sequencer_evaluate_frame
  simp only [List.countP_eq_zero, decide_eq_true_eq]

theorem boundbox_seq_loop_bounds :
    ∀ (l : List Sequence) (acc : Int × Int),
      (boundbox_seq_loop l acc).1 ≤ acc.1 ∧ acc.2 ≤ (boundbox_seq_loop l acc).2 ∧
      ∀ s ∈ l, (boundbox_seq_loop l acc).1 ≤ s.startdisp - 1 ∧
        s.enddisp + 1 ≤ (boundbox_seq_loop l acc).2
  | [], acc => by simp [boundbox_seq_loop]
  | seq :: rest, (min0, max0) => by
    unfold boundbox_seq_loop
    obtain ⟨h1, h2, h3⟩ := boundbox_seq_loop_bounds rest
      (if min0 > seq.startdisp - 1 then seq.startdisp - 1 else min0,
        if max0 < seq.enddisp + 1 then seq.enddisp + 1 else max0)
    have hm : (if min0 > seq.startdisp - 1 then seq.startdisp - 1 else min0) ≤ min0 ∧
        (if min0 > seq.startdisp - 1 then seq.startdisp - 1 else min0) ≤ seq.startdisp - 1 := by
      split_ifs <;> omega
    have hM : max0 ≤ (if max0 < seq.enddisp + 1 then seq.enddisp + 1 else max0) ∧
        seq.enddisp + 1 ≤ (if max0 < seq.enddisp + 1 then seq.enddisp + 1 else max0) := by
      split_ifs <;> omega
    simp only at h1 h2 h3 ⊢
    refine ⟨by omega, by omega, ?_⟩
    intro s hs
    rcases List.mem_cons.mp hs with e | e
    · subst e
      constructor <;> omega
    · exact h3 s e

theorem gap_scan_back_finds (scene : Scene) (sfra g : Int)
    (hleft : BKE_sequencer_evaluate_frame scene (g - 1) ≠ 0) (hs : sfra ≤ g - 1) :
    ∀ (n : Nat) (c : Int), g - 1 ≤ c → c - (g - 1) < n →
      (∀ f, g ≤ f → f ≤ c → BKE_sequencer_evaluate_frame scene f = 0) →
      gap_scan_back scene sfra n c = (g - 1, true)
  | 0, c, h1, h2, _ => by omega
  | n + 1, c, h1, h2, h3 => by
    unfold gap_scan_back
    rw [if_pos (by omega)]
    by_cases hc : c = g - 1
    · subst hc
      rw [if_pos hleft]
    · have h0 := h3 c (by omega) (Int.le_refl c)
      rw [if_neg (by simp [h0])]
      exact gap_scan_back_finds scene sfra g hleft hs n (c - 1) (by omega) (by omega)
        (fun f hf1 hf2 => h3 f hf1 (by omega))

theorem offset_strips_done (delta cfra : Int) :
    ∀ (l : List Sequence) (kids : List (List Sequence)),
      (offset_strips delta cfra l kids).2 = true ↔ ∃ s ∈ l, s.startdisp ≥ cfra
  | [], kids => by simp [offset_strips]
  | seq :: rest, kids => by
    unfold offset_strips
    by_cases hc : seq.startdisp ≥ cfra
    · simp only [hc, if_true, true_iff]
      exact ⟨seq, List.mem_cons_self _ _, hc⟩
    · simp only [hc, if_false]
      rw [offset_strips_done delta cfra rest kids.tail]
      constructor
      · rintro ⟨s, hs, h⟩
        exact ⟨s, List.mem_cons_of_mem _ hs, h⟩
      · rintro ⟨s, hs, h⟩
        rcases List.mem_cons.mp hs with e | e
        · subst e; exact absurd h hc
        · exact ⟨s, e, h⟩

theorem offset_strips_shift (g h k : Int) (hk : k < h - g) :
    ∀ (base : List Sequence) (kids : List (List Sequence)), AllRecalculated base kids →
      (∀ s ∈ base, s.startdisp < s.enddisp) →
      (∀ s ∈ base, ∀ f, g ≤ f → f < h → ¬ (s.startdisp ≤ f ∧ f < s.enddisp)) →
      (offset_strips (-1) g (base.map (shiftLeftFrom h k)) kids).1 =
        base.map (shiftLeftFrom h (k + 1))
  | [], _, _, _, _ => rfl
  | s0 :: rest, kids, hrec, hne, hgap => by
    have ih := offset_strips_shift g h k hk rest kids.tail hrec.2
      (fun s hs => hne s (List.mem_cons_of_mem _ hs))
      (fun s hs => hgap s (List.mem_cons_of_mem _ hs))
    have hne0 := hne s0 (List.mem_cons_self _ _)
    have hgap0 := hgap s0 (List.mem_cons_self _ _)
    simp only [List.map_cons]
    unfold offset_strips
    simp only [ih]
    by_cases hh : s0.startdisp ≥ h
    · have e1 : shiftLeftFrom h k s0 = BKE_sequence_translate s0 (-k) := by
        unfold shiftLeftFrom; rw [if_pos hh]
      have e2 : shiftLeftFrom h (k + 1) s0 = BKE_sequence_translate s0 (-k + -1) := by
        unfold shiftLeftFrom; rw [if_pos hh, show -(k + 1) = -k + -1 by omega]
      have e3 : (BKE_sequence_translate s0 (-k)).startdisp ≥ g := by
        show s0.startdisp + -k ≥ g
        omega
      rw [e1, e2, if_pos e3, BKE_sequence_translate_translate,
        BKE_sequence_calc_translate _ _ _ hrec.1]
    · have hlt : s0.startdisp < g := by
        by_contra hc
        exact hgap0 s0.startdisp (by omega) (by omega) ⟨Int.le_refl _, hne0⟩
      have e1 : ∀ d, shiftLeftFrom h d s0 = s0 := by
        intro d; unfold shiftLeftFrom; rw [if_neg hh]
      rw [e1, e1, if_neg (by omega)]

theorem gap_close_shifts (g h : Int) (base : List Sequence) (kids : List (List Sequence))
    (hrec : AllRecalculated base kids) (hne : ∀ s ∈ base, s.startdisp < s.enddisp)
    (hgap : ∀ s ∈ base, ∀ f, g ≤ f → f < h → ¬ (s.startdisp ≤ f ∧ f < s.enddisp))
    (hright : ∃ s ∈ base, s.startdisp = h) :
    ∀ (fuel : Nat) (k : Int) (X : Scene), 0 ≤ k → k ≤ h - g → h - g - k < fuel →
      X.seqbasep = base.map (shiftLeftFrom h k) → X.kids = kids →
      ∃ X', gap_close fuel X g = some (X', true) ∧
        X'.seqbasep = base.map (shiftLeftFrom h (h - g))
  | 0, k, X, _, h2, h3, _, _ => by omega
  | fuel + 1, k, X, h1, h2, h3, hX, hK => by
    obtain ⟨sr, hsr, hsh⟩ := hright
    unfold gap_close
    by_cases hk : k = h - g
    · subst hk
      have hcov : BKE_sequencer_evaluate_frame X g ≠ 0 := by
        rw [Ne, evaluate_frame_eq_zero, hX]
        intro hall
        have hm : shiftLeftFrom h (h - g) sr ∈ base.map (shiftLeftFrom h (h - g)) :=
          List.mem_map_of_mem _ hsr
        apply hall _ hm
        have hn := hne sr hsr
        unfold shiftLeftFrom
        rw [if_pos (by omega)]
        show sr.startdisp + -(h - g) ≤ g ∧ g < sr.enddisp + -(h - g)
        constructor <;> omega
      rw [if_neg hcov]
      exact ⟨X, rfl, hX⟩
    · have hlt : k < h - g := by omega
      have hno : BKE_sequencer_evaluate_frame X g = 0 := by
        rw [evaluate_frame_eq_zero, hX]
        intro s hs
        obtain ⟨s0, hs0, rfl⟩ := List.mem_map.mp hs
        have hg0 := hgap s0 hs0 g (Int.le_refl _) (by omega)
        unfold shiftLeftFrom
        by_cases hh : s0.startdisp ≥ h
        · rw [if_pos hh]
          show ¬ (s0.startdisp + -k ≤ g ∧ g < s0.enddisp + -k)
          omega
        · rw [if_neg hh]; exact hg0
      rw [if_pos hno]
      have hstr : (sequence_offset_after_frame X (-1) g).1.seqbasep =
          base.map (shiftLeftFrom h (k + 1)) := by
        unfold sequence_offset_after_frame
        simp only [hX, hK]
        exact offset_strips_shift g h k hlt base kids hrec hne hgap
      have hdone : (sequence_offset_after_frame X (-1) g).2 = true := by
        unfold sequence_offset_after_frame
        simp only [hX, hK]
        rw [offset_strips_done]
        refine ⟨shiftLeftFrom h k sr, List.mem_map_of_mem _ hsr, ?_⟩
        unfold shiftLeftFrom
        rw [if_pos (by omega)]
        show sr.startdisp + -k ≥ g
        omega
      rw [if_neg (by simp [hdone])]
      have hkids : (sequence_offset_after_frame X (-1) g).1.kids = kids := by
        unfold sequence_offset_after_frame
        exact hK
      exact gap_close_shifts g h base kids hrec hne hgap ⟨sr, hsr, hsh⟩ fuel (k + 1)
        (sequence_offset_after_frame X (-1) g).1 (by omega) (by omega) (by omega) hstr hkids

/-- C11 (gap removal closes the gap at the current frame): for a working list
of non-empty strips, each in the recalculated state in which every editing
operation leaves a strip (`BKE_sequence_calc` leaves it as it is), in which the
current frame lies in a maximal gap
`[g, h)` (no strip covers a frame of it, some strip covers `g - 1`, some strip
starts at `h`), `sequencer_gap_remove_exec` with `all = false` returns, given
more fuel than the gap has frames, and leaves the working list with every
strip that started at or after `h` moved left by exactly `h - g` and every
other strip unchanged. -/
theorem sequencer_gap_remove_exec_closes_gap (scene : Scene) (g h : Int) (fuel : Nat)
    (hne : ∀ s ∈ scene.seqbasep, s.startdisp < s.enddisp)
    (hrec : AllRecalculated scene.seqbasep scene.kids)
    (hc1 : g ≤ scene.cfra) (hc2 : scene.cfra < h)
    (hgap : ∀ s ∈ scene.seqbasep, ∀ f, g ≤ f → f < h → ¬ (s.startdisp ≤ f ∧ f < s.enddisp))
    (hleft : ∃ s ∈ scene.seqbasep, s.startdisp ≤ g - 1 ∧ g - 1 < s.enddisp)
    (hright : ∃ s ∈ scene.seqbasep, s.startdisp = h) (hfuel : h - g < fuel) :
    ∃ scene', sequencer_gap_remove_exec fuel scene false = some scene' ∧
      scene'.seqbasep = scene.seqbasep.map (shiftLeftFrom h (h - g)) := by
  obtain ⟨sl, hsl, hl1, hl2⟩ := hleft
  obtain ⟨sr, hsr, hr⟩ := hright
  obtain ⟨_, _, hbb⟩ := boundbox_seq_loop_bounds scene.seqbasep (scene.sfra, scene.efra + 1)
  have hb1 := (hbb sl hsl).1
  have hb2 := (hbb sr hsr).2
  have hnr := hne sr hsr
  have hev1 : BKE_sequencer_evaluate_frame scene (g - 1) ≠ 0 := by
    rw [Ne, evaluate_frame_eq_zero]
    intro hall
    exact hall sl hsl ⟨hl1, hl2⟩
  have hev0 : ∀ f, g ≤ f → f < h → BKE_sequencer_evaluate_frame scene f = 0 := by
    intro f hf1 hf2
    rw [evaluate_frame_eq_zero]
    intro s hs
    exact hgap s hs f hf1 hf2
  have hback : gap_scan_back scene (boundbox_seq scene).1
      (scene.cfra - (boundbox_seq scene).1 + 1).toNat scene.cfra = (g - 1, true) := by
    apply gap_scan_back_finds scene _ g hev1
    · show (boundbox_seq_loop scene.seqbasep (scene.sfra, scene.efra + 1)).1 ≤ g - 1
      omega
    · omega
    · have : (boundbox_seq scene).1 ≤ g - 1 := by
        show (boundbox_seq_loop scene.seqbasep (scene.sfra, scene.efra + 1)).1 ≤ g - 1
        omega
      omega
    · intro f hf1 hf2
      exact hev0 f hf1 (by omega)
  have hefra : h + 2 ≤ (boundbox_seq scene).2 := by
    show h + 2 ≤ (boundbox_seq_loop scene.seqbasep (scene.sfra, scene.efra + 1)).2
    omega
  obtain ⟨X', hX1, hX2⟩ := gap_close_shifts g h scene.seqbasep scene.kids hrec hne hgap
    ⟨sr, hsr, hr⟩ fuel 0 scene (Int.le_refl 0) (by omega) (by omega)
    (by
      have : ∀ s : Sequence, shiftLeftFrom h 0 s = s := by
        intro s
        unfold shiftLeftFrom
        split_ifs
        · exact BKE_sequence_translate_zero s
        · rfl
      rw [show shiftLeftFrom h 0 = id from funext this, List.map_id]) rfl
  refine ⟨X', ?_, hX2⟩
  unfold sequencer_gap_remove_exec
  simp only [hback]
  obtain ⟨m, hm⟩ : ∃ m, ((boundbox_seq scene).2 - (g - 1)).toNat = m + 2 :=
    ⟨((boundbox_seq scene).2 - (g - 1)).toNat - 2, by omega⟩
  rw [hm]
  unfold gap_scan_forward
  rw [if_pos (by omega)]
  simp only [Bool.true_eq_false, if_false]
  rw [if_neg hev1]
  unfold gap_scan_forward
  rw [if_pos (by omega)]
  simp only [Bool.true_eq_false, if_false]
  rw [if_pos (by rw [show g - 1 + 1 = g by omega]; exact hev0 g (Int.le_refl g) (by omega))]
  rw [show g - 1 + 1 = g by omega, hX1]
  simp

/-- Witness for C11, the example of the spec: strips `[0, 10)` and `[20, 30)`,
current frame 15; the second strip ends on `[10, 20)`. -/
theorem sequencer_gap_remove_exec_closes_gap_witness :
    ∃ scene', sequencer_gap_remove_exec 11 gapScene false = some scene' ∧
      scene'.seqbasep = gapScene.seqbasep.map (shiftLeftFrom 20 (20 - 10)) :=
  sequencer_gap_remove_exec_closes_gap gapScene 10 20 11 (by decide)
    ⟨by decide, by decide, trivial⟩ (by decide) (by decide)
    (by
      intro s hs f hf1 hf2
      simp only [gapScene, List.mem_cons, List.mem_singleton, List.not_mem_nil, or_false] at hs
      rcases hs with e | e <;> subst e <;> simp only [spanStrip] <;> omega)
    ⟨spanStrip 0 10, by decide, by decide, by decide⟩
    ⟨spanStrip 20 30, by decide, by decide⟩ (by decide)

/-- C12 (gap removal is idempotent), evaluated where the code departs from it.
The strips `[0, 10)` and `[10, 20)` cover one contiguous range that contains
the current frame 15, and a marker stands at frame 25 with markers unlocked.
A further `sequencer_gap_remove_exec` leaves both strips as they are but moves
the marker to frame 24, and the next one to frame 23. -/
theorem sequencer_gap_remove_exec_moves_marker :
    (sequencer_gap_remove_exec 100 closedScene false).map (fun s => s.seqbasep) =
      some closedScene.seqbasep ∧
    closedScene.markers = [25] ∧
    (sequencer_gap_remove_exec 100 closedScene false).map (fun s => s.markers) = some [24] ∧
    ((sequencer_gap_remove_exec 100 closedScene false).bind
      fun s => sequencer_gap_remove_exec 100 s false).map (fun s => s.markers) = some [23] := by
  decide

/-! ## Theorems: batch split -/

theorem nextOf_append_cons (keep rest : List Nat) (r : Nat) (h : r ∉ keep) :
    nextOf (keep ++ r :: rest) r = rest.head? := by
  induction keep with
  | nil => simp [nextOf]
  | cons a keep ih =>
    have ha : a ≠ r := fun e => h (by simp [e])
    have hk : r ∉ keep := fun hm => h (List.mem_cons_of_mem _ hm)
    simp only [List.cons_append, nextOf, ha, if_false]
    exact ih hk

theorem erase_append_cons (keep rest : List Nat) (r : Nat) (h : r ∉ keep) :
    (keep ++ r :: rest).erase r = keep ++ rest := by
  rw [List.erase_append_right _ h, List.erase_cons_head]

theorem split_seq_list_action_split_iff (strips : List Sequence) (F ch : Int) (uc : Bool)
    (p : Nat) (s : Sequence) (hs : strips[p]? = some s) :
    split_seq_list_action F ch uc s = SplitAction.split ↔
      isSplitTarget strips F ch uc p = true := by
  unfold split_seq_list_action isSplitTarget
  rw [hs]
  cases uc
  · simp only [Bool.false_eq_true, if_false]
    split_ifs <;> simp_all
  · simp only [if_true]
    split_ifs <;> simp_all

theorem head_append_tail_or (rem tail extra : List Nat) :
    (rem ++ tail).head? = (rem ++ (tail ++ extra)).head? ∨
      (rem = [] ∧ (rem ++ tail).head? = none) := by
  cases rem with
  | cons a rem => exact Or.inl rfl
  | nil =>
    cases tail with
    | cons b tail => exact Or.inl rfl
    | nil => exact Or.inr ⟨rfl, rfl⟩

theorem first_new_append (sfn : Option Nat) (tail : List Nat) (x : Nat)
    (h : sfn = tail.head?) :
    (if sfn = none then some x else sfn) = (tail ++ [x]).head? := by
  subst h
  cases tail <;> simp

theorem filter_append_singleton (f : Nat → Bool) (done : List Nat) (r : Nat) :
    (done ++ [r]).filter f = if f r then done.filter f ++ [r] else done.filter f := by
  rw [List.filter_append]
  by_cases h : f r = true <;> simp [List.filter, h]

/-- The facts about the strip visited next that every pass of the loop of
`split_seq_list` uses. -/
theorem SplitListInv.head_facts {split_seq : Nat → Sequence → Int → SplitOut}
    {strips0 : List Sequence} {F ch : Int} {uc : Bool} {done rem keep tail : List Nat}
    {r : Nat} {st : SplitListState}
    (inv : SplitListInv split_seq strips0 F ch uc done (r :: rem) keep tail st) :
    r ∉ keep ∧ r ∉ rem ∧ r ∉ tail ∧ st.seq = some r ∧ st.seq_first_new ≠ some r ∧
      nextOf st.slist r = (rem ++ tail).head? ∧ r < st.strips.length := by
  have hnd := inv.nodup
  rw [inv.slist_eq, List.append_assoc, List.nodup_append] at hnd
  obtain ⟨_, hnd2, hdis⟩ := hnd
  rw [List.cons_append, List.nodup_cons] at hnd2
  have hk : r ∉ keep := fun hm => hdis hm (by simp)
  have hr : r ∉ rem := fun hm => hnd2.1 (List.mem_append_left _ hm)
  have ht : r ∉ tail := fun hm => hnd2.1 (List.mem_append_right _ hm)
  refine ⟨hk, hr, ht, ?_, ?_, ?_, ?_⟩
  · rcases inv.seq_eq with h | ⟨h, _⟩
    · simpa using h
    · exact absurd h (by simp)
  · rw [inv.sfn_eq]
    intro h
    exact ht (List.mem_of_mem_head? h)
  · rw [inv.slist_eq, List.append_assoc, List.cons_append]
    exact nextOf_append_cons keep (rem ++ tail) r hk
  · apply inv.valid
    rw [inv.slist_eq]
    simp

theorem SplitListInv.step_pass {split_seq : Nat → Sequence → Int → SplitOut}
    {strips0 : List Sequence} {F ch : Int} {uc : Bool} {done rem keep tail : List Nat}
    {r : Nat} {st : SplitListState}
    (inv : SplitListInv split_seq strips0 F ch uc done (r :: rem) keep tail st)
    (htgt : isSplitTarget strips0 F ch uc r = false) :
    SplitListInv split_seq strips0 F ch uc (done ++ [r]) rem (keep ++ [r]) tail
      { st with seq := nextOf st.slist r } := by
  obtain ⟨_, _, _, _, _, hnext, _⟩ := inv.head_facts
  refine ⟨?_, inv.nodup, inv.valid, inv.len_le, ?_, Or.inl hnext, inv.sfn_eq, ?_, ?_⟩
  · show st.slist = keep ++ [r] ++ rem ++ tail
    rw [inv.slist_eq]; simp
  · intro p hp
    exact inv.rem_same p (List.mem_cons_of_mem _ hp)
  · show st.applied = _
    rw [filter_append_singleton, htgt, inv.applied_eq]; rfl
  · intro p hp
    show st.strips[p]? = _
    rcases List.mem_append.mp hp with h | h
    · exact inv.done_val p h
    · rw [List.mem_singleton] at h
      subst h
      rw [inv.rem_same p (List.mem_cons_self _ _)]
      unfold expectedStrip
      rw [htgt]; rfl

theorem SplitListInv.step_move {split_seq : Nat → Sequence → Int → SplitOut}
    {strips0 : List Sequence} {F ch : Int} {uc : Bool} {done rem keep tail : List Nat}
    {r : Nat} {st : SplitListState}
    (inv : SplitListInv split_seq strips0 F ch uc done (r :: rem) keep tail st)
    (htgt : isSplitTarget strips0 F ch uc r = false) :
    SplitListInv split_seq strips0 F ch uc (done ++ [r]) rem keep (tail ++ [r])
      { st with
        slist := st.slist.erase r ++ [r]
        seq_first_new := if st.seq_first_new = none then some r else st.seq_first_new
        seq := nextOf st.slist r } := by
  obtain ⟨hk, _, _, _, _, hnext, hlt⟩ := inv.head_facts
  have her : st.slist.erase r = keep ++ (rem ++ tail) := by
    rw [inv.slist_eq, List.append_assoc, List.cons_append]
    exact erase_append_cons keep (rem ++ tail) r hk
  refine ⟨?_, ?_, ?_, inv.len_le, ?_, ?_, ?_, ?_, ?_⟩
  · show st.slist.erase r ++ [r] = keep ++ rem ++ (tail ++ [r])
    rw [her]; simp
  · show (st.slist.erase r ++ [r]).Nodup
    rw [List.nodup_append]
    refine ⟨inv.nodup.erase r, List.nodup_singleton r, ?_⟩
    intro a ha hb
    rw [List.mem_singleton] at hb
    subst hb
    exact ((List.Nodup.mem_erase_iff inv.nodup).mp ha).1 rfl
  · intro p hp
    show p < st.strips.length
    rcases List.mem_append.mp hp with h | h
    · exact inv.valid p (List.mem_of_mem_erase h)
    · rw [List.mem_singleton] at h
      subst h; exact hlt
  · intro p hp
    exact inv.rem_same p (List.mem_cons_of_mem _ hp)
  · show nextOf st.slist r = _ ∨ _
    rw [hnext]
    rcases head_append_tail_or rem tail [r] with h | h
    · exact Or.inl h
    · exact Or.inr h
  · exact first_new_append _ tail r inv.sfn_eq
  · show st.applied = _
    rw [filter_append_singleton, htgt, inv.applied_eq]; rfl
  · intro p hp
    show st.strips[p]? = _
    rcases List.mem_append.mp hp with h | h
    · exact inv.done_val p h
    · rw [List.mem_singleton] at h
      subst h
      rw [inv.rem_same p (List.mem_cons_self _ _)]
      unfold expectedStrip
      rw [htgt]; rfl

theorem SplitListInv.step_split {split_seq : Nat → Sequence → Int → SplitOut}
    {strips0 : List Sequence} {F ch : Int} {uc : Bool} {done rem keep tail : List Nat}
    {r : Nat} {st : SplitListState} {s : Sequence}
    (inv : SplitListInv split_seq strips0 F ch uc done (r :: rem) keep tail st)
    (hnd0 : (done ++ r :: rem).Nodup) (hval0 : ∀ p ∈ done, p < strips0.length)
    (hs : st.strips[r]? = some s)
    (htgt : isSplitTarget strips0 F ch uc r = true) :
    ∃ tail', SplitListInv split_seq strips0 F ch uc (done ++ [r]) rem (keep ++ [r]) tail'
      { split_seq_list_split split_seq F st r s with seq := nextOf st.slist r } := by
  obtain ⟨_, hrrem, _, _, _, hnext, hlt⟩ := inv.head_facts
  have hs0 : strips0[r]? = some s := by
    rw [← inv.rem_same r (List.mem_cons_self _ _)]; exact hs
  have hexp : expectedStrip split_seq strips0 F ch uc r = some (split_seq r s F).seq := by
    unfold expectedStrip
    rw [htgt, hs0]; rfl
  have hrdone : ∀ p ∈ done, p ≠ r := by
    intro p hp h
    subst h
    exact (List.nodup_append.mp hnd0).2.2 hp (List.mem_cons_self _ _)
  have hlen : (st.strips.set r (split_seq r s F).seq).length = st.strips.length :=
    List.length_set _ _ _
  have hset : (st.strips.set r (split_seq r s F).seq)[r]? = some (split_seq r s F).seq := by
    rw [List.getElem?_set_self hlt]
  have hne : ∀ p, p ≠ r → (st.strips.set r (split_seq r s F).seq)[p]? = st.strips[p]? := by
    intro p hp
    exact List.getElem?_set_ne (Ne.symm hp)
  have happ : (st.applied ++ [r]) =
      (done ++ [r]).filter (isSplitTarget strips0 F ch uc) := by
    rw [filter_append_singleton, htgt, inv.applied_eq]; rfl
  cases hout : (split_seq r s F).seqn with
  | none =>
    refine ⟨tail, ?_⟩
    unfold split_seq_list_split
    simp only [hout]
    refine ⟨?_, inv.nodup, ?_, ?_, ?_, Or.inl hnext, inv.sfn_eq, happ, ?_⟩
    · show st.slist = keep ++ [r] ++ rem ++ tail
      rw [inv.slist_eq]; simp
    · intro p hp
      show p < (st.strips.set r (split_seq r s F).seq).length
      rw [hlen]; exact inv.valid p hp
    · show strips0.length ≤ (st.strips.set r (split_seq r s F).seq).length
      rw [hlen]; exact inv.len_le
    · intro p hp
      show (st.strips.set r (split_seq r s F).seq)[p]? = _
      have hpr : p ≠ r := fun h => hrrem (h ▸ hp)
      rw [hne p hpr]
      exact inv.rem_same p (List.mem_cons_of_mem _ hp)
    · intro p hp
      show (st.strips.set r (split_seq r s F).seq)[p]? = _
      rcases List.mem_append.mp hp with h | h
      · rw [hne p (hrdone p h)]; exact inv.done_val p h
      · rw [List.mem_singleton] at h
        subst h
        rw [hset, hexp]
  | some n =>
    refine ⟨tail ++ [st.strips.length], ?_⟩
    unfold split_seq_list_split
    simp only [hout, hlen]
    have hl : ∀ p, p < st.strips.length →
        (st.strips.set r (split_seq r s F).seq ++ [n])[p]? =
          (st.strips.set r (split_seq r s F).seq)[p]? := by
      intro p hp
      exact List.getElem?_append_left (by rw [hlen]; exact hp)
    refine ⟨?_, ?_, ?_, ?_, ?_, ?_, ?_, happ, ?_⟩
    · show st.slist ++ [st.strips.length] = keep ++ [r] ++ rem ++ (tail ++ [st.strips.length])
      rw [inv.slist_eq]; simp
    · show (st.slist ++ [st.strips.length]).Nodup
      rw [List.nodup_append]
      refine ⟨inv.nodup, List.nodup_singleton _, ?_⟩
      intro a ha hb
      rw [List.mem_singleton] at hb
      have := inv.valid a ha
      omega
    · intro p hp
      show p < (st.strips.set r (split_seq r s F).seq ++ [n]).length
      rw [List.length_append, hlen, List.length_singleton]
      rcases List.mem_append.mp hp with h | h
      · have := inv.valid p h
        omega
      · rw [List.mem_singleton] at h
        omega
    · show strips0.length ≤ (st.strips.set r (split_seq r s F).seq ++ [n]).length
      rw [List.length_append, hlen]
      have := inv.len_le
      omega
    · intro p hp
      show (st.strips.set r (split_seq r s F).seq ++ [n])[p]? = _
      have hpr : p ≠ r := fun h => hrrem (h ▸ hp)
      have hpl : p < st.strips.length :=
        inv.valid p (by rw [inv.slist_eq]; simp [hp])
      rw [hl p hpl, hne p hpr]
      exact inv.rem_same p (List.mem_cons_of_mem _ hp)
    · show nextOf st.slist r = _ ∨ _
      rw [hnext]
      rcases head_append_tail_or rem tail [st.strips.length] with h | h
      · exact Or.inl h
      · exact Or.inr h
    · exact first_new_append _ tail _ inv.sfn_eq
    · intro p hp
      show (st.strips.set r (split_seq r s F).seq ++ [n])[p]? = _
      rcases List.mem_append.mp hp with h | h
      · have hpl : p < st.strips.length :=
          Nat.lt_of_lt_of_le (hval0 p h) inv.len_le
        rw [hl p hpl, hne p (hrdone p h)]; exact inv.done_val p h
      · rw [List.mem_singleton] at h
        subst h
        rw [hl p hlt, hset, hexp]

theorem SplitListInv.step {split_seq : Nat → Sequence → Int → SplitOut}
    {strips0 : List Sequence} {F ch : Int} {uc : Bool} {done rem keep tail : List Nat}
    {r : Nat} {st : SplitListState}
    (inv : SplitListInv split_seq strips0 F ch uc done (r :: rem) keep tail st)
    (hnd0 : (done ++ r :: rem).Nodup)
    (hval0 : ∀ p ∈ done ++ r :: rem, p < strips0.length) :
    ∃ keep' tail', SplitListInv split_seq strips0 F ch uc (done ++ [r]) rem keep' tail'
      (split_seq_list_body split_seq F ch uc st r) := by
  have hr0 : r < strips0.length := hval0 r (by simp)
  obtain ⟨s, hs0⟩ : ∃ s, strips0[r]? = some s :=
    ⟨strips0[r], List.getElem?_eq_getElem hr0⟩
  have hs : st.strips[r]? = some s := by
    rw [inv.rem_same r (List.mem_cons_self _ _)]; exact hs0
  have hiff := split_seq_list_action_split_iff strips0 F ch uc r s hs0
  have hfalse : split_seq_list_action F ch uc s ≠ SplitAction.split →
      isSplitTarget strips0 F ch uc r = false := by
    intro hne
    cases h : isSplitTarget strips0 F ch uc r
    · rfl
    · exact absurd (hiff.mpr h) hne
  unfold split_seq_list_body
  simp only [hs]
  cases hact : split_seq_list_action F ch uc s with
  | split =>
    obtain ⟨tail', h⟩ := inv.step_split hnd0
      (fun p hp => hval0 p (List.mem_append_left _ hp)) hs (hiff.mp hact)
    exact ⟨keep ++ [r], tail', h⟩
  | pass =>
    exact ⟨keep ++ [r], tail, inv.step_pass (hfalse (by rw [hact]; exact fun h => nomatch h))⟩
  | move =>
    exact ⟨keep, tail ++ [r], inv.step_move (hfalse (by rw [hact]; exact fun h => nomatch h))⟩

theorem split_seq_list_loop_exit (split_seq : Nat → Sequence → Int → SplitOut)
    (F ch : Int) (uc : Bool) (fuel : Nat) (st : SplitListState)
    (h : st.seq = none ∨ st.seq = st.seq_first_new) :
    split_seq_list_loop split_seq F ch uc fuel st = some st := by
  cases fuel <;> unfold split_seq_list_loop <;>
    rcases h with h | h <;> cases hq : st.seq with
    | none => rfl
    | some p => first
      | (rw [hq] at h; cases h)
      | (simp only; rw [← h, hq, if_pos rfl])

theorem split_seq_list_loop_inv (split_seq : Nat → Sequence → Int → SplitOut)
    (strips0 : List Sequence) (F ch : Int) (uc : Bool) :
    ∀ (rem : List Nat) (fuel : Nat) (done keep tail : List Nat) (st : SplitListState),
      rem.length ≤ fuel →
      SplitListInv split_seq strips0 F ch uc done rem keep tail st →
      (done ++ rem).Nodup → (∀ p ∈ done ++ rem, p < strips0.length) →
      ∃ st' keep' tail', split_seq_list_loop split_seq F ch uc fuel st = some st' ∧
        SplitListInv split_seq strips0 F ch uc (done ++ rem) [] keep' tail' st' := by
  intro rem
  induction rem with
  | nil =>
    intro fuel done keep tail st _ inv _ _
    refine ⟨st, keep, tail, ?_, by rw [List.append_nil]; exact inv⟩
    apply split_seq_list_loop_exit
    rcases inv.seq_eq with h | h
    · right
      rw [h, inv.sfn_eq]; rfl
    · exact Or.inl h.2
  | cons r rem ih =>
    intro fuel done keep tail st hfuel inv hnd hval
    obtain ⟨_, _, _, hseq, hsfn, _, _⟩ := inv.head_facts
    cases fuel with
    | zero => simp at hfuel
    | succ fuel =>
      obtain ⟨keep', tail', inv'⟩ := inv.step hnd hval
      have hnd' : (done ++ [r] ++ rem).Nodup := by
        rw [List.append_assoc]; exact hnd
      have hval' : ∀ p ∈ done ++ [r] ++ rem, p < strips0.length := by
        intro p hp
        rw [List.append_assoc] at hp
        exact hval p hp
      obtain ⟨st', k, t, hrun, hinv⟩ :=
        ih fuel (done ++ [r]) keep' tail' _ (by simpa using hfuel) inv' hnd' hval'
      refine ⟨st', k, t, ?_, by rw [List.append_assoc] at hinv; exact hinv⟩
      unfold split_seq_list_loop
      simp only [hseq]
      rw [if_neg hsfn]
      exact hrun

/-- C19 (which strips a batch split touches): for every strip list, frame and
channel, `split_seq_list` returns
once it has one iteration per listed strip, and the split policy has then been
applied to exactly the listed strips that cross the frame and are selected
(without cursor position) or lie on the channel (with cursor position), once
each, in list order and on the strip as it was initially; every other strip
initially in the list is unchanged, all its timing fields included. -/
theorem split_seq_list_touches_exactly (split_seq : Nat → Sequence → Int → SplitOut)
    (strips : List Sequence) (slist : List Nat) (split_frame channel : Int)
    (use_cursor_position : Bool) (fuel : Nat)
    (hnd : slist.Nodup) (hval : ∀ p ∈ slist, p < strips.length)
    (hfuel : slist.length ≤ fuel) :
    ∃ st r,
      split_seq_list split_seq fuel strips slist split_frame channel use_cursor_position
        = some (st, r) ∧
      st.applied =
        slist.filter (isSplitTarget strips split_frame channel use_cursor_position) ∧
      (∀ p ∈ slist, ∀ s, strips[p]? = some s →
        isSplitTarget strips split_frame channel use_cursor_position p = true →
        st.strips[p]? = some (split_seq p s split_frame).seq) ∧
      (∀ p ∈ slist,
        isSplitTarget strips split_frame channel use_cursor_position p = false →
        st.strips[p]? = strips[p]?) := by
  have inv0 : SplitListInv split_seq strips split_frame channel use_cursor_position
      [] slist [] []
      { strips := strips, slist := slist, seq := slist.head?, seq_first_new := none
        applied := [] } := by
    refine ⟨by simp, hnd, hval, le_refl _, fun _ _ => rfl, Or.inl (by simp), rfl, rfl, ?_⟩
    intro p hp
    cases hp
  obtain ⟨st, k, t, hrun, hinv⟩ :=
    split_seq_list_loop_inv split_seq strips split_frame channel use_cursor_position
      slist fuel [] [] [] _ hfuel inv0 (by simpa using hnd) (by simpa using hval)
  rw [List.nil_append] at hinv
  refine ⟨st, decide (st.seq_first_new ≠ none), ?_, hinv.applied_eq, ?_, ?_⟩
  · unfold split_seq_list
    simp only [hrun]
  · intro p hp s hs htgt
    rw [hinv.done_val p hp]
    unfold expectedStrip
    rw [htgt, hs]; rfl
  · intro p hp htgt
    rw [hinv.done_val p hp]
    unfold expectedStrip
    rw [htgt]; rfl

/-- Witness for C19: four strips split at frame 15 with the soft policy; only the
selected strip on [10, 20) is split. -/
theorem split_seq_list_touches_exactly_witness :
    ∃ st r,
      split_seq_list (fun _ s F => split_seq_soft [] s F) 4 batchStrips [0, 1, 2, 3] 15 0
        false = some (st, r) ∧
      st.applied = [0, 1, 2, 3].filter (isSplitTarget batchStrips 15 0 false) ∧
      (∀ p ∈ [0, 1, 2, 3], ∀ s, batchStrips[p]? = some s →
        isSplitTarget batchStrips 15 0 false p = true →
        st.strips[p]? = some (split_seq_soft [] s 15).seq) ∧
      (∀ p ∈ [0, 1, 2, 3],
        isSplitTarget batchStrips 15 0 false p = false →
        st.strips[p]? = batchStrips[p]?) :=
  split_seq_list_touches_exactly (fun _ s F => split_seq_soft [] s F) batchStrips
    [0, 1, 2, 3] 15 0 false 4 (by decide) (by decide) (by decide)

/-! ## Theorems: effect inputs returned on success -/

theorem seq_effect_find_finish_outputs (n : Int)
    (st : Option Nat × Option Nat × Option Nat) (hn : n = 0 ∨ n = 1 ∨ n = 2)
    (h : (seq_effect_find_finish n st).ret = 1) :
    (1 ≤ n → (seq_effect_find_finish n st).selseq1 ≠ none) ∧
    (2 ≤ n → (seq_effect_find_finish n st).selseq2 ≠ none) ∧
    (n < 1 → (seq_effect_find_finish n st).selseq1 = none) ∧
    (n < 2 → (seq_effect_find_finish n st).selseq2 = none) ∧
    (seq_effect_find_finish n st).selseq3 = none ∧
    (seq_effect_find_finish n st).error_str = none := by
  obtain ⟨s1, s2, s3⟩ := st
  rcases hn with rfl | rfl | rfl <;> rcases s1 with _ | a <;> rcases s2 with _ | b <;>
    rcases s3 with _ | c <;> simp [seq_effect_find_finish] at h ⊢

/-- C28 (effect inputs returned on success): for an effect type taking `n`
inputs with `n` in {0, 1, 2}, whenever `seq_effect_find_selected` returns 1 the
outputs `r_selseq1 .. r_selseq_n` are non-null, the remaining ones among the
three outputs are null, and the error message is null. -/
theorem seq_effect_find_selected_outputs (num_inputs : SeqType → Int)
    (active_get : Option Nat) (seqbasep : List Sequence) (activeseq : Option Nat)
    (type : SeqType)
    (hn : num_inputs type = 0 ∨ num_inputs type = 1 ∨ num_inputs type = 2)
    (h : (seq_effect_find_selected num_inputs active_get seqbasep activeseq type).ret = 1) :
    (1 ≤ num_inputs type →
      (seq_effect_find_selected num_inputs active_get seqbasep activeseq type).selseq1
        ≠ none) ∧
    (2 ≤ num_inputs type →
      (seq_effect_find_selected num_inputs active_get seqbasep activeseq type).selseq2
        ≠ none) ∧
    (num_inputs type < 1 →
      (seq_effect_find_selected num_inputs active_get seqbasep activeseq type).selseq1
        = none) ∧
    (num_inputs type < 2 →
      (seq_effect_find_selected num_inputs active_get seqbasep activeseq type).selseq2
        = none) ∧
    (seq_effect_find_selected num_inputs active_get seqbasep activeseq type).selseq3 = none ∧
    (seq_effect_find_selected num_inputs active_get seqbasep activeseq type).error_str
      = none := by
  unfold seq_effect_find_selected at h ⊢
  simp only at h ⊢
  cases hr : seq_effect_find_loop (num_inputs type) activeseq 0 seqbasep
      (none, if activeseq = none then active_get else none, none) with
  | error msg =>
    rw [hr] at h
    simp at h
  | ok st =>
    rw [hr] at h
    simp only at h ⊢
    exact seq_effect_find_finish_outputs (num_inputs type) st hn h

/-- Witness for C28: a two-input effect with two selected strips besides it;
both inputs are returned and the third output is null. -/
theorem seq_effect_find_selected_outputs_witness :
    (seq_effect_find_selected sampleNumInputs none (effectList 0) (some 0)
      (SeqType.effect 0)).selseq1 = some 2 ∧
    ((1 ≤ sampleNumInputs (SeqType.effect 0) →
      (seq_effect_find_selected sampleNumInputs none (effectList 0) (some 0)
        (SeqType.effect 0)).selseq1 ≠ none) ∧
    (2 ≤ sampleNumInputs (SeqType.effect 0) →
      (seq_effect_find_selected sampleNumInputs none (effectList 0) (some 0)
        (SeqType.effect 0)).selseq2 ≠ none) ∧
    (sampleNumInputs (SeqType.effect 0) < 1 →
      (seq_effect_find_selected sampleNumInputs none (effectList 0) (some 0)
        (SeqType.effect 0)).selseq1 = none) ∧
    (sampleNumInputs (SeqType.effect 0) < 2 →
      (seq_effect_find_selected sampleNumInputs none (effectList 0) (some 0)
        (SeqType.effect 0)).selseq2 = none) ∧
    (seq_effect_find_selected sampleNumInputs none (effectList 0) (some 0)
      (SeqType.effect 0)).selseq3 = none ∧
    (seq_effect_find_selected sampleNumInputs none (effectList 0) (some 0)
      (SeqType.effect 0)).error_str = none) :=
  ⟨by decide, seq_effect_find_selected_outputs sampleNumInputs none (effectList 0) (some 0)
    (SeqType.effect 0) (by decide) (by decide)⟩

/-! ## Theorems: soft split and non-negative trim -/

/-- C24 (soft split keeps trim and still counts non-negative), evaluated where
the code departs from it.  The strip with content `[10, 15)` and three leading
still frames is well formed and not a meta-group.  Split at frame 8, the first
frame after `startdisp`, the right strip gets `startofs = -2`; split at
frame 11, one frame into the content, the right strip gets `startstill = -1`.
Both frames lie strictly inside the display range `[7, 15)`. -/
theorem split_seq_soft_negative_counts :
    WellFormed leadStillStrip ∧ leadStillStrip.type ≠ SeqType.meta ∧
    leadStillStrip.startdisp < 8 ∧ 11 < leadStillStrip.enddisp ∧
    (split_seq_soft [] leadStillStrip 8).seqn.map Sequence.startofs = some (-2) ∧
    (split_seq_soft [] leadStillStrip 11).seqn.map Sequence.startstill = some (-1) := by
  decide

/-! ## Theorems: result of the batch split -/

/-- C26 (the batch split reports whether new strips exist), evaluated where the
code departs from it.  The list holds one selected strip on `[20, 30)` and the
frame is 15: the strip lies entirely right of the frame and is moved to the
tail, the split policy is never applied and no strip is created, yet
`split_seq_list` returns true. -/
theorem split_seq_list_true_without_new_strip :
    (split_seq_list (fun _ s F => split_seq_soft [] s F) 1
      [{ spanStrip 20 30 with flag := 1 }] [0] 15 0 false).map
        (fun r => (r.2, r.1.strips, r.1.slist, r.1.applied)) =
      some (true, [{ spanStrip 20 30 with flag := 1 }], [0], []) := by
  decide

/-! ## Theorems: swap -/

/-- C29 (swapping two strips preserves extent, durations and gap): for two
strips a and b, each in the recalculated state in which every editing
operation leaves a strip (`BKE_sequence_calc` leaves it as it is), and the gap
`g = b.startdisp - a.enddisp`, after `swap_sequence` b starts where a started,
a ends where b ended, `a.startdisp - b.enddisp = g`, and the displayed duration
of each strip is unchanged.  This holds for every such pair, in particular
when `a.enddisp ≤ b.startdisp`. -/
theorem swap_sequence_preserves (kidsa kidsb : List Sequence) (a b : Sequence)
    (ha : BKE_sequence_calc kidsa a = a) (hb : BKE_sequence_calc kidsb b = b) :
    (swap_sequence kidsa kidsb a b).2.startdisp = a.startdisp ∧
    (swap_sequence kidsa kidsb a b).1.enddisp = b.enddisp ∧
    (swap_sequence kidsa kidsb a b).1.startdisp - (swap_sequence kidsa kidsb a b).2.enddisp =
      b.startdisp - a.enddisp ∧
    (swap_sequence kidsa kidsb a b).1.enddisp - (swap_sequence kidsa kidsb a b).1.startdisp =
      a.enddisp - a.startdisp ∧
    (swap_sequence kidsa kidsb a b).2.enddisp - (swap_sequence kidsa kidsb a b).2.startdisp =
      b.enddisp - b.startdisp := by
  unfold swap_sequence
  simp only [BKE_sequence_calc_translate kidsb b _ hb, BKE_sequence_calc_translate kidsa a _ ha]
  simp only [BKE_sequence_translate]
  refine ⟨?_, ?_, ?_, ?_, ?_⟩ <;> omega

/-- Witness for C29: a on `[0, 10)` and b on `[15, 40)`, five frames apart;
afterwards b is on `[0, 25)` and a on `[30, 40)`. -/
theorem swap_sequence_preserves_witness :
    ((swap_sequence [] [] (spanStrip 0 10) (spanStrip 15 40)).1.startdisp,
      (swap_sequence [] [] (spanStrip 0 10) (spanStrip 15 40)).1.enddisp,
      (swap_sequence [] [] (spanStrip 0 10) (spanStrip 15 40)).2.startdisp,
      (swap_sequence [] [] (spanStrip 0 10) (spanStrip 15 40)).2.enddisp) = (30, 40, 0, 25) ∧
    ((swap_sequence [] [] (spanStrip 0 10) (spanStrip 15 40)).2.startdisp =
      (spanStrip 0 10).startdisp ∧
    (swap_sequence [] [] (spanStrip 0 10) (spanStrip 15 40)).1.enddisp =
      (spanStrip 15 40).enddisp ∧
    (swap_sequence [] [] (spanStrip 0 10) (spanStrip 15 40)).1.startdisp -
        (swap_sequence [] [] (spanStrip 0 10) (spanStrip 15 40)).2.enddisp =
      (spanStrip 15 40).startdisp - (spanStrip 0 10).enddisp ∧
    (swap_sequence [] [] (spanStrip 0 10) (spanStrip 15 40)).1.enddisp -
        (swap_sequence [] [] (spanStrip 0 10) (spanStrip 15 40)).1.startdisp =
      (spanStrip 0 10).enddisp - (spanStrip 0 10).startdisp ∧
    (swap_sequence [] [] (spanStrip 0 10) (spanStrip 15 40)).2.enddisp -
        (swap_sequence [] [] (spanStrip 0 10) (spanStrip 15 40)).2.startdisp =
      (spanStrip 15 40).enddisp - (spanStrip 15 40).startdisp) :=
  ⟨by decide, swap_sequence_preserves [] [] (spanStrip 0 10) (spanStrip 15 40) (by decide)
    (by decide)⟩

/-! ## Lemmas: the trimmed strip after a slip pass -/

theorem split_seq_list_examined_exit (split_seq : Nat → Sequence → Int → SplitOut)
    (F ch : Int) (uc : Bool) (fuel : Nat) (st : SplitListState)
    (h : st.seq = none ∨ st.seq = st.seq_first_new) :
    split_seq_list_examined split_seq F ch uc fuel st = some [] := by
  cases fuel <;> unfold split_seq_list_examined <;>
    rcases h with h | h <;> cases hq : st.seq with
    | none => rfl
    | some p => first
      | (rw [hq] at h; cases h)
      | (simp only; rw [← h, hq, if_pos rfl])

theorem split_seq_list_examined_inv (split_seq : Nat → Sequence → Int → SplitOut)
    (strips0 : List Sequence) (F ch : Int) (uc : Bool) :
    ∀ (rem : List Nat) (fuel : Nat) (done keep tail : List Nat) (st : SplitListState),
      rem.length ≤ fuel →
      SplitListInv split_seq strips0 F ch uc done rem keep tail st →
      (done ++ rem).Nodup → (∀ p ∈ done ++ rem, p < strips0.length) →
      split_seq_list_examined split_seq F ch uc fuel st = some rem := by
  intro rem
  induction rem with
  | nil =>
    intro fuel done keep tail st _ inv _ _
    apply split_seq_list_examined_exit
    rcases inv.seq_eq with h | h
    · right
      rw [h, inv.sfn_eq]; rfl
    · exact Or.inl h.2
  | cons r rem ih =>
    intro fuel done keep tail st hfuel inv hnd hval
    obtain ⟨_, _, _, hseq, hsfn, _, _⟩ := inv.head_facts
    cases fuel with
    | zero => simp at hfuel
    | succ fuel =>
      obtain ⟨keep', tail', inv'⟩ := inv.step hnd hval
      have hnd' : (done ++ [r] ++ rem).Nodup := by
        rw [List.append_assoc]; exact hnd
      have hval' : ∀ p ∈ done ++ [r] ++ rem, p < strips0.length := by
        intro p hp
        rw [List.append_assoc] at hp
        exact hval p hp
      have hrun := ih fuel (done ++ [r]) keep' tail' _ (by simpa using hfuel) inv' hnd' hval'
      unfold split_seq_list_examined
      simp only [hseq]
      rw [if_neg hsfn, hrun]
      rfl

/-- C21 (a batch split visits every original strip once): for a list of
distinct strips and a split policy that rewrites the strip and appends at most
one new strip to the tail, the loop of `split_seq_list` ends within one
iteration per strip of the list at entry; its body runs exactly once with each
of them and with no other strip, and the split policy is never applied to a
strip created during the call (a position past the strips at entry), also when
strips are moved to the tail. -/
theorem split_seq_list_visits_once (split_seq : Nat → Sequence → Int → SplitOut)
    (strips : List Sequence) (slist : List Nat) (split_frame channel : Int)
    (use_cursor_position : Bool) (fuel : Nat)
    (hnd : slist.Nodup) (hval : ∀ p ∈ slist, p < strips.length)
    (hfuel : slist.length ≤ fuel) :
    (∃ st r,
      split_seq_list split_seq fuel strips slist split_frame channel use_cursor_position
        = some (st, r) ∧
      ∀ p ∈ st.applied, p < strips.length) ∧
    ∃ visited,
      split_seq_list_examined split_seq split_frame channel use_cursor_position fuel
        { strips := strips, slist := slist, seq := slist.head?, seq_first_new := none
          applied := [] } = some visited ∧
      (∀ p ∈ slist, visited.count p = 1) ∧ (∀ p ∈ visited, p ∈ slist) := by
  have inv0 : SplitListInv split_seq strips split_frame channel use_cursor_position
      [] slist [] []
      { strips := strips, slist := slist, seq := slist.head?, seq_first_new := none
        applied := [] } := by
    refine ⟨by simp, hnd, hval, le_refl _, fun _ _ => rfl, Or.inl (by simp), rfl, rfl, ?_⟩
    intro p hp
    cases hp
  constructor
  · obtain ⟨st, k, t, hrun, hinv⟩ :=
      split_seq_list_loop_inv split_seq strips split_frame channel use_cursor_position
        slist fuel [] [] [] _ hfuel inv0 (by simpa using hnd) (by simpa using hval)
    rw [List.nil_append] at hinv
    refine ⟨st, decide (st.seq_first_new ≠ none), ?_, ?_⟩
    · unfold split_seq_list
      simp only [hrun]
    · intro p hp
      rw [hinv.applied_eq] at hp
      exact hval p (List.mem_filter.mp hp).1
  · refine ⟨slist, ?_, fun p hp => List.count_eq_one_of_mem hnd hp, fun _ hp => hp⟩
    exact split_seq_list_examined_inv split_seq strips split_frame channel
      use_cursor_position slist fuel [] [] [] _ hfuel inv0 (by simpa using hnd)
      (by simpa using hval)

/-- Witness for C21: the four strips of `batchStrips` split at frame 15; the
first one lies right of the frame and is moved to the tail, the second one is
split, and the loop body runs once with each of the four. -/
theorem split_seq_list_visits_once_witness :
    split_seq_list_examined (fun _ s F => split_seq_soft [] s F) 15 0 false 4
      { strips := batchStrips, slist := [0, 1, 2, 3], seq := some 0, seq_first_new := none
        applied := [] } = some [0, 1, 2, 3] ∧
    ((∃ st r,
      split_seq_list (fun _ s F => split_seq_soft [] s F) 4 batchStrips [0, 1, 2, 3] 15 0
        false = some (st, r) ∧
      ∀ p ∈ st.applied, p < batchStrips.length) ∧
    ∃ visited,
      split_seq_list_examined (fun _ s F => split_seq_soft [] s F) 15 0 false 4
        { strips := batchStrips, slist := [0, 1, 2, 3], seq := [0, 1, 2, 3].head?
          seq_first_new := none, applied := [] } = some visited ∧
      (∀ p ∈ [0, 1, 2, 3], visited.count p = 1) ∧ (∀ p ∈ visited, p ∈ [0, 1, 2, 3])) :=
  ⟨by decide, split_seq_list_visits_once (fun _ s F => split_seq_soft [] s F) batchStrips
    [0, 1, 2, 3] 15 0 false 4 (by decide) (by decide) (by decide)⟩

/-! ## Theorems: selection of nested strips -/

theorem or_select_selected (flag : Nat) : (flag ||| SELECT) &&& SELECT ≠ 0 := by
  unfold SELECT
  rw [Nat.and_one_is_mod]
  have : (flag ||| 1) % 2 = 1 := Nat.or_mod_two_eq_one.mpr (Or.inr rfl)
  omega

theorem or_select_handles (flag : Nat) :
    (flag ||| SELECT) &&& (SEQ_LEFTSEL + SEQ_RIGHTSEL) =
      flag &&& (SEQ_LEFTSEL + SEQ_RIGHTSEL) := by
  have : (SEQ_LEFTSEL + SEQ_RIGHTSEL) &&& SELECT = 0 := by decide
  rw [Nat.and_comm, Nat.and_or_distrib_left, this, Nat.or_zero, Nat.and_comm]

mutual
theorem recurs_sel_seq_child_selects :
    ∀ (t : SeqTree) (seqm_flag : Nat), seqm_flag &&& SELECT ≠ 0 →
      seqm_flag &&& (SEQ_LEFTSEL + SEQ_RIGHTSEL) = 0 → t.noHandleOnParents = true →
      (recurs_sel_seq_child seqm_flag t).allSelected = true
  | SeqTree.node seq seqbase, seqm_flag, hsel, hh, hno => by
    unfold SeqTree.noHandleOnParents at hno
    rw [Bool.and_eq_true, Bool.or_eq_true, decide_eq_true_eq] at hno
    unfold recurs_sel_seq_child
    simp only [hh, ne_eq, not_true_eq_false, if_false, hsel, not_false_eq_true, if_true]
    cases hemp : seqbase.isEmpty with
    | true =>
      have : seqbase = [] := List.isEmpty_iff.mp hemp
      subst this
      simp [SeqTree.allSelected, allSelected, or_select_selected]
    | false =>
      have hflag : seq.flag &&& (SEQ_LEFTSEL + SEQ_RIGHTSEL) = 0 := by
        rcases hno.1 with h | h
        · rw [hemp] at h; cases h
        · exact h
      simp only [Bool.false_eq_true, if_false]
      unfold SeqTree.allSelected
      rw [Bool.and_eq_true, decide_eq_true_eq]
      exact ⟨or_select_selected seq.flag,
        recurs_sel_seq_loop_selects seqbase (seq.flag ||| SELECT) (or_select_selected seq.flag)
          (by rw [or_select_handles]; exact hflag) hno.2⟩
theorem recurs_sel_seq_loop_selects :
    ∀ (l : List SeqTree) (seqm_flag : Nat), seqm_flag &&& SELECT ≠ 0 →
      seqm_flag &&& (SEQ_LEFTSEL + SEQ_RIGHTSEL) = 0 → noHandleOnParents l = true →
      allSelected (recurs_sel_seq_loop seqm_flag l) = true
  | [], _, _, _, _ => by
    unfold recurs_sel_seq_loop allSelected
    rfl
  | t :: rest, seqm_flag, hsel, hh, hno => by
    unfold noHandleOnParents at hno
    rw [Bool.and_eq_true] at hno
    unfold recurs_sel_seq_loop allSelected
    rw [Bool.and_eq_true]
    exact ⟨recurs_sel_seq_child_selects t seqm_flag hsel hh hno.1,
      recurs_sel_seq_loop_selects rest seqm_flag hsel hh hno.2⟩
end

/-- C27 as stated fails: the meta-group `handleMeta` has `SELECT` set and no
handle bit, and it holds a meta-group whose left handle is selected.  After
`recurs_sel_seq` that child has `SELECT` set, but the strip nested in it,
selected before, has `SELECT` cleared. -/
theorem recurs_sel_seq_clears_grandchild :
    handleMeta.seq.flag &&& SELECT ≠ 0 ∧
    handleMeta.seq.flag &&& (SEQ_LEFTSEL + SEQ_RIGHTSEL) = 0 ∧
    (recurs_sel_seq handleMeta).seqbase.map
      (fun t => (t.seq.flag, t.seqbase.map fun u => u.seq.flag)) = [(3, [0])] ∧
    allSelected (recurs_sel_seq handleMeta).seqbase = false := by
  decide

/-- C27, amended (selecting a meta-group selects everything inside it): for a
meta-group strip `m` that has `SELECT` set and neither `SEQ_LEFTSEL` nor
`SEQ_RIGHTSEL`, and in which no nested strip with children of its own carries
`SEQ_LEFTSEL` or `SEQ_RIGHTSEL`, after `recurs_sel_seq(m)` every strip nested
inside `m` at any depth has `SELECT` set, whatever the `SELECT` bits of the
nested strips were before. -/
theorem recurs_sel_seq_selects_all (m : SeqTree) (hsel : m.seq.flag &&& SELECT ≠ 0)
    (hh : m.seq.flag &&& (SEQ_LEFTSEL + SEQ_RIGHTSEL) = 0)
    (hno : noHandleOnParents m.seqbase = true) :
    allSelected (recurs_sel_seq m).seqbase = true := by
  unfold recurs_sel_seq
  exact recurs_sel_seq_loop_selects m.seqbase m.seq.flag hsel hh hno

/-- Witness for C27: a selected meta-group holding an unselected meta-group
without handle bits, which holds an unselected movie strip. -/
theorem recurs_sel_seq_selects_all_witness :
    allSelected (recurs_sel_seq
      (SeqTree.node { plainStrip SeqType.meta with flag := SELECT }
        [SeqTree.node (plainStrip SeqType.meta)
          [SeqTree.node (plainStrip SeqType.movie) []]])).seqbase = true :=
  recurs_sel_seq_selects_all
    (SeqTree.node { plainStrip SeqType.meta with flag := SELECT }
      [SeqTree.node (plainStrip SeqType.meta)
        [SeqTree.node (plainStrip SeqType.movie) []]]) (by decide) (by decide) (by decide)

/-! ## Theorems: slip collection -/

theorem SlipAddOk.nil (a : SlipArrays) (offset num : Nat) (do_trim : Bool) (d : Nat) :
    SlipAddOk a offset num do_trim d [] (a, num) := by
  refine ⟨rfl, fun _ _ => ⟨rfl, rfl⟩, ?_⟩
  intro i s dd h
  simp at h

theorem SlipAddOk.append {a : SlipArrays} {offset num : Nat} {do_trim : Bool} {d : Nat}
    {C1 C2 : List (Sequence × Nat)} {r1 r : SlipArrays × Nat}
    (h1 : SlipAddOk a offset num do_trim d C1 r1)
    (h2 : SlipAddOk r1.1 offset r1.2 do_trim d C2 r) :
    SlipAddOk a offset num do_trim d (C1 ++ C2) r := by
  obtain ⟨n1, f1, e1⟩ := h1
  obtain ⟨n2, f2, e2⟩ := h2
  refine ⟨?_, ?_, ?_⟩
  · rw [n2, n1, List.length_append]; omega
  · intro j hj
    have hj2 : j < offset + r1.2 := by rw [n1]; omega
    exact ⟨((f2 j hj2).1).trans (f1 j hj).1, ((f2 j hj2).2).trans (f1 j hj).2⟩
  · intro i s dd hi
    by_cases hlt : i < C1.length
    · rw [List.getElem?_append_left hlt] at hi
      have hj2 : offset + num + i < offset + r1.2 := by rw [n1]; omega
      obtain ⟨x1, x2⟩ := e1 i s dd hi
      exact ⟨((f2 _ hj2).1).trans x1, ((f2 _ hj2).2).trans x2⟩
    · rw [List.getElem?_append_right (by omega)] at hi
      obtain ⟨x1, x2⟩ := e2 (i - C1.length) s dd hi
      have hidx : offset + r1.2 + (i - C1.length) = offset + num + i := by rw [n1]; omega
      rw [hidx] at x1 x2
      exact ⟨x1, x2⟩

theorem SlipAddOk.single (a : SlipArrays) (offset num : Nat) (do_trim : Bool) (d : Nat)
    (seq : Sequence) (r : SlipArrays)
    (hr : r = (a.set_seq (offset + num) seq).set_trim (offset + num) do_trim ∨
      r = ((a.set_seq (offset + num) seq).set_trim (offset + num) do_trim).set_trim
        (offset + (num + 1)) false) :
    SlipAddOk a offset num do_trim d [(seq, d)] (r, num + 1) := by
  refine ⟨rfl, ?_, ?_⟩
  · intro j hj
    have hne : ¬ j = offset + num := by omega
    have hne2 : ¬ j = offset + (num + 1) := by omega
    rcases hr with rfl | rfl <;>
      simp [SlipArrays.set_seq, SlipArrays.set_trim, hne, hne2]
  · intro i s dd hi
    cases i with
    | zero =>
      simp only [List.getElem?_cons_zero, Option.some.injEq, Prod.mk.injEq] at hi
      obtain ⟨rfl, rfl⟩ := hi
      have hne2 : ¬ offset + num = offset + (num + 1) := by omega
      rcases hr with rfl | rfl <;>
        simp [SlipArrays.set_seq, SlipArrays.set_trim, hne2]
    | succ i => simp at hi

theorem SlipAddOk.nested (a : SlipArrays) (offset num : Nat) (do_trim : Bool) (d : Nat)
    (seq : Sequence) (C : List (Sequence × Nat)) (r : SlipArrays × Nat)
    (hC : ∀ x ∈ C, d + 1 ≤ x.2)
    (h : SlipAddOk ((a.set_seq (offset + num) seq).set_trim (offset + num) do_trim)
      (num + 1 + offset) 0 false (d + 1) C r) :
    SlipAddOk a offset num do_trim d ((seq, d) :: C) (r.1, num + 1 + r.2) := by
  obtain ⟨n1, f1, e1⟩ := h
  refine ⟨?_, ?_, ?_⟩
  · show num + 1 + r.2 = num + (C.length + 1)
    rw [n1]; omega
  · intro j hj
    have hne : ¬ j = offset + num := by omega
    obtain ⟨x1, x2⟩ := f1 j (by omega)
    simp only [SlipArrays.set_seq, SlipArrays.set_trim, hne, if_false] at x1 x2
    exact ⟨x1, x2⟩
  · intro i s dd hi
    cases i with
    | zero =>
      simp only [List.getElem?_cons_zero, Option.some.injEq, Prod.mk.injEq] at hi
      obtain ⟨rfl, rfl⟩ := hi
      obtain ⟨x1, x2⟩ := f1 (offset + num) (by omega)
      simp only [SlipArrays.set_seq, SlipArrays.set_trim, if_true] at x1 x2
      simp only [Nat.add_zero, decide_True, Bool.and_true]
      exact ⟨x1, x2⟩
    | succ i =>
      rw [List.getElem?_cons_succ] at hi
      obtain ⟨x1, x2⟩ := e1 i s dd hi
      have hidx : num + 1 + offset + 0 + i = offset + num + (i + 1) := by omega
      rw [hidx] at x1 x2
      have hdd : d + 1 ≤ dd := hC (s, dd) (List.getElem?_mem hi)
      have hne : ¬ dd = d := by omega
      simp only [Bool.false_and] at x2
      simp only [hne, decide_False, Bool.and_false]
      exact ⟨x1, x2⟩

mutual
theorem collected_depth_node :
    ∀ (t : SeqTree) (first_level : Bool) (d : Nat), ∀ x ∈ t.collected first_level d, d ≤ x.2
  | SeqTree.node seq seqbase, first_level, d, x, hx => by
    unfold SeqTree.collected at hx
    split_ifs at hx with h1 h2
    · rcases List.mem_cons.mp hx with rfl | h
      · exact Nat.le_refl d
      · have := collected_depth seqbase false (d + 1) x h
        omega
    · rcases List.mem_cons.mp hx with rfl | h
      · exact Nat.le_refl d
      · cases h
    · cases hx
theorem collected_depth :
    ∀ (l : List SeqTree) (first_level : Bool) (d : Nat), ∀ x ∈ collected first_level d l, d ≤ x.2
  | [], _, _, x, hx => by
    unfold collected at hx
    cases hx
  | t :: rest, first_level, d, x, hx => by
    unfold collected at hx
    rcases List.mem_append.mp hx with h | h
    · exact collected_depth_node t first_level d x h
    · exact collected_depth rest first_level d x h
end

mutual
theorem slip_count_sequences_step_eq :
    ∀ (t : SeqTree) (first_level : Bool) (d : Nat),
      slip_count_sequences_step first_level t = (t.collected first_level d).length
  | SeqTree.node seq seqbase, first_level, d => by
    unfold slip_count_sequences_step SeqTree.collected
    split_ifs with h1 h2
    · rw [slip_count_sequences_recursive_eq seqbase false (d + 1), List.length_cons]
      omega
    · rfl
    · rfl
theorem slip_count_sequences_recursive_eq :
    ∀ (l : List SeqTree) (first_level : Bool) (d : Nat),
      slip_count_sequences_recursive l first_level = (collected first_level d l).length
  | [], _, _ => by
    unfold slip_count_sequences_recursive collected
    rfl
  | t :: rest, first_level, d => by
    unfold slip_count_sequences_recursive collected
    rw [List.length_append, slip_count_sequences_step_eq t first_level d,
      slip_count_sequences_recursive_eq rest first_level d]
end

mutual
theorem slip_add_sequences_step_ok :
    ∀ (t : SeqTree) (a : SlipArrays) (offset num : Nat) (do_trim : Bool) (d : Nat),
      SlipAddOk a offset num do_trim d (t.collected do_trim d)
        (slip_add_sequences_step a offset num do_trim t)
  | SeqTree.node seq seqbase, a, offset, num, do_trim, d => by
    unfold slip_add_sequences_step SeqTree.collected
    split_ifs with h1 h2 h3
    · exact SlipAddOk.nested a offset num do_trim d seq _ _
        (fun x hx => collected_depth seqbase false (d + 1) x hx)
        (slip_add_sequences_loop_ok seqbase _ (num + 1 + offset) 0 false (d + 1))
    · exact SlipAddOk.single a offset num do_trim d seq _ (Or.inr rfl)
    · exact SlipAddOk.single a offset num do_trim d seq _ (Or.inl rfl)
    · exact SlipAddOk.nil a offset num do_trim d
theorem slip_add_sequences_loop_ok :
    ∀ (l : List SeqTree) (a : SlipArrays) (offset num : Nat) (do_trim : Bool) (d : Nat),
      SlipAddOk a offset num do_trim d (collected do_trim d l)
        (slip_add_sequences_loop a offset num do_trim l)
  | [], a, offset, num, do_trim, d => by
    unfold slip_add_sequences_loop collected
    exact SlipAddOk.nil a offset num do_trim d
  | t :: rest, a, offset, num, do_trim, d => by
    unfold slip_add_sequences_loop collected
    exact SlipAddOk.append (slip_add_sequences_step_ok t a offset num do_trim d)
      (slip_add_sequences_loop_ok rest _ offset _ do_trim d)
end

theorem collected_top_node (t : SeqTree) (d : Nat) :
    ∀ x ∈ t.collected true d, x.2 = d →
      x.1.type.isEffect = false ∧ x.1.flag &&& SELECT ≠ 0 := by
  obtain ⟨seq, seqbase⟩ := t
  intro x hx hd
  unfold SeqTree.collected at hx
  split_ifs at hx with h1 h2
  · rcases List.mem_cons.mp hx with rfl | h
    · simpa using h1
    · have := collected_depth seqbase false (d + 1) x h
      omega
  · rcases List.mem_cons.mp hx with rfl | h
    · simpa using h1
    · cases h
  · cases hx

theorem collected_top (l : List SeqTree) (d : Nat) :
    ∀ x ∈ collected true d l, x.2 = d →
      x.1.type.isEffect = false ∧ x.1.flag &&& SELECT ≠ 0 := by
  induction l with
  | nil =>
    intro x hx
    unfold collected at hx
    cases hx
  | cons t rest ih =>
    intro x hx hd
    unfold collected at hx
    rcases List.mem_append.mp hx with h | h
    · exact collected_top_node t d x h hd
    · exact ih x h hd

/-- C23 as stated fails: in the working list `metaWithMovie` the selected
meta-group holds a movie strip; the collection stores two strips, the movie
strip at index 1, and `trim[1]` is false although that strip is not an effect
strip. -/
theorem slip_add_sequences_recursive_child_untrimmed :
    (slip_add_sequences_recursive metaWithMovie SlipArrays.empty 0 true).2 = 2 ∧
    (slip_add_sequences_recursive metaWithMovie SlipArrays.empty 0 true).1.seq_array 1 =
      some (spanStrip 0 5) ∧
    (spanStrip 0 5).type.isEffect = false ∧
    (slip_add_sequences_recursive metaWithMovie SlipArrays.empty 0 true).1.trim 1 =
      some false := by
  decide

/-- C23, amended (which collected strips are trimmable): in the arrays filled
by `slip_add_sequences_recursive(working list, seq_array, trim, 0, true)`, for
every collected index `i` the array holds the `i`-th strip of the collection
order and `trim[i]` is true exactly when that strip is a strip of the working
list itself (nesting depth 0); every strip collected from inside a meta-group
has `trim[i]` false, and so has every collected effect strip, since the
strips collected from the working list itself are selected and not effects. -/
theorem slip_add_sequences_recursive_trim (seqbasep : List SeqTree) (i : Nat)
    (hi : i < slip_count_sequences_recursive seqbasep true) :
    ∃ s depth, (collected true 0 seqbasep)[i]? = some (s, depth) ∧
      (slip_add_sequences_recursive seqbasep SlipArrays.empty 0 true).1.seq_array i = some s ∧
      (slip_add_sequences_recursive seqbasep SlipArrays.empty 0 true).1.trim i =
        some (decide (depth = 0)) ∧
      (depth = 0 → s.type.isEffect = false ∧ s.flag &&& SELECT ≠ 0) ∧
      (s.type.isEffect = true → depth ≠ 0) := by
  rw [slip_count_sequences_recursive_eq seqbasep true 0] at hi
  obtain ⟨_, _, e⟩ := slip_add_sequences_loop_ok seqbasep SlipArrays.empty 0 0 true 0
  obtain ⟨s, depth, hget⟩ : ∃ s depth, (collected true 0 seqbasep)[i]? = some (s, depth) :=
    ⟨_, _, List.getElem?_eq_getElem hi⟩
  obtain ⟨x1, x2⟩ := e i s depth hget
  have htop := collected_top seqbasep 0 (s, depth) (List.getElem?_mem hget)
  simp only [Nat.zero_add, Bool.true_and] at x1 x2
  refine ⟨s, depth, hget, x1, x2, htop, ?_⟩
  intro heff hd
  rw [(htop hd).1] at heff
  cases heff

/-- Witness for C23: in `metaWithEffect` the effect strip nested in the selected
meta-group is collected at index 1, at depth 1, with `trim[1]` false. -/
theorem slip_add_sequences_recursive_trim_witness :
    ∃ s depth, (collected true 0 metaWithEffect)[1]? = some (s, depth) ∧
      (slip_add_sequences_recursive metaWithEffect SlipArrays.empty 0 true).1.seq_array 1 =
        some s ∧
      (slip_add_sequences_recursive metaWithEffect SlipArrays.empty 0 true).1.trim 1 =
        some (decide (depth = 0)) ∧
      (depth = 0 → s.type.isEffect = false ∧ s.flag &&& SELECT ≠ 0) ∧
      (s.type.isEffect = true → depth ≠ 0) :=
  slip_add_sequences_recursive_trim metaWithEffect 1 (by decide)

theorem slip_add_sequences_recursive_returns_count (seqbasep : List SeqTree) :
    (slip_add_sequences_recursive seqbasep SlipArrays.empty 0 true).2 =
      slip_count_sequences_recursive seqbasep true := by
  rw [slip_count_sequences_recursive_eq seqbasep true 0]
  have h := (slip_add_sequences_loop_ok seqbasep SlipArrays.empty 0 0 true 0).1
  rw [Nat.zero_add] at h
  exact h

/-- C25 (slip collection stays inside its buffers), evaluated where the code
departs from it.  For the working list `metaWithEffect`, a selected meta-group
that holds one effect strip, `slip_count_sequences_recursive` gives `n = 2` and
the collection returns 2, but after storing the effect strip at index 1 it
writes `trim[2]`, one past the end of the buffer. -/
theorem slip_add_sequences_recursive_writes_past_end :
    slip_count_sequences_recursive metaWithEffect true = 2 ∧
    (slip_add_sequences_recursive metaWithEffect SlipArrays.empty 0 true).2 = 2 ∧
    (slip_add_sequences_recursive metaWithEffect SlipArrays.empty 0 true).1.writes =
      [0, 0, 1, 1, 2] ∧
    (slip_add_sequences_recursive metaWithEffect SlipArrays.empty 0 true).1.trim 2 =
      some false := by
  decide

/-! ## Lemmas: slip of a meta-group with its children -/

end Sequencer

namespace ObjectIdentifiers

/-! ## Theorems: object identifiers -/

/-- C30 (ordering agrees with equality): when the order on `PersistentID` is a
strict total order whose equivalence is its `operator==`, `operator<` on
`ObjectIdentifier` is irreflexive and transitive, and two identifiers are
`==` exactly when neither is `<` the other. -/
theorem lt_agrees_with_eq {P : Type} (ltP eqP : P → P → Bool)
    (hP : StrictTotal ltP eqP) :
    (∀ a : ObjectIdentifier P, lt ltP a a = false) ∧
    (∀ a b c : ObjectIdentifier P, lt ltP a b = true → lt ltP b c = true →
      lt ltP a c = true) ∧
    (∀ a b : ObjectIdentifier P,
      eq eqP a b = true ↔ (lt ltP a b = false ∧ lt ltP b a = false)) := by
  refine ⟨?_, ?_, ?_⟩
  · intro a
    unfold lt
    simp only [ne_eq, not_true_eq_false, if_false]
    split_ifs
    · rfl
    · exact hP.irrefl _
  · intro a b c hab hbc
    unfold lt at hab hbc ⊢
    by_cases h1 : a.object = b.object
    · by_cases h2 : b.object = c.object
      · have h3 : a.object = c.object := h1.trans h2
        simp only [ne_eq, h1, h2, h3, not_true_eq_false, if_false] at hab hbc ⊢
        by_cases d1 : a.duplicated_by = b.duplicated_by
        · by_cases d2 : b.duplicated_by = c.duplicated_by
          · have d3 : a.duplicated_by = c.duplicated_by := d1.trans d2
            simp only [d1, d2, d3, not_true_eq_false, if_false] at hab hbc ⊢
            by_cases z : c.duplicated_by = 0
            · simp [z] at hab
            · simp only [z, if_false] at hab hbc ⊢
              exact hP.trans _ _ _ hab hbc
          · simp only [d1, d2, not_true_eq_false, not_false_eq_true, if_false, if_true,
              decide_eq_true_eq] at hab hbc ⊢
            exact hbc
        · by_cases d2 : b.duplicated_by = c.duplicated_by
          · have d3 : ¬ a.duplicated_by = c.duplicated_by := fun e => d1 (e.trans d2.symm)
            simp only [d1, d3, not_false_eq_true, if_true, decide_eq_true_eq] at hab ⊢
            omega
          · simp only [d1, d2, not_false_eq_true, if_true, decide_eq_true_eq] at hab hbc
            have d3 : ¬ a.duplicated_by = c.duplicated_by := by omega
            simp only [d3, not_false_eq_true, if_true, decide_eq_true_eq]
            omega
      · have h3 : ¬ a.object = c.object := fun e => h2 (h1.symm.trans e)
        simp only [ne_eq, h2, h3, not_false_eq_true, if_true, decide_eq_true_eq] at hbc ⊢
        omega
    · by_cases h2 : b.object = c.object
      · have h3 : ¬ a.object = c.object := fun e => h1 (e.trans h2.symm)
        simp only [ne_eq, h1, h3, not_false_eq_true, if_true, decide_eq_true_eq] at hab ⊢
        omega
      · simp only [ne_eq, h1, h2, not_false_eq_true, if_true, decide_eq_true_eq] at hab hbc
        have h3 : ¬ a.object = c.object := by omega
        simp only [ne_eq, h3, not_false_eq_true, if_true, decide_eq_true_eq]
        omega
  · intro a b
    unfold eq lt
    by_cases h1 : a.object = b.object
    · have h1' : b.object = a.object := h1.symm
      by_cases d1 : a.duplicated_by = b.duplicated_by
      · have d1' : b.duplicated_by = a.duplicated_by := d1.symm
        by_cases z : b.duplicated_by = 0
        · simp [h1, d1, z]
        · simp only [ne_eq, h1, d1, z, not_true_eq_false, if_false]
          exact hP.equiv _ _
      · have d1' : ¬ b.duplicated_by = a.duplicated_by := fun e => d1 e.symm
        simp only [ne_eq, h1, d1, d1', not_true_eq_false, not_false_eq_true, if_false, if_true,
          decide_eq_false_iff_not, Bool.false_eq_true, false_iff, not_and, not_not]
        omega
    · have h1' : ¬ b.object = a.object := fun e => h1 e.symm
      simp only [ne_eq, h1, h1', not_false_eq_true, if_true, decide_eq_false_iff_not,
        Bool.false_eq_true, false_iff, not_and, not_not]
      omega

/-- Witness for C30: persistent IDs as integers with their usual order; two
real identifiers of one object are equal whatever their persistent IDs. -/
theorem lt_agrees_with_eq_witness :
    ((∀ a : ObjectIdentifier Int, lt (fun x y => decide (x < y)) a a = false) ∧
    (∀ a b c : ObjectIdentifier Int, lt (fun x y => decide (x < y)) a b = true →
      lt (fun x y => decide (x < y)) b c = true →
      lt (fun x y => decide (x < y)) a c = true) ∧
    (∀ a b : ObjectIdentifier Int,
      eq (fun x y => decide (x = y)) a b = true ↔
        (lt (fun x y => decide (x < y)) a b = false ∧
          lt (fun x y => decide (x < y)) b a = false))) ∧
    eq (fun x y => decide (x = y)) (for_real_object 3 7) (for_real_object 5 7) = true :=
  ⟨lt_agrees_with_eq (fun x y => decide (x < y)) (fun x y => decide (x = y))
    ⟨fun a => by simp, fun a b c h1 h2 => by simp at h1 h2 ⊢; omega,
      fun a b => by simp; omega⟩, by decide⟩

end ObjectIdentifiers
